import Mathlib

/-!
# VCOTuner calibration core

A shallow embedding of the computational core of the VCO calibration tool:

* `CVOutputManager` (Source/CVOutput/CVOutputManager.cpp): pitch / frequency /
  voltage conversion, clamping, the linear interface correction and its
  least-squares fit;
* `CalibrationTable` (Source/Calibration/CalibrationTable.cpp): correction
  entries and their interpolation;
* `CalibrationEngine` (Source/Calibration/CalibrationEngine.cpp): the
  timer-driven sweep state machine.

The C++ `float` / `double` values are embedded in an arbitrary linearly ordered
field `α` (exact arithmetic); the theorems that need `std::pow` / `std::log2`
are stated over `ℝ`.  The methods whose result depends on the rounding of the machine
(`voltageToSample`, `sampleToVoltage`, `computeCalibrationFromPoints`,
`linearInterpolate`, `getPolynomialCoefficients`) are read a second time in binary
floating-point arithmetic (section "Machine arithmetic"), where they are evaluated at
concrete inputs.  C++ `int` values (MIDI notes, counters, milliseconds) are
embedded in `Int`: signed overflow is undefined behaviour in C++ and is not
modelled.  A method that dereferences a collaborator pointer returns an `Option`,
`none` standing for the dereference of a null pointer.
-/

/-- The `<cmath>` functions called by the sources, over the carrier `α`. -/
class CMath (α : Type) where
  /-- The function `std::pow`. -/
  pow : α → α → α
  /-- The function `std::log2`. -/
  log2 : α → α
  /-- The function `std::sqrt`. -/
  sqrt : α → α
  /-- The conversion `static_cast<int> (std::round (x))`. -/
  roundToInt : α → Int

/-- The real-number reading of the `<cmath>` functions. -/
noncomputable instance instCMathReal : CMath ℝ where
  pow := fun x y => Real.rpow x y
  log2 := fun x => Real.logb 2 x
  sqrt := fun x => Real.sqrt x
  roundToInt := fun x => if 0 ≤ x then ⌊x + 1 / 2⌋ else ⌈x - 1 / 2⌉

/-- The template `juce::jlimit (lowerLimit, upperLimit, valueToConstrain)` of the
JUCE library:
`valueToConstrain < lowerLimit ? lowerLimit
   : (upperLimit < valueToConstrain ? upperLimit : valueToConstrain)`. -/
def jlimit {α : Type} [LinearOrderedField α] (lowerLimit upperLimit valueToConstrain : α) : α :=
  if valueToConstrain < lowerLimit then lowerLimit
  else if upperLimit < valueToConstrain then upperLimit
  else valueToConstrain

/-- The enumeration `CVOutputManager::VoltageStandard`. -/
inductive VoltageStandard where
  | OneVoltPerOctave
  | HzPerVolt
  deriving DecidableEq, Repr

/-- The enumeration `CVOutputManager::InterfaceType`. -/
inductive InterfaceType where
  | ExpertSleepers
  | MOTU
  | Generic
  | Custom
  deriving DecidableEq, Repr

/-- The structure `CVOutputManager::InterfaceCalibration`.  `calibrationDate` is a
`juce::Time`, kept as an abstract time stamp. -/
structure InterfaceCalibration (α : Type) where
  isCalibrated : Bool
  gain : α
  offset : α
  calibrationPoints : List (α × α)
  calibrationDate : Nat
  interfaceName : String

/-- The data members of the class `CVOutputManager`. -/
structure CVOutputManager (α : Type) where
  currentOutputVoltage : α
  isActiveFlag : Bool
  currentStandard : VoltageStandard
  interfaceType : InterfaceType
  interfaceMinVolts : α
  interfaceMaxVolts : α
  hzPerVoltScaling : α
  outputChannel : Int
  interfaceCalibration : InterfaceCalibration α

section CVOutput

variable {α : Type} [LinearOrderedField α]

/-- The default member initialisers of `InterfaceCalibration`. -/
def InterfaceCalibration.init : InterfaceCalibration α where
  isCalibrated := false
  gain := 1
  offset := 0
  calibrationPoints := []
  calibrationDate := 0
  interfaceName := ""

namespace CVOutputManager

/-- The constructor `CVOutputManager::CVOutputManager` (default member initialisers). -/
def init : CVOutputManager α where
  currentOutputVoltage := 0
  isActiveFlag := false
  currentStandard := VoltageStandard.OneVoltPerOctave
  interfaceType := InterfaceType.ExpertSleepers
  interfaceMinVolts := -10
  interfaceMaxVolts := 10
  hzPerVoltScaling := 1000
  outputChannel := 0
  interfaceCalibration := InterfaceCalibration.init

/-- The method `setVoltageStandard`. -/
def setVoltageStandard (standard : VoltageStandard) (m : CVOutputManager α) : CVOutputManager α :=
  { m with currentStandard := standard }

/-- The method `setInterfaceType`. -/
def setInterfaceType (type : InterfaceType) (m : CVOutputManager α) : CVOutputManager α :=
  let m := { m with interfaceType := type }
  match type with
  | InterfaceType.ExpertSleepers => { m with interfaceMinVolts := -10, interfaceMaxVolts := 10 }
  | InterfaceType.MOTU => { m with interfaceMinVolts := -10, interfaceMaxVolts := 10 }
  | InterfaceType.Generic => { m with interfaceMinVolts := -10, interfaceMaxVolts := 10 }
  | InterfaceType.Custom => m

/-- The method `setCustomVoltageRange`. -/
def setCustomVoltageRange (minVolts maxVolts : α) (m : CVOutputManager α) : CVOutputManager α :=
  { m with interfaceMinVolts := minVolts, interfaceMaxVolts := maxVolts,
           interfaceType := InterfaceType.Custom }

/-- The inline method `setHzPerVoltScale`. -/
def setHzPerVoltScale (hzPerVolt : α) (m : CVOutputManager α) : CVOutputManager α :=
  { m with hzPerVoltScaling := hzPerVolt }

/-- The inline method `setActive`. -/
def setActive (active : Bool) (m : CVOutputManager α) : CVOutputManager α :=
  { m with isActiveFlag := active }

/-- The inline method `isActive`. -/
def isActive (m : CVOutputManager α) : Bool := m.isActiveFlag

/-- The method `midiToVoltage (float midiPitch)`. -/
def midiToVoltage [CMath α] (m : CVOutputManager α) (midiPitch : α) : α :=
  match m.currentStandard with
  | VoltageStandard.OneVoltPerOctave => (midiPitch - 60) / 12
  | VoltageStandard.HzPerVolt =>
    let freq := 440 * CMath.pow 2 ((midiPitch - 69) / 12)
    freq / m.hzPerVoltScaling

/-- The method `midiToVoltage (int midiNote)`. -/
def midiToVoltageInt [CMath α] (m : CVOutputManager α) (midiNote : Int) : α :=
  m.midiToVoltage (midiNote : α)

/-- The method `frequencyToVoltage`. -/
def frequencyToVoltage [CMath α] (m : CVOutputManager α) (hz : α) : α :=
  match m.currentStandard with
  | VoltageStandard.OneVoltPerOctave =>
    let midiPitch := 69 + 12 * CMath.log2 (hz / 440)
    (midiPitch - 60) / 12
  | VoltageStandard.HzPerVolt => hz / m.hzPerVoltScaling

/-- The method `voltageToMidi`. -/
def voltageToMidi [CMath α] (m : CVOutputManager α) (voltage : α) : α :=
  match m.currentStandard with
  | VoltageStandard.OneVoltPerOctave => 60 + voltage * 12
  | VoltageStandard.HzPerVolt =>
    let freq := voltage * m.hzPerVoltScaling
    69 + 12 * CMath.log2 (freq / 440)

/-- The method `voltageToSample`, in exact arithmetic (`voltageToSampleBinary32` is the
same method in `float` arithmetic). -/
def voltageToSample (m : CVOutputManager α) (volts : α) : α :=
  let range := m.interfaceMaxVolts - m.interfaceMinVolts
  let normalized := (volts - m.interfaceMinVolts) / range
  normalized * 2 - 1

/-- The method `sampleToVoltage`, in exact arithmetic (`sampleToVoltageBinary32` is the
same method in `float` arithmetic). -/
def sampleToVoltage (m : CVOutputManager α) (sample : α) : α :=
  let normalized := (sample + 1) / 2
  let range := m.interfaceMaxVolts - m.interfaceMinVolts
  m.interfaceMinVolts + normalized * range

/-- The method `applyInterfaceCalibration`. -/
def applyInterfaceCalibration (m : CVOutputManager α) (voltage : α) : α :=
  m.interfaceCalibration.gain * voltage + m.interfaceCalibration.offset

/-- The method `outputVoltage`. -/
def outputVoltage (volts : α) (m : CVOutputManager α) : CVOutputManager α :=
  let volts := jlimit m.interfaceMinVolts m.interfaceMaxVolts volts
  let volts := if m.interfaceCalibration.isCalibrated then m.applyInterfaceCalibration volts
               else volts
  { m with currentOutputVoltage := volts }

/-- The method `outputPitch (float midiPitchFloat)`. -/
def outputPitch [CMath α] (midiPitchFloat : α) (m : CVOutputManager α) : CVOutputManager α :=
  m.outputVoltage (m.midiToVoltage midiPitchFloat)

/-- The method `outputFrequency`. -/
def outputFrequency [CMath α] (hz : α) (m : CVOutputManager α) : CVOutputManager α :=
  m.outputVoltage (m.frequencyToVoltage hz)

/-- The inline method `getCurrentVoltage`. -/
def getCurrentVoltage (m : CVOutputManager α) : α := m.currentOutputVoltage

/-- The method `setInterfaceCalibration`. -/
def setInterfaceCalibration (cal : InterfaceCalibration α) (m : CVOutputManager α) :
    CVOutputManager α :=
  { m with interfaceCalibration := cal }

/-- The method `clearInterfaceCalibration`. -/
def clearInterfaceCalibration (m : CVOutputManager α) : CVOutputManager α :=
  { m with interfaceCalibration := InterfaceCalibration.init }

/-- The method `addCalibrationPoint`. -/
def addCalibrationPoint (idealVoltage actualVoltage : α) (m : CVOutputManager α) :
    CVOutputManager α :=
  { m with interfaceCalibration :=
      { m.interfaceCalibration with
        calibrationPoints :=
          m.interfaceCalibration.calibrationPoints ++ [(idealVoltage, actualVoltage)] } }

/-- The first loop of `computeCalibrationFromPoints`: the pair `(sumIdeal, sumActual)`. -/
def sumLoop (points : List (α × α)) : α × α :=
  points.foldl (fun acc p => (acc.1 + p.1, acc.2 + p.2)) (0, 0)

/-- The second loop of `computeCalibrationFromPoints`: the pair `(numerator, denominator)`. -/
def covLoop (meanIdeal meanActual : α) (points : List (α × α)) : α × α :=
  points.foldl
    (fun acc p =>
      let diffIdeal := p.1 - meanIdeal
      let diffActual := p.2 - meanActual
      (acc.1 + diffIdeal * diffActual, acc.2 + diffIdeal * diffIdeal))
    (0, 0)

/-- The method `computeCalibrationFromPoints`, in exact arithmetic
(`computeCalibrationFromPointsBinary32` is the same method in `float` arithmetic); `now`
is the value of `Time::getCurrentTime()`. -/
def computeCalibrationFromPoints (now : Nat) (m : CVOutputManager α) : CVOutputManager α :=
  let points := m.interfaceCalibration.calibrationPoints
  if points.length < 2 then
    { m with interfaceCalibration := { m.interfaceCalibration with isCalibrated := false } }
  else
    let sums := sumLoop points
    let meanIdeal := sums.1 / (points.length : α)
    let meanActual := sums.2 / (points.length : α)
    let nd := covLoop meanIdeal meanActual points
    let numerator := nd.1
    let denominator := nd.2
    let cal : InterfaceCalibration α :=
      if |denominator| < 1 / 10 ^ 10 then
        { m.interfaceCalibration with gain := 1, offset := meanActual - meanIdeal }
      else
        let interfaceGain := numerator / denominator
        let interfaceOffset := meanActual - interfaceGain * meanIdeal
        { m.interfaceCalibration with
          gain := 1 / interfaceGain, offset := -interfaceOffset / interfaceGain }
    { m with interfaceCalibration := { cal with isCalibrated := true, calibrationDate := now } }

end CVOutputManager

end CVOutput

/-! ## The library function `std::sort`

`sortByMidiNote` calls `std::sort` of the C++ standard library.  The definitions of this
section follow the implementation of the GNU library (libstdc++, `bits/stl_algo.h` and
`bits/stl_heap.h`): an introsort loop that partitions every range of more than 16
elements around a median of three (with a heap sort once the depth limit
`2 * __lg (n)` is used up), followed by an insertion sort of the whole range.  The range
is a list, an iterator is a position in it.  Where the library moves elements through a
hole (`__adjust_heap`, `__push_heap`, `__pop_heap`), the value held aside is kept in the
hole, so that each move is a swap; the elements end up in the same places. -/

namespace StdSort

variable {β : Type}

/-- The function `std::iter_swap (i, j)`. -/
def iterSwap (v : List β) (i j : Nat) : List β :=
  match v[i]?, v[j]? with
  | some a, some b => (v.set i b).set j a
  | _, _ => v

/-- The call `__comp (i, j)` of the comparator on the elements at two positions. -/
def compAt (comp : β → β → Bool) (v : List β) (i j : Nat) : Bool :=
  match v[i]?, v[j]? with
  | some a, some b => comp a b
  | _, _ => false

/-- The function `__lg`: the floor of the binary logarithm. -/
def lg : Nat → Nat → Nat
  | 0, _ => 0
  | fuel + 1, n => if n ≤ 1 then 0 else lg fuel (n / 2) + 1

/-- The function `__move_median_to_first (result, a, b, c, comp)`. -/
def moveMedianToFirst (comp : β → β → Bool) (v : List β) (result a b c : Nat) : List β :=
  if compAt comp v a b then
    if compAt comp v b c then iterSwap v result b
    else if compAt comp v a c then iterSwap v result c
    else iterSwap v result a
  else if compAt comp v a c then iterSwap v result a
  else if compAt comp v b c then iterSwap v result c
  else iterSwap v result b

/-- The loop `while (__comp (__first, __pivot)) ++__first;` of `__unguarded_partition`:
the value of `first` after it.  The first argument bounds the number of iterations. -/
def scanUp (comp : β → β → Bool) (v : List β) (pivot : Nat) : Nat → Nat → Nat
  | 0, first => first
  | fuel + 1, first =>
    if compAt comp v first pivot then scanUp comp v pivot fuel (first + 1) else first

/-- The loop `while (__comp (__pivot, __last)) --__last;` of `__unguarded_partition`:
the value of `last` after it.  The first argument bounds the number of iterations. -/
def scanDown (comp : β → β → Bool) (v : List β) (pivot : Nat) : Nat → Nat → Nat
  | 0, last => last
  | fuel + 1, last =>
    if compAt comp v pivot last then scanDown comp v pivot fuel (last - 1) else last

/-- The function `__unguarded_partition (first, last, pivot, comp)`: the range after the
swaps and the returned position.  The first argument bounds the number of iterations of
the outer loop; each iteration moves `first` up, so the length of the range is enough. -/
def unguardedPartition (comp : β → β → Bool) (pivot : Nat) :
    Nat → List β → Nat → Nat → List β × Nat
  | 0, v, first, _ => (v, first)
  | fuel + 1, v, first, last =>
    let first := scanUp comp v pivot v.length first
    let last := scanDown comp v pivot v.length (last - 1)
    if first < last then
      unguardedPartition comp pivot fuel (iterSwap v first last) (first + 1) last
    else (v, first)

/-- The function `__unguarded_partition_pivot (first, last, comp)`. -/
def unguardedPartitionPivot (comp : β → β → Bool) (v : List β) (first last : Nat) :
    List β × Nat :=
  let mid := first + (last - first) / 2
  let v := moveMedianToFirst comp v first (first + 1) mid (last - 1)
  unguardedPartition comp first v.length v (first + 1) last

/-- The function `__push_heap (first, holeIndex, topIndex, value, comp)`, the value
being kept at the hole.  The first argument bounds the number of iterations. -/
def pushHeap (comp : β → β → Bool) (first topIndex : Nat) : Nat → List β → Nat → List β
  | 0, v, _ => v
  | fuel + 1, v, holeIndex =>
    let parent := (holeIndex - 1) / 2
    if holeIndex > topIndex ∧ compAt comp v (first + parent) (first + holeIndex) then
      pushHeap comp first topIndex fuel (iterSwap v (first + holeIndex) (first + parent)) parent
    else v

/-- The first loop of `__adjust_heap`, which moves the hole down to a position without
two children: the range and the position of the hole after it.  The first argument bounds
the number of iterations. -/
def adjustHeapLoop (comp : β → β → Bool) (first len : Nat) :
    Nat → List β → Nat → List β × Nat
  | 0, v, holeIndex => (v, holeIndex)
  | fuel + 1, v, holeIndex =>
    if holeIndex < (len - 1) / 2 then
      let secondChild := 2 * (holeIndex + 1)
      let secondChild :=
        if compAt comp v (first + secondChild) (first + (secondChild - 1)) then secondChild - 1
        else secondChild
      adjustHeapLoop comp first len fuel (iterSwap v (first + holeIndex) (first + secondChild))
        secondChild
    else (v, holeIndex)

/-- The function `__adjust_heap (first, holeIndex, len, value, comp)`, the value being
kept at the hole. -/
def adjustHeap (comp : β → β → Bool) (v : List β) (first holeIndex len : Nat) : List β :=
  let topIndex := holeIndex
  let st := adjustHeapLoop comp first len len v holeIndex
  let st :=
    if len % 2 = 0 ∧ st.2 = (len - 2) / 2 then
      (iterSwap st.1 (first + st.2) (first + (2 * (st.2 + 1) - 1)), 2 * (st.2 + 1) - 1)
    else st
  pushHeap comp first topIndex len st.1 st.2

/-- The loop of `__make_heap` from the position `parent` down to 0. -/
def makeHeapLoop (comp : β → β → Bool) (first len : Nat) : Nat → List β → List β
  | 0, v => adjustHeap comp v first 0 len
  | parent + 1, v => makeHeapLoop comp first len parent (adjustHeap comp v first (parent + 1) len)

/-- The function `__make_heap (first, last, comp)`. -/
def makeHeap (comp : β → β → Bool) (v : List β) (first last : Nat) : List β :=
  if last - first < 2 then v
  else makeHeapLoop comp first (last - first) ((last - first - 2) / 2) v

/-- The function `__pop_heap (first, last, result, comp)`. -/
def popHeap (comp : β → β → Bool) (v : List β) (first last result : Nat) : List β :=
  adjustHeap comp (iterSwap v first result) first 0 (last - first)

/-- The function `__sort_heap (first, last, comp)`.  The first argument bounds the number
of iterations. -/
def sortHeap (comp : β → β → Bool) (first : Nat) : Nat → List β → Nat → List β
  | 0, v, _ => v
  | fuel + 1, v, last =>
    if last - first > 1 then
      sortHeap comp first fuel (popHeap comp v first (last - 1) (last - 1)) (last - 1)
    else v

/-- The function `__partial_sort (first, middle, last, comp)` as `__introsort_loop` calls
it, with `middle = last`: `__heap_select` then only builds the heap. -/
def partialSort (comp : β → β → Bool) (v : List β) (first last : Nat) : List β :=
  sortHeap comp first v.length (makeHeap comp v first last) last

/-- The function `__introsort_loop (first, last, depth_limit, comp)`: every pass of the
loop and every nested call lowers the depth limit by one. -/
def introsortLoop (comp : β → β → Bool) : Nat → List β → Nat → Nat → List β
  | 0, v, first, last => if last - first > 16 then partialSort comp v first last else v
  | depthLimit + 1, v, first, last =>
    if last - first > 16 then
      let cut := unguardedPartitionPivot comp v first last
      introsortLoop comp depthLimit (introsortLoop comp depthLimit cut.1 cut.2 last) first cut.2
    else v

/-- The function `__final_insertion_sort (first, last, comp)`: every element in turn is
moved to the left past the elements greater than it (`__insertion_sort` on the first 16
elements, `__unguarded_insertion_sort` on the others, whose scan ends inside the range
because the introsort loop has left a least element among the first 16).  This is the
insertion sort that keeps an element behind the earlier ones that are not greater. -/
def finalInsertionSort (comp : β → β → Bool) (v : List β) : List β :=
  v.insertionSort (fun a b => comp b a = false)

/-- The function `std::sort (first, last, comp)` on the whole range. -/
def sort (comp : β → β → Bool) (v : List β) : List β :=
  if v.length = 0 then v
  else finalInsertionSort comp (introsortLoop comp (2 * lg v.length v.length) v 0 v.length)

end StdSort

/-! ## Calibration table -/

/-- The structure `CalibrationTable::Entry`. -/
structure Entry (α : Type) where
  midiNote : Int
  idealVoltage : α
  actualVoltage : α
  correctionOffset : α
  measuredFrequency : α
  errorCents : α
  stdDevCents : α

/-- The data members of the class `CalibrationTable`.  `calibrationDate` is a
`juce::Time`, kept as an abstract time stamp. -/
structure CalibrationTable (α : Type) where
  entries : List (Entry α)
  deviceName : String
  deviceBrand : String
  interfaceName : String
  notes : String
  calibrationDate : Nat
  voltageStandard : String

/-- A `const Entry*` into the vector `entries`: the position pointed at (the address)
together with the entry stored there.  Two such pointers are equal when their positions
are. -/
abbrev EntryPtr (α : Type) := Nat × Entry α

section Table

variable {α : Type} [LinearOrderedField α]

/-- The default member initialisers of `Entry`. -/
def Entry.init : Entry α where
  midiNote := 0
  idealVoltage := 0
  actualVoltage := 0
  correctionOffset := 0
  measuredFrequency := 0
  errorCents := 0
  stdDevCents := 0

namespace CalibrationTable

/-- The constructor `CalibrationTable::CalibrationTable`; `now` is the value of
`Time::getCurrentTime()`. -/
def init (now : Nat) : CalibrationTable α where
  entries := []
  deviceName := ""
  deviceBrand := ""
  interfaceName := ""
  notes := ""
  calibrationDate := now
  voltageStandard := "1V/Oct"

/-- The method `addEntry`. -/
def addEntry (entry : Entry α) (t : CalibrationTable α) : CalibrationTable α :=
  { t with entries := t.entries ++ [entry] }

/-- The method `clear`. -/
def clear (t : CalibrationTable α) : CalibrationTable α :=
  { t with entries := [] }

/-- The method `sortByMidiNote`: `std::sort` on the whole vector with the comparator
`a.midiNote < b.midiNote`. -/
def sortByMidiNote (t : CalibrationTable α) : CalibrationTable α :=
  { t with entries := StdSort.sort (fun a b => decide (a.midiNote < b.midiNote)) t.entries }

/-- The method `setCalibrationDate`. -/
def setCalibrationDate (date : Nat) (t : CalibrationTable α) : CalibrationTable α :=
  { t with calibrationDate := date }

/-- The inline method `getEntryCount`. -/
def getEntryCount (t : CalibrationTable α) : Int := (t.entries.length : Int)

/-- The method `findEntryForNote`; `none` is the null pointer. -/
def findEntryForNote (t : CalibrationTable α) (midiNote : Int) : Option (Entry α) :=
  t.entries.find? (fun entry => entry.midiNote == midiNote)

/-- The update of `lower` in one iteration of the search loop of `linearInterpolate`. -/
def lowerStep (pitch : α) (lower : Option (EntryPtr α)) (entry : EntryPtr α) :
    Option (EntryPtr α) :=
  if (entry.2.midiNote : α) ≤ pitch then
    match lower with
    | none => some entry
    | some l => if entry.2.midiNote > l.2.midiNote then some entry else some l
  else lower

/-- The update of `upper` in one iteration of the search loop of `linearInterpolate`. -/
def upperStep (pitch : α) (upper : Option (EntryPtr α)) (entry : EntryPtr α) :
    Option (EntryPtr α) :=
  if (entry.2.midiNote : α) ≥ pitch then
    match upper with
    | none => some entry
    | some u => if entry.2.midiNote < u.2.midiNote then some entry else some u
  else upper

/-- The search loop of `linearInterpolate`: the pair `(lower, upper)` after visiting
every entry in order. -/
def bracket (pitch : α) (entries : List (Entry α)) :
    Option (EntryPtr α) × Option (EntryPtr α) :=
  entries.enum.foldl
    (fun acc entry => (lowerStep pitch acc.1 entry, upperStep pitch acc.2 entry))
    (none, none)

/-- The method `linearInterpolate`, in exact arithmetic: notes, pitch and offsets are
exact numbers and the difference of two notes is an integer without overflow
(`linearInterpolateBinary32` is the same method in machine arithmetic).  The result is
`none` when the code dereferences a null pointer (`lower` and `upper` both null after the
loop). -/
def linearInterpolate (t : CalibrationTable α) (pitch : α) : Option α :=
  match t.entries with
  | [] => some 0
  | [e] => some e.correctionOffset
  | _ =>
    match bracket pitch t.entries with
    | (none, none) => none
    | (none, some upper) => some upper.2.correctionOffset
    | (some lower, none) => some lower.2.correctionOffset
    | (some lower, some upper) =>
      if lower.1 = upper.1 then some lower.2.correctionOffset
      else
        let t := (pitch - (lower.2.midiNote : α))
                  / (((upper.2.midiNote - lower.2.midiNote : Int) : α))
        some (lower.2.correctionOffset
                + t * (upper.2.correctionOffset - lower.2.correctionOffset))

/-- The method `getCorrectionOffset`. -/
def getCorrectionOffset (t : CalibrationTable α) (targetMidiPitch : α) : Option α :=
  t.linearInterpolate targetMidiPitch

/-- The method `getCorrectedVoltage`. -/
def getCorrectedVoltage (t : CalibrationTable α) (targetMidiPitch : α) : Option α :=
  if t.entries.isEmpty then some ((targetMidiPitch - 60) / 12)
  else
    let idealVoltage := (targetMidiPitch - 60) / 12
    (t.getCorrectionOffset targetMidiPitch).map (fun correction => idealVoltage + correction)

end CalibrationTable

end Table

/-! ## Calibration engine -/

/-- The enumeration `CalibrationEngine::State`. -/
inductive State where
  | Idle
  | Starting
  | SettlingVoltage
  | WaitingForMeasurement
  | ProcessingResult
  | MovingToNext
  | Paused
  | Completed
  | Error
  deriving DecidableEq, Repr

/-- The structure `CalibrationEngine::CalibrationSettings`. -/
structure CalibrationSettings where
  startNote : Int
  endNote : Int
  noteStep : Int
  settleTimeMs : Int
  measurementsPerNote : Int
  standard : VoltageStandard
  useExternalCVSource : Bool
  deriving DecidableEq, Repr

/-- The default member initialisers of `CalibrationSettings`. -/
def CalibrationSettings.init : CalibrationSettings where
  startNote := 24
  endNote := 96
  noteStep := 1
  settleTimeMs := 200
  measurementsPerNote := 1
  standard := VoltageStandard.OneVoltPerOctave
  useExternalCVSource := false

/-- The structure `CalibrationEngine::CalibrationPoint`.  `timestamp` is a `juce::Time`,
kept as an abstract time stamp. -/
structure CalibrationPoint (α : Type) where
  targetMidiNote : Int
  targetVoltage : α
  measuredFrequency : α
  measuredPitch : α
  pitchError : α
  errorCents : α
  voltageCorrection : α
  stdDevCents : α
  timestamp : Nat

/-- Modelled from the spec: the measurement record `VCOTuner::measurement_t` (the header
`VCOTuner.h` is not among the sources), with the fields `frequency`,
`pitchOffsetSemitones` and `pitchDeviation` of the measurement collaborator contract. -/
structure Measurement (α : Type) where
  frequency : α
  pitchOffsetSemitones : α
  pitchDeviation : α

/-- Modelled from the spec: the measurement collaborator `VCOTuner` (the header
`VCOTuner.h` is not among the sources).  The engine only calls
`startSingleMeasurement (targetNote)` on it; the model keeps the notes requested so far,
oldest first. -/
structure Tuner where
  requests : List Int
  deriving DecidableEq, Repr

/-- Modelled from the spec: the call `VCOTuner::startSingleMeasurement`. -/
def Tuner.startSingleMeasurement (note : Int) (t : Tuner) : Tuner :=
  { t with requests := t.requests ++ [note] }

/-- The status text handed to `Listener::calibrationProgress`: the literal
`"Starting calibration..."`, or the text `"Note <n>: <e> cents error"`, kept as its two
arguments. -/
inductive StatusText (α : Type) where
  | literal (text : String)
  | noteError (note : Int) (errorCents : α)

/-- One call on the listener list (`CalibrationEngine::Listener`). -/
inductive Notification (α : Type) where
  | calibrationStarted
  | calibrationPointCompleted (point : CalibrationPoint α)
  | calibrationProgress (percent : α) (status : StatusText α)
  | calibrationCompleted (table : CalibrationTable α)
  | calibrationError (error : String)
  | calibrationCancelled

/-- The data members of the class `CalibrationEngine`.  `tuner` and `cvOutput` are the
two collaborator pointers (`none` is the null pointer) together with the state of the
object pointed at; `notifications` is what the listeners have received, oldest first;
`timerRunning` is the state of the `juce::Timer` base class. -/
structure CalibrationEngine (α : Type) where
  tuner : Option Tuner
  cvOutput : Option (CVOutputManager α)
  notifications : List (Notification α)
  timerRunning : Bool
  state : State
  settings : CalibrationSettings
  currentNoteIndex : Int
  currentMeasurementCount : Int
  currentPoint : CalibrationPoint α
  calibrationData : List (CalibrationPoint α)
  frequencyAccumulator : List α
  settleCounter : Int

section Engine

variable {α : Type} [LinearOrderedField α]

/-- The default member initialisers of `CalibrationPoint`. -/
def CalibrationPoint.init : CalibrationPoint α where
  targetMidiNote := 0
  targetVoltage := 0
  measuredFrequency := 0
  measuredPitch := 0
  pitchError := 0
  errorCents := 0
  voltageCorrection := 0
  stdDevCents := 0
  timestamp := 0

namespace CalibrationEngine

/-- The constructor `CalibrationEngine::CalibrationEngine`. -/
def init (t : Option Tuner) (cv : Option (CVOutputManager α)) : CalibrationEngine α where
  tuner := t
  cvOutput := cv
  notifications := []
  timerRunning := false
  state := State.Idle
  settings := CalibrationSettings.init
  currentNoteIndex := 0
  currentMeasurementCount := 0
  currentPoint := CalibrationPoint.init
  calibrationData := []
  frequencyAccumulator := []
  settleCounter := 0

/-- A call `listeners.call (...)`. -/
def notify (n : Notification α) (e : CalibrationEngine α) : CalibrationEngine α :=
  { e with notifications := e.notifications ++ [n] }

/-- The inline method `isRunning`. -/
def isRunning (e : CalibrationEngine α) : Bool :=
  e.state != State.Idle && e.state != State.Completed && e.state != State.Error

/-- The inline method `isPaused`. -/
def isPaused (e : CalibrationEngine α) : Bool := e.state == State.Paused

/-- The method `setError`.  The result is `none` when the code dereferences the null
`cvOutput`. -/
def setError (error : String) (e : CalibrationEngine α) : Option (CalibrationEngine α) :=
  let e := { e with timerRunning := false }
  match e.cvOutput with
  | none => none
  | some cv =>
    let e := { e with cvOutput := some (cv.setActive false), state := State.Error }
    some (e.notify (Notification.calibrationError error))

/-- The method `startCalibration`. -/
def startCalibration (s : CalibrationSettings) (e : CalibrationEngine α) :
    Option (CalibrationEngine α) :=
  if e.tuner.isNone || e.cvOutput.isNone then
    e.setError "Tuner or CV output not configured"
  else
    let e := { e with settings := s, calibrationData := [], frequencyAccumulator := [],
                      currentNoteIndex := 0, currentMeasurementCount := 0 }
    match e.cvOutput with
    | none => none
    | some cv =>
      let e := { e with cvOutput := some ((cv.setVoltageStandard e.settings.standard).setActive true),
                        state := State.Starting }
      let e := e.notify Notification.calibrationStarted
      let e := e.notify
        (Notification.calibrationProgress 0 (StatusText.literal "Starting calibration..."))
      some { e with timerRunning := true }

/-- The method `pauseCalibration`. -/
def pauseCalibration (e : CalibrationEngine α) : Option (CalibrationEngine α) :=
  if e.isRunning then
    let e := { e with state := State.Paused, timerRunning := false }
    match e.cvOutput with
    | none => none
    | some cv => some { e with cvOutput := some (cv.setActive false) }
  else some e

/-- The method `resumeCalibration`. -/
def resumeCalibration (e : CalibrationEngine α) : Option (CalibrationEngine α) :=
  if e.state = State.Paused then
    match e.cvOutput with
    | none => none
    | some cv =>
      some { e with cvOutput := some (cv.setActive true), state := State.SettlingVoltage,
                    settleCounter := 0, timerRunning := true }
  else some e

/-- The method `cancelCalibration`. -/
def cancelCalibration (e : CalibrationEngine α) : Option (CalibrationEngine α) :=
  let e := { e with timerRunning := false, state := State.Idle }
  match e.cvOutput with
  | none => none
  | some cv =>
    let e := { e with cvOutput := some (cv.setActive false) }
    some (e.notify Notification.calibrationCancelled)

/-- The method `startMeasurement`. -/
def startMeasurement (e : CalibrationEngine α) : CalibrationEngine α :=
  match e.tuner with
  | none => e
  | some t => { e with tuner := some (t.startSingleMeasurement e.currentPoint.targetMidiNote) }

/-- The method `outputCurrentVoltage`. -/
def outputCurrentVoltage (e : CalibrationEngine α) : CalibrationEngine α :=
  if !e.settings.useExternalCVSource then
    match e.cvOutput with
    | none => e
    | some cv => { e with cvOutput := some (cv.outputVoltage e.currentPoint.targetVoltage) }
  else e

/-- The method `triggerManualMeasurement`. -/
def triggerManualMeasurement [CMath α] (knownVoltage : α) (e : CalibrationEngine α) :
    Option (CalibrationEngine α) :=
  if !e.settings.useExternalCVSource then some e
  else
    match e.cvOutput with
    | none => none
    | some cv =>
      let e := { e with currentPoint :=
        { e.currentPoint with
          targetVoltage := knownVoltage,
          targetMidiNote := CMath.roundToInt (cv.voltageToMidi knownVoltage) } }
      some (startMeasurement { e with state := State.WaitingForMeasurement })

/-- The method `getTotalPoints`; the C++ integer division truncates. -/
def getTotalPoints (e : CalibrationEngine α) : Int :=
  if e.settings.noteStep ≤ 0 then 0
  else Int.tdiv (e.settings.endNote - e.settings.startNote) e.settings.noteStep + 1

/-- The inline method `getCompletedPoints`. -/
def getCompletedPoints (e : CalibrationEngine α) : Int := (e.calibrationData.length : Int)

/-- The method `getProgressPercent`. -/
def getProgressPercent (e : CalibrationEngine α) : α :=
  let total := e.getTotalPoints
  if total ≤ 0 then 0
  else ((e.calibrationData.length : α) / (total : α)) * 100

/-- The method `generateCalibrationTable`; `now` is the value of
`Time::getCurrentTime()`.  The result is `none` when the code dereferences the null
`cvOutput`. -/
def generateCalibrationTable [CMath α] (now : Nat) (e : CalibrationEngine α) :
    Option (CalibrationTable α) :=
  let table : CalibrationTable α := CalibrationTable.init now
  let filled : Option (CalibrationTable α) :=
    e.calibrationData.foldl
      (fun acc point =>
        match acc, e.cvOutput with
        | some table, some cv =>
          let idealVoltage := cv.midiToVoltageInt point.targetMidiNote
          some (table.addEntry
            { midiNote := point.targetMidiNote
              idealVoltage := idealVoltage
              actualVoltage := idealVoltage + point.voltageCorrection
              correctionOffset := point.voltageCorrection
              measuredFrequency := point.measuredFrequency
              errorCents := point.errorCents
              stdDevCents := point.stdDevCents })
        | _, _ => none)
      (some table)
  filled.map (fun table => (table.sortByMidiNote).setCalibrationDate now)

/-- The method `finishCalibration`. -/
def finishCalibration [CMath α] (now : Nat) (e : CalibrationEngine α) :
    Option (CalibrationEngine α) :=
  let e := { e with timerRunning := false }
  match e.cvOutput with
  | none => none
  | some cv =>
    let e := { e with cvOutput := some (cv.setActive false), state := State.Completed }
    match e.generateCalibrationTable now with
    | none => none
    | some table => some (e.notify (Notification.calibrationCompleted table))

/-- The method `advanceToNextPoint`. -/
def advanceToNextPoint [CMath α] (now : Nat) (e : CalibrationEngine α) :
    Option (CalibrationEngine α) :=
  let e := { e with currentNoteIndex := e.currentNoteIndex + 1 }
  let currentNote := e.settings.startNote + e.currentNoteIndex * e.settings.noteStep
  if currentNote > e.settings.endNote then
    e.finishCalibration now
  else
    match e.cvOutput with
    | none => none
    | some cv =>
      let e := { e with
        currentPoint :=
          { (CalibrationPoint.init : CalibrationPoint α) with
            targetMidiNote := currentNote
            targetVoltage := cv.midiToVoltageInt currentNote }
        currentMeasurementCount := 0
        frequencyAccumulator := [] }
      let e := e.outputCurrentVoltage
      some { e with state := State.SettlingVoltage, settleCounter := 0 }

/-- The method `timerCallback`. -/
def timerCallback [CMath α] (now : Nat) (e : CalibrationEngine α) :
    Option (CalibrationEngine α) :=
  match e.state with
  | State.Starting =>
    match e.cvOutput with
    | none => none
    | some cv =>
      let e := { e with
        currentNoteIndex := 0
        currentPoint :=
          { (CalibrationPoint.init : CalibrationPoint α) with
            targetMidiNote := e.settings.startNote
            targetVoltage := cv.midiToVoltageInt e.settings.startNote } }
      let e := e.outputCurrentVoltage
      some { e with state := State.SettlingVoltage, settleCounter := 0 }
  | State.SettlingVoltage =>
    let e := { e with settleCounter := e.settleCounter + 1 }
    if e.settleCounter * 10 ≥ e.settings.settleTimeMs then
      some (startMeasurement { e with state := State.WaitingForMeasurement })
    else some e
  | State.WaitingForMeasurement => some e
  | State.ProcessingResult =>
    let e := { e with currentMeasurementCount := e.currentMeasurementCount + 1 }
    if e.currentMeasurementCount ≥ e.settings.measurementsPerNote then
      let e := { e with calibrationData := e.calibrationData ++ [e.currentPoint] }
      let e := e.notify (Notification.calibrationPointCompleted e.currentPoint)
      let e := e.notify
        (Notification.calibrationProgress e.getProgressPercent
          (StatusText.noteError e.currentPoint.targetMidiNote e.currentPoint.errorCents))
      some { e with state := State.MovingToNext }
    else
      some (startMeasurement { e with state := State.WaitingForMeasurement })
  | State.MovingToNext => e.advanceToNextPoint now
  | State.Completed => some { e with timerRunning := false }
  | State.Error => some { e with timerRunning := false }
  | State.Paused => some { e with timerRunning := false }
  | State.Idle => some { e with timerRunning := false }

/-- The method `processCurrentMeasurement`; `now` is the value of
`Time::getCurrentTime()`. -/
def processCurrentMeasurement [CMath α] (now : Nat) (m : Measurement α)
    (e : CalibrationEngine α) : CalibrationEngine α :=
  let e := { e with frequencyAccumulator := e.frequencyAccumulator ++ [m.frequency] }
  let avgFreq := e.frequencyAccumulator.foldl (fun acc f => acc + f) 0
  let avgFreq := avgFreq / (e.frequencyAccumulator.length : α)
  let idealFreq := 440 * CMath.pow 2 (((e.currentPoint.targetMidiNote - 69 : Int) : α) / 12)
  let measuredPitch := 69 + 12 * CMath.log2 (avgFreq / 440)
  let pitchError := measuredPitch - (e.currentPoint.targetMidiNote : α)
  let errorCents := pitchError * 100
  let voltageCorrection :=
    if e.settings.standard = VoltageStandard.OneVoltPerOctave then
      -pitchError / 12
    else
      let targetVoltage := idealFreq / 1000
      let actualVoltage := avgFreq / 1000
      targetVoltage - actualVoltage
  { e with currentPoint :=
    { e.currentPoint with
      measuredFrequency := avgFreq
      measuredPitch := measuredPitch
      pitchError := pitchError
      errorCents := errorCents
      voltageCorrection := voltageCorrection
      stdDevCents := m.pitchDeviation * 100
      timestamp := now } }

/-- The listener callback `newMeasurementReady`. -/
def newMeasurementReady [CMath α] (now : Nat) (m : Measurement α) (e : CalibrationEngine α) :
    CalibrationEngine α :=
  if e.state ≠ State.WaitingForMeasurement then e
  else
    let e := e.processCurrentMeasurement now m
    { e with state := State.ProcessingResult }

/-- The listener callback `tunerStopped`. -/
def tunerStopped (e : CalibrationEngine α) : Option (CalibrationEngine α) :=
  if e.state = State.WaitingForMeasurement then
    e.setError "Measurement failed - no signal detected"
  else some e

/-- The engines the public interface produces from a freshly constructed one: the
calls of the caller (`startCalibration`, `pauseCalibration`, `resumeCalibration`,
`cancelCalibration`, `triggerManualMeasurement`), the timer tick, the two listener
callbacks, and changes other code makes to the two collaborator objects. -/
inductive Reachable [CMath α] : CalibrationEngine α → Prop where
  | init (t : Option Tuner) (cv : Option (CVOutputManager α)) :
      Reachable (CalibrationEngine.init t cv)
  | startCalibration {e e2 : CalibrationEngine α} (s : CalibrationSettings) :
      Reachable e → e.startCalibration s = some e2 → Reachable e2
  | pauseCalibration {e e2 : CalibrationEngine α} :
      Reachable e → e.pauseCalibration = some e2 → Reachable e2
  | resumeCalibration {e e2 : CalibrationEngine α} :
      Reachable e → e.resumeCalibration = some e2 → Reachable e2
  | cancelCalibration {e e2 : CalibrationEngine α} :
      Reachable e → e.cancelCalibration = some e2 → Reachable e2
  | triggerManualMeasurement {e e2 : CalibrationEngine α} (knownVoltage : α) :
      Reachable e → e.triggerManualMeasurement knownVoltage = some e2 → Reachable e2
  | timerCallback {e e2 : CalibrationEngine α} (now : Nat) :
      Reachable e → e.timerCallback now = some e2 → Reachable e2
  | newMeasurementReady {e : CalibrationEngine α} (now : Nat) (m : Measurement α) :
      Reachable e → Reachable (e.newMeasurementReady now m)
  | tunerStopped {e e2 : CalibrationEngine α} :
      Reachable e → e.tunerStopped = some e2 → Reachable e2
  | collaborators {e : CalibrationEngine α} (f : Tuner → Tuner)
      (g : CVOutputManager α → CVOutputManager α) :
      Reachable e → Reachable { e with tuner := e.tuner.map f, cvOutput := e.cvOutput.map g }

end CalibrationEngine

end Engine

/-! ## Auxiliary definitions and concrete inputs -/

/-- The common shape of `lowerStep` and `upperStep`: among the entries satisfying `c`
keep the first one with the least key `k`. -/
def selStep {α : Type} (c : Entry α → Prop) [DecidablePred c] (k : Entry α → Int)
    (acc : Option (EntryPtr α)) (entry : EntryPtr α) : Option (EntryPtr α) :=
  if c entry.2 then
    match acc with
    | none => some entry
    | some a => if k entry.2 < k a.2 then some entry else some a
  else acc

/-- A manager with one calibration point and a previously stored correction
`gain = 3`, `offset = 7`, `isCalibrated = true`. -/
def onePointManager : CVOutputManager ℚ :=
  { (CVOutputManager.init : CVOutputManager ℚ) with
    interfaceCalibration :=
      { isCalibrated := true, gain := 3, offset := 7, calibrationPoints := [(1, 2)],
        calibrationDate := 5, interfaceName := "ES-8" } }

/-- A calibrated manager on the default range `[-10, 10]` with correction
`gain = 1/2`, `offset = -1/4`. -/
def calibratedManager : CVOutputManager ℚ :=
  { (CVOutputManager.init : CVOutputManager ℚ) with
    interfaceCalibration :=
      { isCalibrated := true, gain := 1 / 2, offset := -(1 / 4), calibrationPoints := [],
        calibrationDate := 0, interfaceName := "" } }

/-- The table with the entries `(48, 0.10)` and `(60, -0.10)`. -/
def twoEntryTable : CalibrationTable ℚ :=
  ((CalibrationTable.init 0).addEntry
      { (Entry.init : Entry ℚ) with midiNote := 48, correctionOffset := 1 / 10 }).addEntry
    { (Entry.init : Entry ℚ) with midiNote := 60, correctionOffset := -(1 / 10) }

/-! ### The end-to-end sweep scenario -/

section Scenario

variable {α : Type} [LinearOrderedField α]

/-- The answer of the scenario's measurement collaborator to a request for `note`: a
measurement with the exact ideal frequency `440 * 2 ^ ((note - 69) / 12)`. -/
def idealMeasurement [CMath α] (note : Int) : Measurement α where
  frequency := 440 * CMath.pow 2 (((note - 69 : Int) : α) / 12)
  pitchOffsetSemitones := 0
  pitchDeviation := 0

/-- The notes requested from the measurement collaborator so far. -/
def requestsOf (e : CalibrationEngine α) : List Int :=
  match e.tuner with
  | none => []
  | some t => t.requests

/-- The collaborator answers the given requests, in order, by measurement-ready events. -/
def answerRequests [CMath α] (now : Nat) (notes : List Int) (e : CalibrationEngine α) :
    CalibrationEngine α :=
  notes.foldl (fun e note => e.newMeasurementReady now (idealMeasurement note)) e

/-- One tick of the timer followed by the collaborator's answers to the requests the tick
issued. -/
def sweepStep [CMath α] (now : Nat) (e : CalibrationEngine α) : Option (CalibrationEngine α) :=
  match e.timerCallback now with
  | none => none
  | some e1 => some (answerRequests now ((requestsOf e1).drop (requestsOf e).length) e1)

/-- Drive the engine by ticks and measurement-ready events until the tick stops (or the
fuel is used up). -/
def runSweep [CMath α] (now : Nat) : Nat → CalibrationEngine α → Option (CalibrationEngine α)
  | 0, e => some e
  | fuel + 1, e =>
    if e.timerRunning then
      match sweepStep now e with
      | none => none
      | some e1 => runSweep now fuel e1
    else some e

/-- The settings of the scenario: notes 60 to 62 in steps of 1, settle time 20 ms, one
measurement per note; the two remaining fields are left to the caller. -/
def scenarioSettings (standard : VoltageStandard) (useExternalCVSource : Bool) :
    CalibrationSettings where
  startNote := 60
  endNote := 62
  noteStep := 1
  settleTimeMs := 20
  measurementsPerNote := 1
  standard := standard
  useExternalCVSource := useExternalCVSource

/-- The tables carried by the `calibrationCompleted` notifications, oldest first. -/
def completedTables (ns : List (Notification α)) : List (CalibrationTable α) :=
  ns.filterMap (fun n =>
    match n with
    | Notification.calibrationCompleted table => some table
    | _ => none)

/-- Whether a notification is `calibrationError` or `calibrationCancelled`. -/
def isErrorOrCancelled (n : Notification α) : Bool :=
  match n with
  | Notification.calibrationError _ => true
  | Notification.calibrationCancelled => true
  | _ => false

end Scenario

/-- The engine right after `startCalibration` with the scenario settings, over the
reals. -/
noncomputable def startedEngine : CalibrationEngine ℝ :=
  { (CalibrationEngine.init (some { requests := [] })
      (some CVOutputManager.init) : CalibrationEngine ℝ) with
    cvOutput := some ((CVOutputManager.init.setVoltageStandard
      VoltageStandard.OneVoltPerOctave).setActive true)
    notifications := [Notification.calibrationStarted,
      Notification.calibrationProgress 0 (StatusText.literal "Starting calibration...")]
    timerRunning := true
    state := State.Starting
    settings := scenarioSettings VoltageStandard.OneVoltPerOctave false }

/-- An engine that is `Idle` after a cancelled sweep, over the reals. -/
noncomputable def cancelledEngine : CalibrationEngine ℝ :=
  { (CalibrationEngine.init (some { requests := [60] })
      (some CVOutputManager.init) : CalibrationEngine ℝ) with
    notifications := [Notification.calibrationStarted, Notification.calibrationCancelled]
    currentPoint := { (CalibrationPoint.init : CalibrationPoint ℝ) with targetMidiNote := 60 }
    settleCounter := 2 }

/-- The divisors of the divisions `computeCalibrationFromPoints` performs, in the order
of execution: the two divisions by `points.size ()` for the means, and in the regular
branch `numerator / denominator`, `1.0f / interfaceGain` and
`-interfaceOffset / interfaceGain`. -/
def computeCalibrationDivisors {α : Type} [LinearOrderedField α] (m : CVOutputManager α) :
    List α :=
  let points := m.interfaceCalibration.calibrationPoints
  if points.length < 2 then []
  else
    let sums := CVOutputManager.sumLoop points
    let meanIdeal := sums.1 / (points.length : α)
    let meanActual := sums.2 / (points.length : α)
    let nd := CVOutputManager.covLoop meanIdeal meanActual points
    let numerator := nd.1
    let denominator := nd.2
    if |denominator| < 1 / 10 ^ 10 then
      [(points.length : α), (points.length : α)]
    else
      let interfaceGain := numerator / denominator
      [(points.length : α), (points.length : α), denominator, interfaceGain, interfaceGain]

/-- A calibration state with three points that share the ideal voltage 1. -/
def degenerateManager : CVOutputManager ℚ :=
  ((CVOutputManager.init.addCalibrationPoint 1 2).addCalibrationPoint 1 3).addCalibrationPoint 1 7

/-! ## Calibration table: statistics -/

section TableStatistics

variable {α : Type} [LinearOrderedField α]

namespace CalibrationTable

/-- The method `getMaxErrorCents`. -/
def getMaxErrorCents (t : CalibrationTable α) : α :=
  match t.entries with
  | [] => 0
  | first :: _ =>
    t.entries.foldl (fun maxErr entry => max maxErr entry.errorCents) first.errorCents

/-- The method `getMinErrorCents`. -/
def getMinErrorCents (t : CalibrationTable α) : α :=
  match t.entries with
  | [] => 0
  | first :: _ =>
    t.entries.foldl (fun minErr entry => min minErr entry.errorCents) first.errorCents

/-- The method `getAverageErrorCents`. -/
def getAverageErrorCents (t : CalibrationTable α) : α :=
  if t.entries.isEmpty then 0
  else
    let sum := t.entries.foldl (fun sum entry => sum + |entry.errorCents|) 0
    sum / (t.entries.length : α)

/-- The method `getRMSErrorCents`. -/
def getRMSErrorCents [CMath α] (t : CalibrationTable α) : α :=
  if t.entries.isEmpty then 0
  else
    let sumSquares :=
      t.entries.foldl (fun sumSquares entry => sumSquares + entry.errorCents * entry.errorCents) 0
    CMath.sqrt (sumSquares / (t.entries.length : α))

/-- One iteration of the loop of `getWorstNote` on the pair `(worstNote, worstError)`. -/
def worstStep (worst : Int × α) (entry : Entry α) : Int × α :=
  let absError := |entry.errorCents|
  if absError > worst.2 then (entry.midiNote, absError) else worst

/-- The method `getWorstNote`. -/
def getWorstNote (t : CalibrationTable α) : Int × α :=
  match t.entries with
  | [] => (60, 0)
  | first :: _ => t.entries.foldl worstStep (first.midiNote, |first.errorCents|)

end CalibrationTable

/-- The table with three entries (notes 60, 61, 62) whose `errorCents` are 2, -4, 6. -/
def errorTable (α : Type) [LinearOrderedField α] : CalibrationTable α :=
  (((CalibrationTable.init 0).addEntry
      { (Entry.init : Entry α) with midiNote := 60, errorCents := 2 }).addEntry
      { (Entry.init : Entry α) with midiNote := 61, errorCents := -4 }).addEntry
    { (Entry.init : Entry α) with midiNote := 62, errorCents := 6 }

/-- What the C++ standard promises of `std::sort (first, last, comp)` with the comparator
of `sortByMidiNote`: the result is a permutation of the range in which no element is
followed by one with a smaller note.  The order of elements with equal notes is not
promised. -/
def StdSortPost (before after : List (Entry α)) : Prop :=
  after.Perm before ∧ after.Sorted (fun a b => a.midiNote ≤ b.midiNote)

/-- Stability of a reordering: for every note, the entries with that note come in the same
order as before. -/
def KeepsEqualOrder (before after : List (Entry α)) : Prop :=
  ∀ note : Int,
    after.filter (fun e => decide (e.midiNote = note))
      = before.filter (fun e => decide (e.midiNote = note))

/-- Two entries with the same note 60 and the offsets 1 and 2. -/
def sameNotePair : List (Entry ℚ) :=
  [{ (Entry.init : Entry ℚ) with midiNote := 60, correctionOffset := 1 },
   { (Entry.init : Entry ℚ) with midiNote := 60, correctionOffset := 2 }]

/-- An entry for the note 60 with the given correction offset. -/
def equalNoteEntry (offset : ℚ) : Entry ℚ :=
  { (Entry.init : Entry ℚ) with midiNote := 60, correctionOffset := offset }

/-- A table of seventeen entries for the note 60, the correction offsets being
1, 2, ..., 17 in the order of insertion. -/
def seventeenEqualNotes : CalibrationTable ℚ :=
  { (CalibrationTable.init 0 : CalibrationTable ℚ) with
    entries := ([1, 2, 3, 4, 5, 6, 7, 8, 9, 10, 11, 12, 13, 14, 15, 16, 17] : List ℚ).map
      equalNoteEntry }

end TableStatistics

/-! ## Calibration table: polynomial fit

The `m × m` matrix `A` and the vectors `b`, `coefficients` of `getPolynomialCoefficients`
are functions of the indices; only the indices below `m` are read or written.
`std::pow (x, k)` with a non-negative integer exponent is the power `x ^ k`. -/

section PolynomialFit

variable {α : Type} [LinearOrderedField α]

/-- The effect of `std::swap (v[r1], v[r2])` on a vector (or on the rows of a matrix). -/
def swapRows {β : Type} (v : Nat → β) (r1 r2 : Nat) : Nat → β :=
  fun i => if i = r1 then v r2 else if i = r2 then v r1 else v i

namespace CalibrationTable

/-- The body of the loop of `getPolynomialCoefficients` that builds the normal equations:
the contribution of one entry to `A` and `b`. -/
def accumulateEntry (m : Nat) (Ab : (Nat → Nat → α) × (Nat → α)) (entry : Entry α) :
    (Nat → Nat → α) × (Nat → α) :=
  let x : α := (entry.midiNote : α)
  let y : α := entry.correctionOffset
  (fun i j => if i < m ∧ j < m then Ab.1 i j + x ^ (i + j) else Ab.1 i j,
   fun i => if i < m then Ab.2 i + y * x ^ i else Ab.2 i)

/-- The loop of `getPolynomialCoefficients` that builds the normal equations: the pair
`(A, b)` after all entries were added. -/
def normalEquations (entries : List (Entry α)) (m : Nat) : (Nat → Nat → α) × (Nat → α) :=
  entries.foldl (accumulateEntry m) (fun _ _ => 0, fun _ => 0)

/-- The pivot search of step `k`: the value of `maxRow` after the loop over
`i = k + 1, ..., m - 1`. -/
def findPivot (A : Nat → Nat → α) (m k : Nat) : Nat :=
  (List.range' (k + 1) (m - (k + 1))).foldl
    (fun maxRow i => if |A i k| > |A maxRow k| then i else maxRow) k

/-- The body of the elimination loop of step `k` for row `i`: `factor` is fixed first,
then the columns `j = k, ..., m - 1` of row `i` and the entry `b[i]` are updated. -/
def eliminateRow (m k i : Nat) (Ab : (Nat → Nat → α) × (Nat → α)) :
    (Nat → Nat → α) × (Nat → α) :=
  let factor := Ab.1 i k / Ab.1 k k
  let A := (List.range' k (m - k)).foldl
    (fun A j => fun r c => if r = i ∧ c = j then A i j - factor * A k j else A r c) Ab.1
  (A, fun r => if r = i then Ab.2 i - factor * Ab.2 k else Ab.2 r)

/-- The elimination loop of step `k` over the rows `i = k + 1, ..., m - 1`. -/
def eliminateColumn (m k : Nat) (Ab : (Nat → Nat → α) × (Nat → α)) :
    (Nat → Nat → α) × (Nat → α) :=
  (List.range' (k + 1) (m - (k + 1))).foldl (fun Ab i => eliminateRow m k i Ab) Ab

/-- One step `k` of the forward elimination; `none` is the early `return {}` on a pivot
below `1e-10`. -/
def eliminationStep (m k : Nat) (Ab : (Nat → Nat → α) × (Nat → α)) :
    Option ((Nat → Nat → α) × (Nat → α)) :=
  let maxRow := findPivot Ab.1 m k
  let A := swapRows Ab.1 k maxRow
  let b := swapRows Ab.2 k maxRow
  if |A k k| < 1 / 10 ^ 10 then none
  else some (eliminateColumn m k (A, b))

/-- The forward elimination loop over `k = 0, ..., m - 1`; `none` is the early
`return {}`. -/
def forwardElimination (m : Nat) (Ab : (Nat → Nat → α) × (Nat → α)) :
    Option ((Nat → Nat → α) × (Nat → α)) :=
  (List.range m).foldl
    (fun st k =>
      match st with
      | none => none
      | some Ab => eliminationStep m k Ab)
    (some Ab)

/-- The back substitution loop over `i = m - 1, ..., 0`. -/
def backSubstitution (m : Nat) (Ab : (Nat → Nat → α) × (Nat → α)) : Nat → α :=
  (List.range m).reverse.foldl
    (fun coefficients i =>
      let ci := (List.range' (i + 1) (m - (i + 1))).foldl
        (fun acc j => acc - Ab.1 i j * coefficients j) (Ab.2 i)
      fun r => if r = i then ci / Ab.1 i i else coefficients r)
    (fun _ => 0)

/-- The method `getPolynomialCoefficients`, in exact arithmetic
(`getPolynomialCoefficientsBinary64` is the same method in `double` arithmetic).  The
result is `none` when the code throws: for `degree + 1 < 0` the constructor of
`std::vector` is called with a negative size. -/
def getPolynomialCoefficients (t : CalibrationTable α) (degree : Int) : Option (List α) :=
  let n : Int := (t.entries.length : Int)
  if n < degree + 1 then some []
  else if degree + 1 < 0 then none
  else
    let m := (degree + 1).toNat
    match forwardElimination m (normalEquations t.entries m) with
    | none => some []
    | some Ab => some ((List.range m).map (backSubstitution m Ab))

/-- The method `evaluatePolynomial`. -/
def evaluatePolynomial (coefficients : List α) (pitch : α) : α :=
  (coefficients.foldl
    (fun (acc : α × α) coef => (acc.1 + coef * acc.2, acc.2 * pitch)) (0, 1)).1

end CalibrationTable

/-- The table with the two entries `(24, 0.0)` and `(96, 0.2)`. -/
def fitTable : CalibrationTable ℚ :=
  ((CalibrationTable.init 0).addEntry
      { (Entry.init : Entry ℚ) with midiNote := 24, correctionOffset := 0 }).addEntry
    { (Entry.init : Entry ℚ) with midiNote := 96, correctionOffset := 1 / 5 }

end PolynomialFit

/-! ### Uninterrupted sweeps with an arbitrary measurement collaborator -/

section GeneralSweep

variable {α : Type} [LinearOrderedField α]

/-- The collaborator answers the requests `notes`, of which the first is request number
`i` of the log, by measurement-ready events; `respond i note` is its measurement for
request number `i`. -/
def answerFrom [CMath α] (respond : Nat → Int → Measurement α) (now : Nat) :
    Nat → List Int → CalibrationEngine α → CalibrationEngine α
  | _, [], e => e
  | i, note :: rest, e =>
    answerFrom respond now (i + 1) rest (e.newMeasurementReady now (respond i note))

/-- One tick of the timer followed by the collaborator's answers to the requests the tick
issued. -/
def sweepStepWith [CMath α] (respond : Nat → Int → Measurement α) (now : Nat)
    (e : CalibrationEngine α) : Option (CalibrationEngine α) :=
  match e.timerCallback now with
  | none => none
  | some e1 =>
    some (answerFrom respond now (requestsOf e).length
      ((requestsOf e1).drop (requestsOf e).length) e1)

/-- Drive the engine by ticks and measurement-ready events, without pause, cancel or
manual trigger, until the tick stops (or the fuel is used up). -/
def runSweepWith [CMath α] (respond : Nat → Int → Measurement α) (now : Nat) :
    Nat → CalibrationEngine α → Option (CalibrationEngine α)
  | 0, e => some e
  | fuel + 1, e =>
    if e.timerRunning then
      match sweepStepWith respond now e with
      | none => none
      | some e1 => runSweepWith respond now fuel e1
    else some e

/-- The percentages carried by the `calibrationProgress` notifications, oldest first. -/
def progressPercents (ns : List (Notification α)) : List α :=
  ns.filterMap (fun n =>
    match n with
    | Notification.calibrationProgress percent _ => some percent
    | _ => none)

/-- What a stretch of an uninterrupted sweep leaves alone while it works on one note. -/
structure SweepFrame (e e2 : CalibrationEngine α) : Prop where
  settings : e2.settings = e.settings
  timerRunning : e2.timerRunning = e.timerRunning
  cvOutput : e2.cvOutput = e.cvOutput
  tuner : e2.tuner.isSome = e.tuner.isSome
  calibrationData : e2.calibrationData = e.calibrationData
  notifications : e2.notifications = e.notifications
  currentNoteIndex : e2.currentNoteIndex = e.currentNoteIndex
  targetMidiNote : e2.currentPoint.targetMidiNote = e.currentPoint.targetMidiNote

end GeneralSweep

/-! ### Event traces

The calls that arrive at the engine during a sweep, as data: what the caller does
(`startCalibration`, `pauseCalibration`, `resumeCalibration`, `cancelCalibration`), the
tick of the timer, and the two callbacks of the measurement collaborator. -/

/-- One call arriving at a `CalibrationEngine`. -/
inductive Event (α : Type) where
  | startCalibration (s : CalibrationSettings)
  | tick (now : Nat)
  | measurementReady (now : Nat) (m : Measurement α)
  | tunerStopped
  | pauseCalibration
  | resumeCalibration
  | cancelCalibration

section Events

variable {α : Type} [LinearOrderedField α]

/-- The engine after one call; `none` when the call dereferences a null collaborator. -/
def Event.apply [CMath α] (ev : Event α) (e : CalibrationEngine α) :
    Option (CalibrationEngine α) :=
  match ev with
  | Event.startCalibration s => e.startCalibration s
  | Event.tick now => e.timerCallback now
  | Event.measurementReady now m => some (e.newMeasurementReady now m)
  | Event.tunerStopped => e.tunerStopped
  | Event.pauseCalibration => e.pauseCalibration
  | Event.resumeCalibration => e.resumeCalibration
  | Event.cancelCalibration => e.cancelCalibration

/-- The engine after a sequence of calls, oldest first. -/
def runEvents [CMath α] : List (Event α) → CalibrationEngine α → Option (CalibrationEngine α)
  | [], e => some e
  | ev :: rest, e => (ev.apply e).bind (runEvents rest)

/-- Whether a call is a tick or a measurement-ready event: the calls of an uninterrupted
sweep. -/
def Event.isTickOrMeasurement (ev : Event α) : Bool :=
  match ev with
  | Event.tick _ => true
  | Event.measurementReady _ _ => true
  | _ => false

/-- Whether the engine is in one of the states in which the tick performs no work. -/
def State.isQuiet (s : State) : Bool :=
  match s with
  | State.Idle => true
  | State.Paused => true
  | State.Completed => true
  | State.Error => true
  | _ => false

end Events

/-- The settings of a sweep over the single note 69 with no settle time and one
measurement per note. -/
def oneNoteSettings (standard : VoltageStandard) : CalibrationSettings where
  startNote := 69
  endNote := 69
  noteStep := 1
  settleTimeMs := 0
  measurementsPerNote := 1
  standard := standard
  useExternalCVSource := false

/-- The engine of the scenario while it waits for the measurement of note 60: two settle
ticks after the `Starting` tick, one request issued. -/
noncomputable def waitingEngine : CalibrationEngine ℝ :=
  { startedEngine with
    tuner := some { requests := [60] }
    cvOutput := some (((CVOutputManager.init.setVoltageStandard
      VoltageStandard.OneVoltPerOctave).setActive true).outputVoltage
        (((CVOutputManager.init.setVoltageStandard
          VoltageStandard.OneVoltPerOctave).setActive true).midiToVoltageInt 60))
    state := State.WaitingForMeasurement
    currentPoint :=
      { (CalibrationPoint.init : CalibrationPoint ℝ) with
        targetMidiNote := 60
        targetVoltage := ((CVOutputManager.init.setVoltageStandard
          VoltageStandard.OneVoltPerOctave).setActive true).midiToVoltageInt 60 }
    settleCounter := 2 }

/-- An engine in `ProcessingResult` holding two completed points, for notes 62 and 60 (in
that order), over the reals. -/
noncomputable def twoPointEngine : CalibrationEngine ℝ :=
  { startedEngine with
    state := State.ProcessingResult
    calibrationData :=
      [{ (CalibrationPoint.init : CalibrationPoint ℝ) with
          targetMidiNote := 62, voltageCorrection := 1 / 100, measuredFrequency := 293
          errorCents := -12, stdDevCents := 3 },
       { (CalibrationPoint.init : CalibrationPoint ℝ) with
          targetMidiNote := 60, voltageCorrection := -(1 / 50), measuredFrequency := 262
          errorCents := 24, stdDevCents := 1 }] }

/-- The settings of a sweep over the two notes 60 and 61 with no settle time and one
measurement per note. -/
def twoNoteSettings : CalibrationSettings where
  startNote := 60
  endNote := 61
  noteStep := 1
  settleTimeMs := 0
  measurementsPerNote := 1
  standard := VoltageStandard.OneVoltPerOctave
  useExternalCVSource := false

/-- The engine of the scenario (settle time 20 ms) when it has just entered
`SettlingVoltage` for note 60: settle counter 0, no request issued yet. -/
noncomputable def settlingEngine : CalibrationEngine ℝ :=
  { waitingEngine with
    tuner := some { requests := [] }
    state := State.SettlingVoltage
    settleCounter := 0 }

/-- The divisors of the divisions `linearInterpolate` performs, in the order of execution:
none when the function returns before the interpolation step, otherwise the one divisor
`upper->midiNote - lower->midiNote` of the computation of `t`. -/
def CalibrationTable.linearInterpolateDivisors {α : Type} [LinearOrderedField α]
    (t : CalibrationTable α) (pitch : α) : List α :=
  match t.entries with
  | [] => []
  | [_] => []
  | _ =>
    match CalibrationTable.bracket pitch t.entries with
    | (none, none) => []
    | (none, some _) => []
    | (some _, none) => []
    | (some lower, some upper) =>
      if lower.1 = upper.1 then []
      else [(((upper.2.midiNote - lower.2.midiNote : Int) : α))]

/-- A table with two entries for note 60 (offsets 1 and 3) followed by one for note 48
(offset 2): duplicate notes, not sorted. -/
def duplicateNoteTable : CalibrationTable ℚ :=
  (((CalibrationTable.init 0).addEntry
      { (Entry.init : Entry ℚ) with midiNote := 60, correctionOffset := 1 }).addEntry
      { (Entry.init : Entry ℚ) with midiNote := 60, correctionOffset := 3 }).addEntry
    { (Entry.init : Entry ℚ) with midiNote := 48, correctionOffset := 2 }

/-! ### Averaging: the samples of an uninterrupted sweep -/

section Averaging

variable {α : Type} [LinearOrderedField α]

/-- The note of point number `j` of a sweep, `startNote + j * noteStep`
(`advanceToNextPoint` with `currentNoteIndex = j`). -/
def CalibrationSettings.noteAt (s : CalibrationSettings) (j : Nat) : Int :=
  s.startNote + (j : Int) * s.noteStep

/-- The arithmetic mean of a list of samples. -/
def arithmeticMean (xs : List α) : α := xs.sum / (xs.length : α)

/-- The frequencies of the measurement-ready events the engine accepts (those that arrive
while it is in `WaitingForMeasurement`) when the calls `evs` are applied from `e`, oldest
first. -/
def acceptedFrequencies [CMath α] : List (Event α) → CalibrationEngine α → List α
  | [], _ => []
  | ev :: rest, e =>
    let accepted : List α :=
      match ev with
      | Event.measurementReady _ m =>
        if e.state = State.WaitingForMeasurement then [m.frequency] else []
      | _ => []
    match ev.apply e with
    | none => accepted
    | some e1 => accepted ++ acceptedFrequencies rest e1

/-- The state-dependent part of `Averaging`: `d` points are completed, `cur` are the
samples accepted for the current note and `r` the requests issued for it. -/
def averagingPhase (s : CalibrationSettings) (n : Nat) (e : CalibrationEngine α)
    (d : Nat) (cur : List α) (r : Nat) : Prop :=
  match e.state with
  | State.Starting =>
    d = 0 ∧ cur = [] ∧ r = 0 ∧ e.frequencyAccumulator = [] ∧ e.currentMeasurementCount = 0
  | State.SettlingVoltage =>
    e.currentNoteIndex = (d : Int) ∧ e.currentPoint.targetMidiNote = s.noteAt d
      ∧ cur = [] ∧ r = 0 ∧ e.frequencyAccumulator = [] ∧ e.currentMeasurementCount = 0
  | State.WaitingForMeasurement =>
    e.currentNoteIndex = (d : Int) ∧ e.currentPoint.targetMidiNote = s.noteAt d
      ∧ cur = e.frequencyAccumulator ∧ (cur.length : Int) = e.currentMeasurementCount
      ∧ (r : Int) = e.currentMeasurementCount + 1 ∧ r ≤ n
  | State.ProcessingResult =>
    e.currentNoteIndex = (d : Int) ∧ e.currentPoint.targetMidiNote = s.noteAt d
      ∧ cur = e.frequencyAccumulator ∧ (cur.length : Int) = e.currentMeasurementCount + 1
      ∧ (r : Int) = e.currentMeasurementCount + 1 ∧ r ≤ n
      ∧ e.currentPoint.measuredFrequency = arithmeticMean cur
  | State.MovingToNext => e.currentNoteIndex + 1 = (d : Int) ∧ cur = [] ∧ r = 0
  | State.Completed => cur = [] ∧ r = 0
  | _ => False

/-- The invariant of an uninterrupted sweep with `n` measurements per note, started with
the request log `requests0`: the accepted samples are `segs.flatten ++ cur`, where `segs` has
one block of `n` samples per completed point and `cur` are the samples of the current
note; `r` requests were issued for the current note. -/
structure Averaging (s : CalibrationSettings) (n : Nat) (requests0 : List Int)
    (e : CalibrationEngine α) (segs : List (List α)) (cur : List α) (r : Nat) : Prop where
  settings : e.settings = s
  cvOutput : e.cvOutput.isSome = true
  requests : e.tuner = some
    { requests := requests0
        ++ (List.range segs.length).flatMap (fun j => List.replicate n (s.noteAt j))
        ++ List.replicate r (s.noteAt segs.length) }
  blocks : ∀ seg ∈ segs, seg.length = n
  frequencies :
    e.calibrationData.map CalibrationPoint.measuredFrequency = segs.map arithmeticMean
  notes :
    e.calibrationData.map CalibrationPoint.targetMidiNote
      = (List.range segs.length).map s.noteAt
  phase : averagingPhase s n e segs.length cur r

end Averaging

/-- The settings of a sweep over the notes 60 and 61 with no settle time and two
measurements per note. -/
def twoSampleSettings : CalibrationSettings where
  startNote := 60
  endNote := 61
  noteStep := 1
  settleTimeMs := 0
  measurementsPerNote := 2
  standard := VoltageStandard.OneVoltPerOctave
  useExternalCVSource := false

/-! ### Linear systems: what the elimination preserves -/

section LinearSystems

variable {α : Type} [LinearOrderedField α]

/-- The vector `c` solves the `m` equations of the system `A c = b` in `m` unknowns,
`(A, b)` being the pair kept by `getPolynomialCoefficients`. -/
def SolvesSystem (m : Nat) (Ab : (Nat → Nat → α) × (Nat → α)) (c : Nat → α) : Prop :=
  ∀ i, i < m → ∑ j ∈ Finset.range m, Ab.1 i j * c j = Ab.2 i

/-- In the first `k` columns the matrix is zero below the diagonal (rows below `m`). -/
def EliminatedBelow (m k : Nat) (A : Nat → Nat → α) : Prop :=
  ∀ i j, j < k → j < i → i < m → A i j = 0

/-- The body of the back substitution loop of `getPolynomialCoefficients` for row `i`:
the vector `coefficients` after `coefficients[i]` was computed. -/
def CalibrationTable.backSubstitutionStep (m : Nat) (Ab : (Nat → Nat → α) × (Nat → α))
    (coefficients : Nat → α) (i : Nat) : Nat → α :=
  let ci := (List.range' (i + 1) (m - (i + 1))).foldl
    (fun acc j => acc - Ab.1 i j * coefficients j) (Ab.2 i)
  fun r => if r = i then ci / Ab.1 i i else coefficients r

end LinearSystems

/-! ## Machine arithmetic: binary floating point

The C++ types `float` and `double` of the sources are the IEEE 754 formats binary32
(24 significant bits) and binary64 (53 significant bits).  Each arithmetic operation
yields the exact result rounded to the nearest number of the format, ties to the even
significand; a multiplication followed by an addition rounds twice.  Numbers are kept as
exact binary fractions, so every value below is computed by evaluation.  Infinities, NaN,
the sign of zero, subnormal numbers and the bounds of the exponent are not part of this
reading: it is used at inputs where none of them comes up. -/

/-- A finite binary floating-point number `mantissa * 2 ^ exponent`.  The result of a
rounding to `p` bits has `2 ^ (p - 1) ≤ |mantissa| < 2 ^ p`, and zero is `0 * 2 ^ 0`: two
numbers of one format are equal exactly when they are equal as terms. -/
structure BinaryFloat where
  mantissa : Int
  exponent : Int
  deriving DecidableEq, Repr

namespace BinaryFloat

/-- The value as a fraction `(numerator, denominator)` with a positive denominator. -/
def toFraction (x : BinaryFloat) : Int × Nat :=
  if 0 ≤ x.exponent then (x.mantissa * 2 ^ x.exponent.toNat, 1)
  else (x.mantissa, 2 ^ (-x.exponent).toNat)

/-- The value as a rational number. -/
def toRat (x : BinaryFloat) : ℚ := (x.toFraction.1 : ℚ) / (x.toFraction.2 : ℚ)

/-- The position of the leading one bit of `n`, the floor of its binary logarithm (0 for
`n ≤ 1`); the first argument bounds the number of halvings and is taken to be `n`. -/
def ilog2 : Nat → Nat → Nat
  | 0, _ => 0
  | fuel + 1, n => if n ≤ 1 then 0 else ilog2 fuel (n / 2) + 1

/-- The fraction `num / den` rounded to the nearest number with `p` significant bits,
ties to the even significand.  The exponent `e` is chosen with
`2 ^ (p - 1) ≤ |num / den| / 2 ^ e < 2 ^ p`; the quotient is rounded to an integer, and a
significand that reaches `2 ^ p` is renormalised. -/
def roundNearest (p : Nat) (num : Int) (den : Nat) : BinaryFloat :=
  let n := num.natAbs
  if n = 0 ∨ den = 0 then ⟨0, 0⟩
  else
    let e0 : Int := (ilog2 n n : Int) - (ilog2 den den : Int) - (p : Int)
    let e : Int :=
      if 2 ^ p * (den * 2 ^ e0.toNat) ≤ n * 2 ^ (-e0).toNat then e0 + 1 else e0
    let scaledNum := n * 2 ^ (-e).toNat
    let scaledDen := den * 2 ^ e.toNat
    let q := scaledNum / scaledDen
    let r := scaledNum % scaledDen
    let m := if scaledDen < 2 * r ∨ (2 * r = scaledDen ∧ q % 2 = 1) then q + 1 else q
    let me : Nat × Int := if m = 2 ^ p then (2 ^ (p - 1), e + 1) else (m, e)
    ⟨if num < 0 then -(me.1 : Int) else (me.1 : Int), me.2⟩

/-- The sum, rounded to `p` bits. -/
def add (p : Nat) (a b : BinaryFloat) : BinaryFloat :=
  roundNearest p (a.toFraction.1 * b.toFraction.2 + b.toFraction.1 * a.toFraction.2)
    (a.toFraction.2 * b.toFraction.2)

/-- The difference, rounded to `p` bits. -/
def sub (p : Nat) (a b : BinaryFloat) : BinaryFloat :=
  roundNearest p (a.toFraction.1 * b.toFraction.2 - b.toFraction.1 * a.toFraction.2)
    (a.toFraction.2 * b.toFraction.2)

/-- The product, rounded to `p` bits. -/
def mul (p : Nat) (a b : BinaryFloat) : BinaryFloat :=
  roundNearest p (a.toFraction.1 * b.toFraction.1) (a.toFraction.2 * b.toFraction.2)

/-- The quotient, rounded to `p` bits.  A division by zero (an infinity or a NaN in C++)
is outside this reading; the definition gives 0 there. -/
def div (p : Nat) (a b : BinaryFloat) : BinaryFloat :=
  roundNearest p (a.toFraction.1 * b.toFraction.2 * Int.sign b.toFraction.1)
    (a.toFraction.2 * b.toFraction.1.natAbs)

/-- The power with a natural exponent, the exact power rounded to `p` bits: the value of
`std::pow (x, k)` wherever the library rounds correctly. -/
def powNat (p : Nat) (a : BinaryFloat) (k : Nat) : BinaryFloat :=
  roundNearest p (a.toFraction.1 ^ k) (a.toFraction.2 ^ k)

/-- The negation (exact). -/
def neg (a : BinaryFloat) : BinaryFloat := ⟨-a.mantissa, a.exponent⟩

/-- The absolute value `std::abs` (exact). -/
def abs (a : BinaryFloat) : BinaryFloat := ⟨(a.mantissa.natAbs : Int), a.exponent⟩

/-- The comparison `a < b` of the values. -/
def lt (a b : BinaryFloat) : Bool :=
  decide (a.toFraction.1 * b.toFraction.2 < b.toFraction.1 * a.toFraction.2)

/-- The comparison `a <= b` of the values. -/
def le (a b : BinaryFloat) : Bool :=
  decide (a.toFraction.1 * b.toFraction.2 ≤ b.toFraction.1 * a.toFraction.2)

end BinaryFloat

/-- A C++ `float`: a binary32 number. -/
structure Binary32 where
  val : BinaryFloat
  deriving DecidableEq, Repr

/-- A C++ `double`: a binary64 number. -/
structure Binary64 where
  val : BinaryFloat
  deriving DecidableEq, Repr

namespace Binary32

/-- The `float` nearest to the fraction `num / den`: the value of a decimal literal such
as `1e-10f`, and of a conversion from an integer type. -/
def ofFraction (num : Int) (den : Nat) : Binary32 := ⟨BinaryFloat.roundNearest 24 num den⟩

/-- The conversion of an `int` (or a `size_t`) to `float`. -/
def ofInt (n : Int) : Binary32 := ofFraction n 1

/-- The function `std::abs`. -/
def abs (a : Binary32) : Binary32 := ⟨a.val.abs⟩

/-- The value as a rational number. -/
def toRat (a : Binary32) : ℚ := a.val.toRat

instance instOfNat (n : Nat) : OfNat Binary32 n := ⟨ofInt n⟩
instance instAdd : Add Binary32 := ⟨fun a b => ⟨BinaryFloat.add 24 a.val b.val⟩⟩
instance instSub : Sub Binary32 := ⟨fun a b => ⟨BinaryFloat.sub 24 a.val b.val⟩⟩
instance instMul : Mul Binary32 := ⟨fun a b => ⟨BinaryFloat.mul 24 a.val b.val⟩⟩
instance instDiv : Div Binary32 := ⟨fun a b => ⟨BinaryFloat.div 24 a.val b.val⟩⟩
instance instNeg : Neg Binary32 := ⟨fun a => ⟨a.val.neg⟩⟩
instance instLT : LT Binary32 := ⟨fun a b => BinaryFloat.lt a.val b.val = true⟩
instance instLE : LE Binary32 := ⟨fun a b => BinaryFloat.le a.val b.val = true⟩
instance instDecidableLT (a b : Binary32) : Decidable (a < b) :=
  inferInstanceAs (Decidable (BinaryFloat.lt a.val b.val = true))
instance instDecidableLE (a b : Binary32) : Decidable (a ≤ b) :=
  inferInstanceAs (Decidable (BinaryFloat.le a.val b.val = true))

end Binary32

namespace Binary64

/-- The `double` nearest to the fraction `num / den`: the value of a decimal literal such
as `1e-10`, and of a conversion from an integer type. -/
def ofFraction (num : Int) (den : Nat) : Binary64 := ⟨BinaryFloat.roundNearest 53 num den⟩

/-- The conversion of an `int` to `double`. -/
def ofInt (n : Int) : Binary64 := ofFraction n 1

/-- The conversion of a `float` to `double` (exact). -/
def ofBinary32 (a : Binary32) : Binary64 := ofFraction a.val.toFraction.1 a.val.toFraction.2

/-- The function `std::abs`. -/
def abs (a : Binary64) : Binary64 := ⟨a.val.abs⟩

/-- The function `std::pow` with a non-negative integer exponent. -/
def pow (a : Binary64) (k : Nat) : Binary64 := ⟨BinaryFloat.powNat 53 a.val k⟩

/-- The value as a rational number. -/
def toRat (a : Binary64) : ℚ := a.val.toRat

instance instOfNat (n : Nat) : OfNat Binary64 n := ⟨ofInt n⟩
instance instAdd : Add Binary64 := ⟨fun a b => ⟨BinaryFloat.add 53 a.val b.val⟩⟩
instance instSub : Sub Binary64 := ⟨fun a b => ⟨BinaryFloat.sub 53 a.val b.val⟩⟩
instance instMul : Mul Binary64 := ⟨fun a b => ⟨BinaryFloat.mul 53 a.val b.val⟩⟩
instance instDiv : Div Binary64 := ⟨fun a b => ⟨BinaryFloat.div 53 a.val b.val⟩⟩
instance instNeg : Neg Binary64 := ⟨fun a => ⟨a.val.neg⟩⟩
instance instLT : LT Binary64 := ⟨fun a b => BinaryFloat.lt a.val b.val = true⟩
instance instLE : LE Binary64 := ⟨fun a b => BinaryFloat.le a.val b.val = true⟩
instance instDecidableLT (a b : Binary64) : Decidable (a < b) :=
  inferInstanceAs (Decidable (BinaryFloat.lt a.val b.val = true))
instance instDecidableLE (a b : Binary64) : Decidable (a ≤ b) :=
  inferInstanceAs (Decidable (BinaryFloat.le a.val b.val = true))

end Binary64

/-! ### The `float` and `double` computations of the sources in machine arithmetic

The definitions of this section repeat, operation by operation, the methods that the
sections above read in exact arithmetic, with every `float` a `Binary32` and every
`double` a `Binary64`. -/

namespace CVOutputManager

/-- The constructor `CVOutputManager::CVOutputManager` (default member initialisers),
with `float` members. -/
def initBinary32 : CVOutputManager Binary32 where
  currentOutputVoltage := 0
  isActiveFlag := false
  currentStandard := VoltageStandard.OneVoltPerOctave
  interfaceType := InterfaceType.ExpertSleepers
  interfaceMinVolts := -10
  interfaceMaxVolts := 10
  hzPerVoltScaling := 1000
  outputChannel := 0
  interfaceCalibration :=
    { isCalibrated := false, gain := 1, offset := 0, calibrationPoints := [],
      calibrationDate := 0, interfaceName := "" }

/-- The method `voltageToSample`, in `float` arithmetic. -/
def voltageToSampleBinary32 (m : CVOutputManager Binary32) (volts : Binary32) : Binary32 :=
  let range := m.interfaceMaxVolts - m.interfaceMinVolts
  let normalized := (volts - m.interfaceMinVolts) / range
  normalized * 2 - 1

/-- The method `sampleToVoltage`, in `float` arithmetic. -/
def sampleToVoltageBinary32 (m : CVOutputManager Binary32) (sample : Binary32) : Binary32 :=
  let normalized := (sample + 1) / 2
  let range := m.interfaceMaxVolts - m.interfaceMinVolts
  m.interfaceMinVolts + normalized * range

/-- The first loop of `computeCalibrationFromPoints` in `float` arithmetic: the pair
`(sumIdeal, sumActual)`. -/
def sumLoopBinary32 (points : List (Binary32 × Binary32)) : Binary32 × Binary32 :=
  points.foldl (fun acc p => (acc.1 + p.1, acc.2 + p.2)) (0, 0)

/-- The second loop of `computeCalibrationFromPoints` in `float` arithmetic: the pair
`(numerator, denominator)`. -/
def covLoopBinary32 (meanIdeal meanActual : Binary32) (points : List (Binary32 × Binary32)) :
    Binary32 × Binary32 :=
  points.foldl
    (fun acc p =>
      let diffIdeal := p.1 - meanIdeal
      let diffActual := p.2 - meanActual
      (acc.1 + diffIdeal * diffActual, acc.2 + diffIdeal * diffIdeal))
    (0, 0)

/-- The method `computeCalibrationFromPoints` in `float` arithmetic; `now` is the value of
`Time::getCurrentTime()`.  `points.size ()` is converted to `float` for the two means, and
the threshold is the literal `1e-10f`. -/
def computeCalibrationFromPointsBinary32 (now : Nat) (m : CVOutputManager Binary32) :
    CVOutputManager Binary32 :=
  let points := m.interfaceCalibration.calibrationPoints
  if points.length < 2 then
    { m with interfaceCalibration := { m.interfaceCalibration with isCalibrated := false } }
  else
    let sums := sumLoopBinary32 points
    let meanIdeal := sums.1 / Binary32.ofInt points.length
    let meanActual := sums.2 / Binary32.ofInt points.length
    let nd := covLoopBinary32 meanIdeal meanActual points
    let numerator := nd.1
    let denominator := nd.2
    let cal : InterfaceCalibration Binary32 :=
      if denominator.abs < Binary32.ofFraction 1 (10 ^ 10) then
        { m.interfaceCalibration with gain := 1, offset := meanActual - meanIdeal }
      else
        let interfaceGain := numerator / denominator
        let interfaceOffset := meanActual - interfaceGain * meanIdeal
        { m.interfaceCalibration with
          gain := 1 / interfaceGain, offset := -interfaceOffset / interfaceGain }
    { m with interfaceCalibration := { cal with isCalibrated := true, calibrationDate := now } }

end CVOutputManager

namespace CalibrationTable

/-- The value of an `int` expression as the machine computes it: reduced to the 32-bit
two's complement range (the C++ standard leaves a signed overflow undefined). -/
def wrapInt32 (n : Int) : Int := (n + 2 ^ 31) % 2 ^ 32 - 2 ^ 31

/-- The update of `lower` in one iteration of the search loop of `linearInterpolate`, the
comparison `entry.midiNote <= pitch` taken in `float` after the conversion of the note. -/
def lowerStepBinary32 (pitch : Binary32) (lower : Option (EntryPtr Binary32))
    (entry : EntryPtr Binary32) : Option (EntryPtr Binary32) :=
  if Binary32.ofInt entry.2.midiNote ≤ pitch then
    match lower with
    | none => some entry
    | some l => if entry.2.midiNote > l.2.midiNote then some entry else some l
  else lower

/-- The update of `upper` in one iteration of the search loop of `linearInterpolate`, the
comparison `entry.midiNote >= pitch` taken in `float` after the conversion of the note. -/
def upperStepBinary32 (pitch : Binary32) (upper : Option (EntryPtr Binary32))
    (entry : EntryPtr Binary32) : Option (EntryPtr Binary32) :=
  if pitch ≤ Binary32.ofInt entry.2.midiNote then
    match upper with
    | none => some entry
    | some u => if entry.2.midiNote < u.2.midiNote then some entry else some u
  else upper

/-- The search loop of `linearInterpolate` in machine arithmetic: the pair
`(lower, upper)` after visiting every entry in order. -/
def bracketBinary32 (pitch : Binary32) (entries : List (Entry Binary32)) :
    Option (EntryPtr Binary32) × Option (EntryPtr Binary32) :=
  entries.enum.foldl
    (fun acc entry => (lowerStepBinary32 pitch acc.1 entry, upperStepBinary32 pitch acc.2 entry))
    (none, none)

/-- The method `linearInterpolate` in machine arithmetic.  The difference
`upper->midiNote - lower->midiNote` is an `int`, converted to `float` for the division;
`pitch - lower->midiNote` converts the note to `float` first.  The result is `none` when
the code dereferences a null pointer. -/
def linearInterpolateBinary32 (t : CalibrationTable Binary32) (pitch : Binary32) :
    Option Binary32 :=
  match t.entries with
  | [] => some 0
  | [e] => some e.correctionOffset
  | _ =>
    match bracketBinary32 pitch t.entries with
    | (none, none) => none
    | (none, some upper) => some upper.2.correctionOffset
    | (some lower, none) => some lower.2.correctionOffset
    | (some lower, some upper) =>
      if lower.1 = upper.1 then some lower.2.correctionOffset
      else
        let t := (pitch - Binary32.ofInt lower.2.midiNote)
                  / Binary32.ofInt (wrapInt32 (upper.2.midiNote - lower.2.midiNote))
        some (lower.2.correctionOffset
                + t * (upper.2.correctionOffset - lower.2.correctionOffset))

/-- The method `getCorrectionOffset` in machine arithmetic. -/
def getCorrectionOffsetBinary32 (t : CalibrationTable Binary32) (targetMidiPitch : Binary32) :
    Option Binary32 :=
  t.linearInterpolateBinary32 targetMidiPitch

/-- The body of the loop of `getPolynomialCoefficients` that builds the normal equations,
in `double` arithmetic: the contribution of one entry to `A` and `b`. -/
def accumulateEntryBinary64 (m : Nat) (Ab : (Nat → Nat → Binary64) × (Nat → Binary64))
    (entry : Entry Binary32) : (Nat → Nat → Binary64) × (Nat → Binary64) :=
  let x : Binary64 := Binary64.ofInt entry.midiNote
  let y : Binary64 := Binary64.ofBinary32 entry.correctionOffset
  (fun i j => if i < m ∧ j < m then Ab.1 i j + x.pow (i + j) else Ab.1 i j,
   fun i => if i < m then Ab.2 i + y * x.pow i else Ab.2 i)

/-- The loop of `getPolynomialCoefficients` that builds the normal equations, in `double`
arithmetic. -/
def normalEquationsBinary64 (entries : List (Entry Binary32)) (m : Nat) :
    (Nat → Nat → Binary64) × (Nat → Binary64) :=
  entries.foldl (accumulateEntryBinary64 m) (fun _ _ => 0, fun _ => 0)

/-- The pivot search of step `k` in `double` arithmetic. -/
def findPivotBinary64 (A : Nat → Nat → Binary64) (m k : Nat) : Nat :=
  (List.range' (k + 1) (m - (k + 1))).foldl
    (fun maxRow i => if (A maxRow k).abs < (A i k).abs then i else maxRow) k

/-- The body of the elimination loop of step `k` for row `i`, in `double` arithmetic. -/
def eliminateRowBinary64 (m k i : Nat) (Ab : (Nat → Nat → Binary64) × (Nat → Binary64)) :
    (Nat → Nat → Binary64) × (Nat → Binary64) :=
  let factor := Ab.1 i k / Ab.1 k k
  let A := (List.range' k (m - k)).foldl
    (fun A j => fun r c => if r = i ∧ c = j then A i j - factor * A k j else A r c) Ab.1
  (A, fun r => if r = i then Ab.2 i - factor * Ab.2 k else Ab.2 r)

/-- The elimination loop of step `k` over the rows `i = k + 1, ..., m - 1`, in `double`
arithmetic. -/
def eliminateColumnBinary64 (m k : Nat) (Ab : (Nat → Nat → Binary64) × (Nat → Binary64)) :
    (Nat → Nat → Binary64) × (Nat → Binary64) :=
  (List.range' (k + 1) (m - (k + 1))).foldl (fun Ab i => eliminateRowBinary64 m k i Ab) Ab

/-- One step `k` of the forward elimination in `double` arithmetic; `none` is the early
`return {}` on a pivot below the literal `1e-10`. -/
def eliminationStepBinary64 (m k : Nat) (Ab : (Nat → Nat → Binary64) × (Nat → Binary64)) :
    Option ((Nat → Nat → Binary64) × (Nat → Binary64)) :=
  let maxRow := findPivotBinary64 Ab.1 m k
  let A := swapRows Ab.1 k maxRow
  let b := swapRows Ab.2 k maxRow
  if (A k k).abs < Binary64.ofFraction 1 (10 ^ 10) then none
  else some (eliminateColumnBinary64 m k (A, b))

/-- The forward elimination loop over `k = 0, ..., m - 1` in `double` arithmetic. -/
def forwardEliminationBinary64 (m : Nat) (Ab : (Nat → Nat → Binary64) × (Nat → Binary64)) :
    Option ((Nat → Nat → Binary64) × (Nat → Binary64)) :=
  (List.range m).foldl
    (fun st k =>
      match st with
      | none => none
      | some Ab => eliminationStepBinary64 m k Ab)
    (some Ab)

/-- The back substitution loop over `i = m - 1, ..., 0` in `double` arithmetic. -/
def backSubstitutionBinary64 (m : Nat) (Ab : (Nat → Nat → Binary64) × (Nat → Binary64)) :
    Nat → Binary64 :=
  (List.range m).reverse.foldl
    (fun coefficients i =>
      let ci := (List.range' (i + 1) (m - (i + 1))).foldl
        (fun acc j => acc - Ab.1 i j * coefficients j) (Ab.2 i)
      fun r => if r = i then ci / Ab.1 i i else coefficients r)
    (fun _ => 0)

/-- The method `getPolynomialCoefficients` in `double` arithmetic, on a table of `float`
entries.  The result is `none` when the code throws (negative vector size). -/
def getPolynomialCoefficientsBinary64 (t : CalibrationTable Binary32) (degree : Int) :
    Option (List Binary64) :=
  let n : Int := (t.entries.length : Int)
  if n < degree + 1 then some []
  else if degree + 1 < 0 then none
  else
    let m := (degree + 1).toNat
    match forwardEliminationBinary64 m (normalEquationsBinary64 t.entries m) with
    | none => some []
    | some Ab => some ((List.range m).map (backSubstitutionBinary64 m Ab))

end CalibrationTable

/-! ### Concrete inputs in machine arithmetic -/

/-- The default member initialisers of `Entry`, with `float` members. -/
def Entry.initBinary32 : Entry Binary32 where
  midiNote := 0
  idealVoltage := 0
  actualVoltage := 0
  correctionOffset := 0
  measuredFrequency := 0
  errorCents := 0
  stdDevCents := 0

/-- The constructor `CalibrationTable::CalibrationTable`, with `float` entries. -/
def CalibrationTable.initBinary32 (now : Nat) : CalibrationTable Binary32 where
  entries := []
  deviceName := ""
  deviceBrand := ""
  interfaceName := ""
  notes := ""
  calibrationDate := now
  voltageStandard := "1V/Oct"

/-- The calibration state holding 28 times the point `(9.9f, 9.95f)`: all ideal voltages
are equal. -/
def equalIdealsBinary32 : CVOutputManager Binary32 :=
  { CVOutputManager.initBinary32 with
    interfaceCalibration :=
      { CVOutputManager.initBinary32.interfaceCalibration with
        calibrationPoints :=
          List.replicate 28 (Binary32.ofFraction 99 10, Binary32.ofFraction 995 100) } }

/-- The table with the entries `(16777217, 1e8)` and `(16777219, 1)`: two notes above
`2 ^ 24`, which are not `float`s. -/
def largeNotesBinary32 : CalibrationTable Binary32 :=
  { CalibrationTable.initBinary32 0 with
    entries :=
      [{ Entry.initBinary32 with midiNote := 16777217, correctionOffset := 100000000 },
       { Entry.initBinary32 with midiNote := 16777219, correctionOffset := 1 }] }

/-- The table with the entries `(2 ^ 30, 0)` and `(2 ^ 30 + 1, 1)`. -/
def adjacentNotesBinary32 : CalibrationTable Binary32 :=
  { CalibrationTable.initBinary32 0 with
    entries :=
      [{ Entry.initBinary32 with midiNote := 2 ^ 30, correctionOffset := 0 },
       { Entry.initBinary32 with midiNote := 2 ^ 30 + 1, correctionOffset := 1 }] }

/-- The table with nine entries for the note 123, each with the correction offset 1. -/
def nineEqualNotesBinary32 : CalibrationTable Binary32 :=
  { CalibrationTable.initBinary32 0 with
    entries :=
      List.replicate 9 { Entry.initBinary32 with midiNote := 123, correctionOffset := 1 } }

/-! ## Theorems: voltage converter -/

section CVOutputLemmas

variable {α : Type} [LinearOrderedField α]

theorem sumLoop_foldl (points : List (α × α)) (a b : α) :
    points.foldl (fun acc p => (acc.1 + p.1, acc.2 + p.2)) (a, b)
      = (a + (points.map Prod.fst).sum, b + (points.map Prod.snd).sum) := by
  induction points generalizing a b with
  | nil => simp
  | cons p ps ih => simp [ih, add_assoc]

theorem sumLoop_eq (points : List (α × α)) :
    CVOutputManager.sumLoop points
      = ((points.map Prod.fst).sum, (points.map Prod.snd).sum) := by
  unfold CVOutputManager.sumLoop
  rw [sumLoop_foldl]
  simp

theorem covLoop_foldl (mi ma : α) (points : List (α × α)) (a b : α) :
    points.foldl
        (fun acc p => (acc.1 + (p.1 - mi) * (p.2 - ma), acc.2 + (p.1 - mi) * (p.1 - mi))) (a, b)
      = (a + (points.map (fun p => (p.1 - mi) * (p.2 - ma))).sum,
         b + (points.map (fun p => (p.1 - mi) ^ 2)).sum) := by
  induction points generalizing a b with
  | nil => simp
  | cons p ps ih => simp [ih, add_assoc, sq]

theorem covLoop_eq (mi ma : α) (points : List (α × α)) :
    CVOutputManager.covLoop mi ma points
      = ((points.map (fun p => (p.1 - mi) * (p.2 - ma))).sum,
         (points.map (fun p => (p.1 - mi) ^ 2)).sum) := by
  unfold CVOutputManager.covLoop
  rw [covLoop_foldl]
  simp

theorem jlimit_eq_clamp (lo hi v : α) (h : lo ≤ hi) : jlimit lo hi v = max lo (min hi v) := by
  unfold jlimit
  split_ifs with h1 h2
  · rw [max_eq_left]
    exact le_trans (min_le_right _ _) h1.le
  · rw [min_eq_left h2.le, max_eq_right h]
  · push_neg at h1 h2
    rw [min_eq_right h2, max_eq_right h1]

end CVOutputLemmas

/-- C1: over the reals, converting a pitch to a voltage and back returns the pitch,
under `OneVoltPerOctave` always and under `HzPerVolt` for a positive Hz-per-volt scale. -/
theorem voltageToMidi_midiToVoltage (m : CVOutputManager ℝ) (p : ℝ)
    (hscale : m.currentStandard = VoltageStandard.HzPerVolt → 0 < m.hzPerVoltScaling) :
    m.voltageToMidi (m.midiToVoltage p) = p := by
  unfold CVOutputManager.voltageToMidi CVOutputManager.midiToVoltage
  cases hs : m.currentStandard with
  | OneVoltPerOctave =>
    simp only
    ring
  | HzPerVolt =>
    have hpos : 0 < m.hzPerVoltScaling := hscale hs
    have hne : m.hzPerVoltScaling ≠ 0 := ne_of_gt hpos
    simp only [CMath.pow, CMath.log2]
    have h1 : 440 * Real.rpow 2 ((p - 69) / 12) / m.hzPerVoltScaling * m.hzPerVoltScaling / 440
        = Real.rpow 2 ((p - 69) / 12) := by
      field_simp
    rw [h1]
    have h2 : Real.logb 2 (Real.rpow 2 ((p - 69) / 12)) = (p - 69) / 12 :=
      Real.logb_rpow (by norm_num) (by norm_num)
    rw [h2]
    ring

theorem voltageToMidi_midiToVoltage_witness :
    ({ (CVOutputManager.init : CVOutputManager ℝ) with
        currentStandard := VoltageStandard.HzPerVolt }).voltageToMidi
      (({ (CVOutputManager.init : CVOutputManager ℝ) with
        currentStandard := VoltageStandard.HzPerVolt }).midiToVoltage 57) = 57 :=
  voltageToMidi_midiToVoltage _ 57 (fun _ => by norm_num [CVOutputManager.init])

/-- C3: with fewer than two calibration points `computeCalibrationFromPoints` leaves
`isCalibrated = false` and does not change `gain` and `offset`. -/
theorem computeCalibrationFromPoints_too_few {α : Type} [LinearOrderedField α]
    (now : Nat) (mgr : CVOutputManager α)
    (hlen : mgr.interfaceCalibration.calibrationPoints.length < 2) :
    (mgr.computeCalibrationFromPoints now).interfaceCalibration.isCalibrated = false
    ∧ (mgr.computeCalibrationFromPoints now).interfaceCalibration.gain
        = mgr.interfaceCalibration.gain
    ∧ (mgr.computeCalibrationFromPoints now).interfaceCalibration.offset
        = mgr.interfaceCalibration.offset := by
  unfold CVOutputManager.computeCalibrationFromPoints
  simp only [hlen, if_true, and_self]

theorem computeCalibrationFromPoints_too_few_witness :
    (onePointManager.computeCalibrationFromPoints 9).interfaceCalibration.isCalibrated = false
    ∧ (onePointManager.computeCalibrationFromPoints 9).interfaceCalibration.gain = 3
    ∧ (onePointManager.computeCalibrationFromPoints 9).interfaceCalibration.offset = 7 :=
  computeCalibrationFromPoints_too_few 9 onePointManager (by decide)

/-- C4: for an interface range with `minVolts ≤ maxVolts`, `outputVoltage v` stores the
clamped value `max minVolts (min maxVolts v)` when the interface is not calibrated and
`gain * clamped + offset` when it is: the clamp comes before the correction and never
rejects. -/
theorem outputVoltage_stored {α : Type} [LinearOrderedField α] (mgr : CVOutputManager α) (v : α)
    (hrange : mgr.interfaceMinVolts ≤ mgr.interfaceMaxVolts) :
    (mgr.interfaceCalibration.isCalibrated = false →
      (mgr.outputVoltage v).currentOutputVoltage
        = max mgr.interfaceMinVolts (min mgr.interfaceMaxVolts v))
    ∧ (mgr.interfaceCalibration.isCalibrated = true →
      (mgr.outputVoltage v).currentOutputVoltage
        = mgr.interfaceCalibration.gain * max mgr.interfaceMinVolts (min mgr.interfaceMaxVolts v)
          + mgr.interfaceCalibration.offset) := by
  constructor
  · intro hc
    simp [CVOutputManager.outputVoltage, hc, jlimit_eq_clamp _ _ _ hrange]
  · intro hc
    simp [CVOutputManager.outputVoltage, hc, jlimit_eq_clamp _ _ _ hrange,
      CVOutputManager.applyInterfaceCalibration]

theorem outputVoltage_stored_witness :
    (calibratedManager.interfaceCalibration.isCalibrated = false →
      (calibratedManager.outputVoltage 12).currentOutputVoltage
        = max calibratedManager.interfaceMinVolts (min calibratedManager.interfaceMaxVolts 12))
    ∧ (calibratedManager.interfaceCalibration.isCalibrated = true →
      (calibratedManager.outputVoltage 12).currentOutputVoltage
        = calibratedManager.interfaceCalibration.gain
            * max calibratedManager.interfaceMinVolts (min calibratedManager.interfaceMaxVolts 12)
          + calibratedManager.interfaceCalibration.offset) :=
  outputVoltage_stored calibratedManager 12 (by
    simp [calibratedManager, CVOutputManager.init])

/-! ## Theorems: the library sort -/

namespace StdSort

variable {β : Type}

theorem perm_cons_eraseIdx_of_get :
    ∀ (l : List β) (i : Nat) (a : β), l[i]? = some a → l.Perm (a :: l.eraseIdx i)
  | [], i, a, h => by simp at h
  | x :: l, 0, a, h => by
    simp at h
    subst h
    simp
  | x :: l, i + 1, a, h => by
    simp only [List.getElem?_cons_succ] at h
    have ih := perm_cons_eraseIdx_of_get l i a h
    simp only [List.eraseIdx_cons_succ]
    exact (List.Perm.cons x ih).trans (List.Perm.swap a x _)

theorem eraseIdx_set_self : ∀ (l : List β) (i : Nat) (b : β),
    (l.set i b).eraseIdx i = l.eraseIdx i
  | [], _, _ => by simp
  | _ :: _, 0, _ => by simp
  | x :: l, i + 1, b => by simp [eraseIdx_set_self l i b]

theorem set_of_get : ∀ (l : List β) (i : Nat) (a : β), l[i]? = some a → l.set i a = l
  | [], _, _, _ => by simp
  | x :: l, 0, a, h => by
    simp at h
    simp [h]
  | x :: l, i + 1, a, h => by
    simp only [List.getElem?_cons_succ] at h
    simp [set_of_get l i a h]

theorem set_perm_cons_eraseIdx (l : List β) (i : Nat) (b : β) (h : i < l.length) :
    (l.set i b).Perm (b :: l.eraseIdx i) := by
  have h1 : (l.set i b)[i]? = some b := by
    simp [List.getElem?_set, h]
  have h2 := perm_cons_eraseIdx_of_get (l.set i b) i b h1
  rwa [eraseIdx_set_self] at h2

theorem iterSwap_perm (v : List β) (i j : Nat) : (iterSwap v i j).Perm v := by
  unfold iterSwap
  cases hi : v[i]? with
  | none => simp
  | some a =>
    cases hj : v[j]? with
    | none => simp
    | some b =>
      simp only
      have hil : i < v.length := by
        rcases List.getElem?_eq_some_iff.mp hi with ⟨h, -⟩
        exact h
      have hjl : j < v.length := by
        rcases List.getElem?_eq_some_iff.mp hj with ⟨h, -⟩
        exact h
      by_cases hij : i = j
      · subst hij
        have hab : a = b := by
          rw [hi] at hj
          exact Option.some.inj hj
        subst hab
        have h1 : (v.set i a).set i a = v := by
          rw [List.set_set]
          exact set_of_get v i a hi
        rw [h1]
      · have hj2 : (v.set i b)[j]? = some b := by
          rw [List.getElem?_set_ne hij]
          exact hj
        have hjl2 : j < (v.set i b).length := by simpa using hjl
        have p1 : ((v.set i b).set j a).Perm (a :: (v.set i b).eraseIdx j) :=
          set_perm_cons_eraseIdx _ j a hjl2
        have p2 : (v.set i b).Perm (b :: (v.set i b).eraseIdx j) :=
          perm_cons_eraseIdx_of_get _ j b hj2
        have p3 : (v.set i b).Perm (b :: v.eraseIdx i) := set_perm_cons_eraseIdx v i b hil
        have p4 : v.Perm (a :: v.eraseIdx i) := perm_cons_eraseIdx_of_get v i a hi
        have p5 : ((v.set i b).eraseIdx j).Perm (v.eraseIdx i) :=
          (List.perm_cons b).mp (p2.symm.trans p3)
        exact p1.trans ((List.Perm.cons a p5).trans p4.symm)

theorem moveMedianToFirst_perm (comp : β → β → Bool) (v : List β) (result a b c : Nat) :
    (moveMedianToFirst comp v result a b c).Perm v := by
  unfold moveMedianToFirst
  split_ifs <;> exact iterSwap_perm _ _ _

theorem unguardedPartition_perm (comp : β → β → Bool) (pivot : Nat) :
    ∀ (fuel : Nat) (v : List β) (first last : Nat),
      (unguardedPartition comp pivot fuel v first last).1.Perm v
  | 0, v, first, last => by simp [unguardedPartition]
  | fuel + 1, v, first, last => by
    simp only [unguardedPartition]
    split_ifs
    · exact (unguardedPartition_perm comp pivot fuel _ _ _).trans (iterSwap_perm _ _ _)
    · exact List.Perm.refl _

theorem unguardedPartitionPivot_perm (comp : β → β → Bool) (v : List β) (first last : Nat) :
    (unguardedPartitionPivot comp v first last).1.Perm v := by
  unfold unguardedPartitionPivot
  exact (unguardedPartition_perm comp first _ _ _ _).trans (moveMedianToFirst_perm _ _ _ _ _ _)

theorem pushHeap_perm (comp : β → β → Bool) (first topIndex : Nat) :
    ∀ (fuel : Nat) (v : List β) (holeIndex : Nat),
      (pushHeap comp first topIndex fuel v holeIndex).Perm v
  | 0, v, holeIndex => by simp [pushHeap]
  | fuel + 1, v, holeIndex => by
    simp only [pushHeap]
    split_ifs
    · exact (pushHeap_perm comp first topIndex fuel _ _).trans (iterSwap_perm _ _ _)
    · exact List.Perm.refl _

theorem adjustHeapLoop_perm (comp : β → β → Bool) (first len : Nat) :
    ∀ (fuel : Nat) (v : List β) (holeIndex : Nat),
      (adjustHeapLoop comp first len fuel v holeIndex).1.Perm v
  | 0, v, holeIndex => by simp [adjustHeapLoop]
  | fuel + 1, v, holeIndex => by
    simp only [adjustHeapLoop]
    split_ifs
    · exact (adjustHeapLoop_perm comp first len fuel _ _).trans (iterSwap_perm _ _ _)
    · exact (adjustHeapLoop_perm comp first len fuel _ _).trans (iterSwap_perm _ _ _)
    · exact List.Perm.refl _

theorem adjustHeap_perm (comp : β → β → Bool) (v : List β) (first holeIndex len : Nat) :
    (adjustHeap comp v first holeIndex len).Perm v := by
  unfold adjustHeap
  refine (pushHeap_perm comp first holeIndex len _ _).trans ?_
  split_ifs
  · exact (iterSwap_perm _ _ _).trans (adjustHeapLoop_perm comp first len len v holeIndex)
  · exact adjustHeapLoop_perm comp first len len v holeIndex

theorem makeHeapLoop_perm (comp : β → β → Bool) (first len : Nat) :
    ∀ (parent : Nat) (v : List β), (makeHeapLoop comp first len parent v).Perm v
  | 0, v => by
    simp only [makeHeapLoop]
    exact adjustHeap_perm _ _ _ _ _
  | parent + 1, v => by
    simp only [makeHeapLoop]
    exact (makeHeapLoop_perm comp first len parent _).trans (adjustHeap_perm _ _ _ _ _)

theorem makeHeap_perm (comp : β → β → Bool) (v : List β) (first last : Nat) :
    (makeHeap comp v first last).Perm v := by
  unfold makeHeap
  split_ifs
  · exact List.Perm.refl _
  · exact makeHeapLoop_perm _ _ _ _ _

theorem popHeap_perm (comp : β → β → Bool) (v : List β) (first last result : Nat) :
    (popHeap comp v first last result).Perm v :=
  (adjustHeap_perm _ _ _ _ _).trans (iterSwap_perm _ _ _)

theorem sortHeap_perm (comp : β → β → Bool) (first : Nat) :
    ∀ (fuel : Nat) (v : List β) (last : Nat), (sortHeap comp first fuel v last).Perm v
  | 0, v, last => by simp [sortHeap]
  | fuel + 1, v, last => by
    simp only [sortHeap]
    split_ifs
    · exact (sortHeap_perm comp first fuel _ _).trans (popHeap_perm _ _ _ _ _)
    · exact List.Perm.refl _

theorem partialSort_perm (comp : β → β → Bool) (v : List β) (first last : Nat) :
    (partialSort comp v first last).Perm v :=
  (sortHeap_perm _ _ _ _ _).trans (makeHeap_perm _ _ _ _)

theorem introsortLoop_perm (comp : β → β → Bool) :
    ∀ (depthLimit : Nat) (v : List β) (first last : Nat),
      (introsortLoop comp depthLimit v first last).Perm v
  | 0, v, first, last => by
    simp only [introsortLoop]
    split_ifs
    · exact partialSort_perm _ _ _ _
    · exact List.Perm.refl _
  | depthLimit + 1, v, first, last => by
    simp only [introsortLoop]
    split_ifs
    · exact (introsortLoop_perm comp depthLimit _ _ _).trans
        ((introsortLoop_perm comp depthLimit _ _ _).trans
          (unguardedPartitionPivot_perm _ _ _ _))
    · exact List.Perm.refl _

/-- A range of at most 16 elements leaves the introsort loop as it came. -/
theorem introsortLoop_short (comp : β → β → Bool) (depthLimit : Nat) (v : List β)
    (first last : Nat) (h : last - first ≤ 16) :
    introsortLoop comp depthLimit v first last = v := by
  cases depthLimit with
  | zero => simp [introsortLoop, Nat.not_lt.mpr h]
  | succ d => simp [introsortLoop, Nat.not_lt.mpr h]

/-- The result of `std::sort` is a permutation of the range. -/
theorem sort_perm (comp : β → β → Bool) (v : List β) : (sort comp v).Perm v := by
  unfold sort
  split_ifs
  · exact List.Perm.refl _
  · exact (List.perm_insertionSort _ _).trans (introsortLoop_perm _ _ _ _ _)

/-- On a range of at most 16 elements `std::sort` is the insertion sort alone. -/
theorem sort_short (comp : β → β → Bool) (v : List β) (h : v.length ≤ 16) :
    sort comp v = v.insertionSort (fun a b => comp b a = false) := by
  unfold sort
  split_ifs with h0
  · have : v = [] := List.length_eq_zero.mp h0
    subst this
    rfl
  · rw [introsortLoop_short comp _ v 0 v.length (by simpa using h)]
    rfl

theorem insertionSort_congr {r s : β → β → Prop} [DecidableRel r] [DecidableRel s]
    (h : ∀ a b, r a b ↔ s a b) (l : List β) : l.insertionSort r = l.insertionSort s := by
  have hins : ∀ (a : β) (l : List β), l.orderedInsert r a = l.orderedInsert s a := by
    intro a l
    induction l with
    | nil => rfl
    | cons b l ih =>
      simp only [List.orderedInsert]
      by_cases hab : r a b
      · rw [if_pos hab, if_pos ((h a b).mp hab)]
      · rw [if_neg hab, if_neg (fun hs => hab ((h a b).mpr hs)), ih]
  induction l with
  | nil => rfl
  | cons a l ih => simp only [List.insertionSort, ih, hins]

end StdSort

/-- The entries after `sortByMidiNote` are a permutation of the entries before. -/
theorem sortByMidiNote_entries_perm {α : Type} [LinearOrderedField α]
    (t : CalibrationTable α) : t.sortByMidiNote.entries.Perm t.entries :=
  StdSort.sort_perm _ _

/-- The notes ascend after `sortByMidiNote`. -/
theorem sortByMidiNote_entries_sorted {α : Type} [LinearOrderedField α]
    (t : CalibrationTable α) :
    t.sortByMidiNote.entries.Sorted (fun a b => a.midiNote ≤ b.midiNote) := by
  unfold CalibrationTable.sortByMidiNote StdSort.sort
  simp only
  split_ifs with h0
  · rw [List.length_eq_zero.mp h0]
    exact List.sorted_nil
  · unfold StdSort.finalInsertionSort
    rw [StdSort.insertionSort_congr
      (show ∀ a b : Entry α, (decide (b.midiNote < a.midiNote) = false)
          ↔ a.midiNote ≤ b.midiNote from fun a b => by simp)]
    haveI : IsTotal (Entry α) (fun a b => a.midiNote ≤ b.midiNote) :=
      ⟨fun a b => le_total a.midiNote b.midiNote⟩
    haveI : IsTrans (Entry α) (fun a b => a.midiNote ≤ b.midiNote) :=
      ⟨fun a b c hab hbc => le_trans hab hbc⟩
    exact List.sorted_insertionSort _ _

/-- On a table of at most 16 entries `sortByMidiNote` is the insertion sort alone. -/
theorem sortByMidiNote_short {α : Type} [LinearOrderedField α] (t : CalibrationTable α)
    (h : t.entries.length ≤ 16) :
    t.sortByMidiNote
      = { t with entries := t.entries.insertionSort (fun a b => a.midiNote ≤ b.midiNote) } := by
  unfold CalibrationTable.sortByMidiNote
  rw [StdSort.sort_short _ _ h]
  rw [StdSort.insertionSort_congr
    (show ∀ a b : Entry α, (decide (b.midiNote < a.midiNote) = false)
        ↔ a.midiNote ≤ b.midiNote from fun a b => by simp)]

/-! ## Theorems: calibration table -/


theorem lowerStep_eq_selStep {α : Type} [LinearOrderedField α] (pitch : α) :
    CalibrationTable.lowerStep pitch
      = selStep (fun e => (e.midiNote : α) ≤ pitch) (fun e => - e.midiNote) := by
  funext acc entry
  unfold CalibrationTable.lowerStep selStep
  by_cases h : (entry.2.midiNote : α) ≤ pitch
  · cases acc with
    | none => simp [h]
    | some a => simp [h]
  · simp [h]

theorem upperStep_eq_selStep {α : Type} [LinearOrderedField α] (pitch : α) :
    CalibrationTable.upperStep pitch
      = selStep (fun e => pitch ≤ (e.midiNote : α)) (fun e => e.midiNote) := by
  funext acc entry
  unfold CalibrationTable.upperStep selStep
  by_cases h : pitch ≤ (entry.2.midiNote : α)
  · cases acc with
    | none => simp [h]
    | some a => simp [h]
  · simp [h]

theorem bracket_fst_foldl {α : Type} [LinearOrderedField α] (pitch : α) (xs : List (EntryPtr α))
    (acc : Option (EntryPtr α) × Option (EntryPtr α)) :
    (xs.foldl (fun acc entry => (CalibrationTable.lowerStep pitch acc.1 entry,
        CalibrationTable.upperStep pitch acc.2 entry)) acc).1
      = xs.foldl (CalibrationTable.lowerStep pitch) acc.1 := by
  induction xs generalizing acc with
  | nil => rfl
  | cons x xs ih => simp [List.foldl_cons, ih]

theorem bracket_snd_foldl {α : Type} [LinearOrderedField α] (pitch : α) (xs : List (EntryPtr α))
    (acc : Option (EntryPtr α) × Option (EntryPtr α)) :
    (xs.foldl (fun acc entry => (CalibrationTable.lowerStep pitch acc.1 entry,
        CalibrationTable.upperStep pitch acc.2 entry)) acc).2
      = xs.foldl (CalibrationTable.upperStep pitch) acc.2 := by
  induction xs generalizing acc with
  | nil => rfl
  | cons x xs ih => simp [List.foldl_cons, ih]

/-- What the selection loop returns: the accumulator or a visited entry satisfying `c`. -/
theorem selStep_foldl_mem {α : Type} (c : Entry α → Prop) [DecidablePred c] (k : Entry α → Int)
    (xs : List (EntryPtr α)) (acc : Option (EntryPtr α)) :
    xs.foldl (selStep c k) acc = acc
      ∨ ∃ x ∈ xs, xs.foldl (selStep c k) acc = some x ∧ c x.2 := by
  induction xs generalizing acc with
  | nil => exact Or.inl rfl
  | cons x xs ih =>
    rw [List.foldl_cons]
    rcases ih (selStep c k acc x) with h | ⟨y, hy, hr, hc⟩
    · rw [h]
      unfold selStep
      by_cases hcx : c x.2
      · cases acc with
        | none => exact Or.inr ⟨x, List.mem_cons_self _ _, by simp [hcx], hcx⟩
        | some a =>
          by_cases hk : k x.2 < k a.2
          · exact Or.inr ⟨x, List.mem_cons_self _ _, by simp [hcx, hk], hcx⟩
          · exact Or.inl (by simp [hcx, hk])
      · exact Or.inl (by simp [hcx])
    · exact Or.inr ⟨y, List.mem_cons_of_mem _ hy, hr, hc⟩

/-- The selection loop never loses an accumulator: the result has a key at most the
accumulator's, and with an equal key it is the accumulator. -/
theorem selStep_foldl_acc {α : Type} (c : Entry α → Prop) [DecidablePred c] (k : Entry α → Int)
    (xs : List (EntryPtr α)) (a : EntryPtr α) :
    ∃ u, xs.foldl (selStep c k) (some a) = some u ∧ k u.2 ≤ k a.2
      ∧ (k u.2 = k a.2 → u = a) := by
  induction xs generalizing a with
  | nil => exact ⟨a, rfl, le_refl _, fun _ => rfl⟩
  | cons x xs ih =>
    rw [List.foldl_cons]
    by_cases hcx : c x.2
    · by_cases hk : k x.2 < k a.2
      · have hs : selStep c k (some a) x = some x := by simp [selStep, hcx, hk]
        rw [hs]
        obtain ⟨u, hu, hle, _⟩ := ih x
        exact ⟨u, hu, by omega, fun h => by omega⟩
      · have hs : selStep c k (some a) x = some a := by simp [selStep, hcx, hk]
        rw [hs]
        exact ih a
    · have hs : selStep c k (some a) x = some a := by simp [selStep, hcx]
      rw [hs]
      exact ih a

/-- The selection loop returns an entry whose key is at most the key of every visited
entry satisfying `c`; when the positions of the visited entries increase, it is the
first entry with that key. -/
theorem selStep_foldl_min {α : Type} (c : Entry α → Prop) [DecidablePred c] (k : Entry α → Int)
    (xs : List (EntryPtr α)) (acc : Option (EntryPtr α))
    (hsorted : xs.Pairwise (fun a b => a.1 < b.1))
    (hacc : ∀ a, acc = some a → ∀ x ∈ xs, a.1 < x.1) :
    ∀ x ∈ xs, c x.2 →
      ∃ u, xs.foldl (selStep c k) acc = some u ∧ k u.2 ≤ k x.2
        ∧ (k u.2 = k x.2 → u.1 ≤ x.1) := by
  induction xs generalizing acc with
  | nil => intro x hx; cases hx
  | cons y ys ih =>
    intro x hx hcx
    rw [List.foldl_cons]
    rw [List.pairwise_cons] at hsorted
    have hacc2 : ∀ a, selStep c k acc y = some a → ∀ z ∈ ys, a.1 < z.1 := by
      intro a ha z hz
      unfold selStep at ha
      by_cases hcy : c y.2
      · cases acc with
        | none =>
          simp [hcy] at ha
          subst ha
          exact hsorted.1 z hz
        | some b =>
          by_cases hk : k y.2 < k b.2
          · simp [hcy, hk] at ha
            subst ha
            exact hsorted.1 z hz
          · simp [hcy, hk] at ha
            subst ha
            exact hacc b rfl z (List.mem_cons_of_mem _ hz)
      · simp [hcy] at ha
        exact hacc a ha z (List.mem_cons_of_mem _ hz)
    rcases List.mem_cons.mp hx with hxy | hxys
    · subst hxy
      -- the entry itself is visited now
      cases acc with
      | none =>
        have hs : selStep c k none x = some x := by simp [selStep, hcx]
        rw [hs]
        obtain ⟨u, hu, hle, heq⟩ := selStep_foldl_acc c k ys x
        exact ⟨u, hu, hle, fun h => by rw [heq h]⟩
      | some b =>
        by_cases hk : k x.2 < k b.2
        · have hs : selStep c k (some b) x = some x := by simp [selStep, hcx, hk]
          rw [hs]
          obtain ⟨u, hu, hle, heq⟩ := selStep_foldl_acc c k ys x
          exact ⟨u, hu, hle, fun h => by rw [heq h]⟩
        · have hs : selStep c k (some b) x = some b := by simp [selStep, hcx, hk]
          rw [hs]
          obtain ⟨u, hu, hle, heq⟩ := selStep_foldl_acc c k ys b
          have hbx : b.1 < x.1 := hacc b rfl x (List.mem_cons_self _ _)
          refine ⟨u, hu, by omega, fun h => ?_⟩
          have : u = b := heq (by omega)
          rw [this]
          exact hbx.le
    · exact ih (selStep c k acc y) hsorted.2 hacc2 x hxys hcx

theorem enum_pairwise_fst {β : Type} (l : List β) :
    l.enum.Pairwise (fun a b => a.1 < b.1) := by
  have h : ∀ (n : Nat) (l : List β), (l.enumFrom n).Pairwise (fun a b => a.1 < b.1) := by
    intro n l
    induction l generalizing n with
    | nil => simp
    | cons x xs ih =>
      rw [List.enumFrom_cons, List.pairwise_cons]
      refine ⟨?_, ih (n + 1)⟩
      intro a ha
      obtain ⟨i, b⟩ := a
      have := List.le_fst_of_mem_enumFrom ha
      simp at this ⊢
      omega
  exact h 0 l


/-- The result of the selection loop over all entries: null when no entry satisfies `c`,
otherwise a pointer to the first entry with the least key among those satisfying `c`. -/
theorem sel_spec {α : Type} (c : Entry α → Prop) [DecidablePred c] (k : Entry α → Int)
    (es : List (Entry α)) :
    (es.enum.foldl (selStep c k) none = none ∧ ∀ e ∈ es, ¬ c e)
    ∨ ∃ u, es.enum.foldl (selStep c k) none = some u ∧ es[u.1]? = some u.2 ∧ c u.2
        ∧ ∀ j e, es[j]? = some e → c e → k u.2 ≤ k e ∧ (k u.2 = k e → u.1 ≤ j) := by
  by_cases h : ∃ e ∈ es, c e
  · right
    obtain ⟨e, he, hce⟩ := h
    obtain ⟨j, hj⟩ := List.mem_iff_getElem?.mp he
    have hmin := selStep_foldl_min c k es.enum none (enum_pairwise_fst es)
      (fun a ha => by cases ha)
    obtain ⟨u, hu, -, -⟩ := hmin (j, e) (List.mk_mem_enum_iff_getElem?.mpr hj) hce
    refine ⟨u, hu, ?_, ?_, ?_⟩
    · rcases selStep_foldl_mem c k es.enum none with h0 | ⟨x, hx, hr, -⟩
      · rw [hu] at h0; cases h0
      · rw [hu] at hr
        cases hr
        exact List.mem_enum_iff_getElem?.mp hx
    · rcases selStep_foldl_mem c k es.enum none with h0 | ⟨x, -, hr, hcx⟩
      · rw [hu] at h0; cases h0
      · rw [hu] at hr
        cases hr
        exact hcx
    · intro j2 e2 hj2 hc2
      obtain ⟨u2, hu2, hle, hfirst⟩ :=
        hmin (j2, e2) (List.mk_mem_enum_iff_getElem?.mpr hj2) hc2
      rw [hu] at hu2
      cases hu2
      exact ⟨hle, hfirst⟩
  · left
    push_neg at h
    refine ⟨?_, h⟩
    rcases selStep_foldl_mem c k es.enum none with h0 | ⟨x, hx, -, hcx⟩
    · exact h0
    · exact absurd hcx (h x.2 (List.getElem?_mem (List.mem_enum_iff_getElem?.mp hx)))

theorem bracket_eq {α : Type} [LinearOrderedField α] (pitch : α) (es : List (Entry α)) :
    CalibrationTable.bracket pitch es
      = (es.enum.foldl (selStep (fun e => (e.midiNote : α) ≤ pitch) (fun e => - e.midiNote)) none,
         es.enum.foldl (selStep (fun e => pitch ≤ (e.midiNote : α)) (fun e => e.midiNote)) none) := by
  unfold CalibrationTable.bracket
  refine Prod.ext ?_ ?_
  · rw [bracket_fst_foldl, lowerStep_eq_selStep]
  · rw [bracket_snd_foldl, upperStep_eq_selStep]

theorem linearInterpolate_of_two_le {α : Type} [LinearOrderedField α]
    (t : CalibrationTable α) (pitch : α) (hlen : 2 ≤ t.entries.length) :
    t.linearInterpolate pitch =
      match CalibrationTable.bracket pitch t.entries with
      | (none, none) => none
      | (none, some upper) => some upper.2.correctionOffset
      | (some lower, none) => some lower.2.correctionOffset
      | (some lower, some upper) =>
        if lower.1 = upper.1 then some lower.2.correctionOffset
        else
          some (lower.2.correctionOffset
            + (pitch - (lower.2.midiNote : α))
                / (((upper.2.midiNote - lower.2.midiNote : Int) : α))
              * (upper.2.correctionOffset - lower.2.correctionOffset)) := by
  unfold CalibrationTable.linearInterpolate
  rcases hes : t.entries with _ | ⟨a, _ | ⟨b, rest⟩⟩
  · rw [hes] at hlen; simp at hlen
  · rw [hes] at hlen; simp at hlen
  · rfl

/-- C5 (amended): in exact arithmetic (offsets, pitch and notes taken as exact numbers,
the difference of two notes without overflow), in a table of at least two entries with
pairwise distinct notes, for a pitch `p`
bracketed by `lo` (greatest note at most `p`) and `hi` (least note at least `p`),
`getCorrectionOffset p` is the offset of the entry whose note is `p` when there is one,
and otherwise the linear interpolation between `lo` and `hi`. -/
theorem getCorrectionOffset_bracketed {α : Type} [LinearOrderedField α]
    (t : CalibrationTable α) (p : α) (lo hi : Entry α)
    (hlen : 2 ≤ t.entries.length)
    (hnodup : (t.entries.map Entry.midiNote).Nodup)
    (hlo : lo ∈ t.entries) (hlop : (lo.midiNote : α) ≤ p)
    (hlomax : ∀ e ∈ t.entries, (e.midiNote : α) ≤ p → e.midiNote ≤ lo.midiNote)
    (hhi : hi ∈ t.entries) (hhip : p ≤ (hi.midiNote : α))
    (hhimin : ∀ e ∈ t.entries, p ≤ (e.midiNote : α) → hi.midiNote ≤ e.midiNote) :
    (∀ e ∈ t.entries, (e.midiNote : α) = p →
        t.getCorrectionOffset p = some e.correctionOffset)
    ∧ ((∀ e ∈ t.entries, (e.midiNote : α) ≠ p) →
        t.getCorrectionOffset p =
          some (lo.correctionOffset
            + ((p - (lo.midiNote : α)) / ((hi.midiNote : α) - (lo.midiNote : α)))
              * (hi.correctionOffset - lo.correctionOffset))) := by
  have hinj := List.inj_on_of_nodup_map hnodup
  have hnd : t.entries.Nodup := List.Nodup.of_map _ hnodup
  -- the pointers found by the loop
  obtain ⟨u, hu, hui, hcu, hmu⟩ :
      ∃ u, t.entries.enum.foldl
          (selStep (fun e => (e.midiNote : α) ≤ p) (fun e => - e.midiNote)) none = some u
        ∧ t.entries[u.1]? = some u.2 ∧ (u.2.midiNote : α) ≤ p
        ∧ ∀ j e, t.entries[j]? = some e → (e.midiNote : α) ≤ p →
            - u.2.midiNote ≤ - e.midiNote ∧ (- u.2.midiNote = - e.midiNote → u.1 ≤ j) := by
    rcases sel_spec (fun e : Entry α => (e.midiNote : α) ≤ p) (fun e => - e.midiNote) t.entries
      with ⟨-, hno⟩ | h
    · exact absurd hlop (hno lo hlo)
    · exact h
  obtain ⟨w, hw, hwi, hcw, hmw⟩ :
      ∃ w, t.entries.enum.foldl
          (selStep (fun e => p ≤ (e.midiNote : α)) (fun e => e.midiNote)) none = some w
        ∧ t.entries[w.1]? = some w.2 ∧ p ≤ (w.2.midiNote : α)
        ∧ ∀ j e, t.entries[j]? = some e → p ≤ (e.midiNote : α) →
            w.2.midiNote ≤ e.midiNote ∧ (w.2.midiNote = e.midiNote → w.1 ≤ j) := by
    rcases sel_spec (fun e : Entry α => p ≤ (e.midiNote : α)) (fun e => e.midiNote) t.entries
      with ⟨-, hno⟩ | h
    · exact absurd hhip (hno hi hhi)
    · exact h
  have humem : u.2 ∈ t.entries := List.getElem?_mem hui
  have hwmem : w.2 ∈ t.entries := List.getElem?_mem hwi
  obtain ⟨jlo, hjlo⟩ := List.mem_iff_getElem?.mp hlo
  obtain ⟨jhi, hjhi⟩ := List.mem_iff_getElem?.mp hhi
  have hulo : u.2 = lo := by
    apply hinj humem hlo
    have h1 := (hmu jlo lo hjlo hlop).1
    have h2 := hlomax u.2 humem hcu
    omega
  have hwhi : w.2 = hi := by
    apply hinj hwmem hhi
    have h1 := (hmw jhi hi hjhi hhip).1
    have h2 := hhimin w.2 hwmem hcw
    omega
  have hres : t.getCorrectionOffset p =
      if u.1 = w.1 then some lo.correctionOffset
      else some (lo.correctionOffset
            + (p - (lo.midiNote : α)) / (((hi.midiNote - lo.midiNote : Int) : α))
              * (hi.correctionOffset - lo.correctionOffset)) := by
    unfold CalibrationTable.getCorrectionOffset
    rw [linearInterpolate_of_two_le t p hlen, bracket_eq, hu, hw]
    simp only [hulo, hwhi]
  have hidx : lo = hi → u.1 = w.1 := by
    intro h
    have hu1 : u.1 < t.entries.length := (List.getElem?_eq_some.mp hui).1
    apply List.getElem?_inj hu1 hnd
    rw [hui, hwi, hulo, hwhi, h]
  constructor
  · intro e he hep
    have helo : e = lo := by
      apply hinj he hlo
      have h1 := hlomax e he (le_of_eq hep)
      have h2 : (lo.midiNote : α) ≤ (e.midiNote : α) := by rw [hep]; exact hlop
      have h3 : lo.midiNote ≤ e.midiNote := by exact_mod_cast h2
      omega
    have hehi : e = hi := by
      apply hinj he hhi
      have h1 := hhimin e he (le_of_eq hep.symm)
      have h2 : (e.midiNote : α) ≤ (hi.midiNote : α) := by rw [hep]; exact hhip
      have h3 : e.midiNote ≤ hi.midiNote := by exact_mod_cast h2
      omega
    rw [hres, if_pos (hidx (helo.symm.trans hehi)), helo]
  · intro hne
    have hlohi : u.1 ≠ w.1 := by
      intro h
      have h1 : u.2 = w.2 := by
        have := hui
        rw [h, hwi] at this
        exact (Option.some.inj this).symm
      have h2 : lo = hi := by rw [← hulo, ← hwhi, h1]
      have h3 : (lo.midiNote : α) = p := le_antisymm hlop (by rw [h2]; exact hhip)
      exact hne lo hlo h3
    rw [hres, if_neg hlohi]
    push_cast
    rfl

theorem getCorrectionOffset_bracketed_witness : twoEntryTable.getCorrectionOffset 54 = some 0 := by
  have h := (getCorrectionOffset_bracketed twoEntryTable 54
    { (Entry.init : Entry ℚ) with midiNote := 48, correctionOffset := 1 / 10 }
    { (Entry.init : Entry ℚ) with midiNote := 60, correctionOffset := -(1 / 10) }
    (by simp [twoEntryTable, CalibrationTable.addEntry, CalibrationTable.init])
    (by simp [twoEntryTable, CalibrationTable.addEntry, CalibrationTable.init])
    (by simp [twoEntryTable, CalibrationTable.addEntry, CalibrationTable.init])
    (by norm_num)
    (by
      intro e he _
      simp [twoEntryTable, CalibrationTable.addEntry, CalibrationTable.init] at he
      rcases he with rfl | rfl
      · simp
      · norm_num at *)
    (by simp [twoEntryTable, CalibrationTable.addEntry, CalibrationTable.init])
    (by norm_num)
    (by
      intro e he _
      simp [twoEntryTable, CalibrationTable.addEntry, CalibrationTable.init] at he
      rcases he with rfl | rfl
      · norm_num at *
      · simp)).2
    (by
      intro e he
      simp [twoEntryTable, CalibrationTable.addEntry, CalibrationTable.init] at he
      rcases he with rfl | rfl <;> norm_num)
  rw [h]
  norm_num

theorem runSweep_stopped {α : Type} [LinearOrderedField α] [CMath α] (now fuel : Nat)
    (e : CalibrationEngine α) (h : e.timerRunning = false) : runSweep now fuel e = some e := by
  cases fuel with
  | zero => rfl
  | succ n => simp [runSweep, h]

/-- `outputCurrentVoltage` only touches the voltage-output collaborator. -/
theorem outputCurrentVoltage_eq {α : Type} [LinearOrderedField α] (e : CalibrationEngine α) :
    e.outputCurrentVoltage =
      { e with cvOutput :=
          e.cvOutput.map (fun cv =>
            if e.settings.useExternalCVSource then cv
            else cv.outputVoltage e.currentPoint.targetVoltage) } := by
  unfold CalibrationEngine.outputCurrentVoltage
  obtain ⟨tn, cv, ns, tr, st, se, ni, mc, cp, cd, fa, sc⟩ := e
  cases h : se.useExternalCVSource <;> cases cv <;> simp [h]

theorem log2_pow_two_real (x : ℝ) : CMath.log2 (CMath.pow (2 : ℝ) x) = x := by
  show Real.logb 2 (Real.rpow 2 x) = x
  exact Real.logb_rpow (by norm_num) (by norm_num)

/-- C7: the sweep over the notes 60, 61, 62 (settle time 20 ms, one measurement per
note) against a collaborator answering every request with the exact ideal frequency,
driven from `startCalibration` until the tick stops, ends in `Completed` with the tick
stopped; exactly one `calibrationCompleted` notification was emitted, its table has the
three entries 60, 61, 62 in that order with `errorCents = 0`, and no error or cancelled
notification was emitted.  Thirteen ticks suffice; more fuel changes nothing. -/
theorem sweep_three_notes_completed (tn : Tuner) (cv : CVOutputManager ℝ) (now extra : Nat)
    (standard : VoltageStandard) (useExternalCVSource : Bool) :
    ∃ e table,
      ((CalibrationEngine.init (some tn) (some cv)).startCalibration
          (scenarioSettings standard useExternalCVSource)).bind
        (runSweep now (13 + extra)) = some e
      ∧ e.timerRunning = false ∧ e.state = State.Completed
      ∧ completedTables e.notifications = [table]
      ∧ table.entries.map Entry.midiNote = [60, 61, 62]
      ∧ (∀ en ∈ table.entries, en.errorCents = 0)
      ∧ (∀ n ∈ e.notifications, isErrorOrCancelled n = false) := by
  have h13 : 13 + extra = extra + 1 + 1 + 1 + 1 + 1 + 1 + 1 + 1 + 1 + 1 + 1 + 1 + 1 := by omega
  rw [h13]
  simp [CalibrationEngine.init, CalibrationEngine.startCalibration, runSweep, sweepStep,
    CalibrationEngine.timerCallback, CalibrationEngine.notify, scenarioSettings,
    CalibrationSettings.init, outputCurrentVoltage_eq,
    CalibrationEngine.startMeasurement, requestsOf, answerRequests,
    CalibrationEngine.newMeasurementReady, Tuner.startSingleMeasurement,
    CalibrationEngine.advanceToNextPoint, CalibrationEngine.finishCalibration,
    CalibrationEngine.processCurrentMeasurement, CalibrationEngine.generateCalibrationTable,
    completedTables, isErrorOrCancelled, CalibrationTable.init, CalibrationTable.addEntry,
    sortByMidiNote_short, CalibrationTable.setCalibrationDate, idealMeasurement,
    CalibrationPoint.init, runSweep_stopped, log2_pow_two_real]
  norm_num

/-! ### The running engine has its voltage-output collaborator -/

theorem startMeasurement_cvOutput {α : Type} [LinearOrderedField α] (e : CalibrationEngine α) :
    e.startMeasurement.cvOutput = e.cvOutput ∧ e.startMeasurement.state = e.state := by
  unfold CalibrationEngine.startMeasurement
  cases e.tuner <;> simp

theorem timerCallback_keeps {α : Type} [LinearOrderedField α] [CMath α] (now : Nat)
    (e e2 : CalibrationEngine α) (hs : e.timerCallback now = some e2) :
    e2.cvOutput.isSome = e.cvOutput.isSome
    ∧ (e.cvOutput = none → e2.isRunning = true → e.isRunning = true) := by
  obtain ⟨tn, cv, ns, tr, st, se, ni, mc, cp, cd, fa, sc⟩ := e
  cases cv <;> cases st <;>
    simp [CalibrationEngine.timerCallback, CalibrationEngine.advanceToNextPoint,
      CalibrationEngine.finishCalibration, outputCurrentVoltage_eq,
      CalibrationEngine.notify, CalibrationEngine.isRunning] at hs ⊢
  all_goals (repeat' (split at hs))
  all_goals (cases hs)
  all_goals (simp [startMeasurement_cvOutput, CalibrationEngine.isRunning])

theorem startCalibration_keeps {α : Type} [LinearOrderedField α] (s : CalibrationSettings)
    (e e2 : CalibrationEngine α) (hs : e.startCalibration s = some e2) :
    e2.cvOutput.isSome = e.cvOutput.isSome
    ∧ (e.cvOutput = none → e2.isRunning = true → e.isRunning = true) := by
  obtain ⟨tn, cv, ns, tr, st, se, ni, mc, cp, cd, fa, sc⟩ := e
  cases cv <;> cases tn <;>
    simp [CalibrationEngine.startCalibration, CalibrationEngine.setError,
      CalibrationEngine.notify, CalibrationEngine.isRunning] at hs ⊢
  all_goals (cases hs)
  all_goals simp

theorem pauseCalibration_keeps {α : Type} [LinearOrderedField α]
    (e e2 : CalibrationEngine α) (hs : e.pauseCalibration = some e2) :
    e2.cvOutput.isSome = e.cvOutput.isSome
    ∧ (e.cvOutput = none → e2.isRunning = true → e.isRunning = true) := by
  obtain ⟨tn, cv, ns, tr, st, se, ni, mc, cp, cd, fa, sc⟩ := e
  cases cv <;> cases st <;>
    simp [CalibrationEngine.pauseCalibration, CalibrationEngine.isRunning] at hs ⊢
  all_goals (cases hs)
  all_goals simp

theorem resumeCalibration_keeps {α : Type} [LinearOrderedField α]
    (e e2 : CalibrationEngine α) (hs : e.resumeCalibration = some e2) :
    e2.cvOutput.isSome = e.cvOutput.isSome
    ∧ (e.cvOutput = none → e2.isRunning = true → e.isRunning = true) := by
  obtain ⟨tn, cv, ns, tr, st, se, ni, mc, cp, cd, fa, sc⟩ := e
  cases cv <;> cases st <;>
    simp [CalibrationEngine.resumeCalibration, CalibrationEngine.isRunning] at hs ⊢
  all_goals (cases hs)
  all_goals simp

theorem cancelCalibration_keeps {α : Type} [LinearOrderedField α]
    (e e2 : CalibrationEngine α) (hs : e.cancelCalibration = some e2) :
    e2.cvOutput.isSome = e.cvOutput.isSome
    ∧ (e.cvOutput = none → e2.isRunning = true → e.isRunning = true) := by
  obtain ⟨tn, cv, ns, tr, st, se, ni, mc, cp, cd, fa, sc⟩ := e
  cases cv <;>
    simp [CalibrationEngine.cancelCalibration, CalibrationEngine.notify,
      CalibrationEngine.isRunning] at hs ⊢
  cases hs
  simp

theorem triggerManualMeasurement_keeps {α : Type} [LinearOrderedField α] [CMath α]
    (knownVoltage : α) (e e2 : CalibrationEngine α)
    (hs : e.triggerManualMeasurement knownVoltage = some e2) :
    e2.cvOutput.isSome = e.cvOutput.isSome
    ∧ (e.cvOutput = none → e2.isRunning = true → e.isRunning = true) := by
  obtain ⟨tn, cv, ns, tr, st, se, ni, mc, cp, cd, fa, sc⟩ := e
  cases cv <;> cases hx : se.useExternalCVSource <;>
    simp [CalibrationEngine.triggerManualMeasurement, hx] at hs ⊢
  all_goals (cases hs)
  all_goals (simp [startMeasurement_cvOutput])

theorem tunerStopped_keeps {α : Type} [LinearOrderedField α]
    (e e2 : CalibrationEngine α) (hs : e.tunerStopped = some e2) :
    e2.cvOutput.isSome = e.cvOutput.isSome
    ∧ (e.cvOutput = none → e2.isRunning = true → e.isRunning = true) := by
  obtain ⟨tn, cv, ns, tr, st, se, ni, mc, cp, cd, fa, sc⟩ := e
  cases cv <;> cases st <;>
    simp [CalibrationEngine.tunerStopped, CalibrationEngine.setError,
      CalibrationEngine.notify, CalibrationEngine.isRunning] at hs ⊢
  all_goals (cases hs)
  all_goals simp

theorem newMeasurementReady_keeps {α : Type} [LinearOrderedField α] [CMath α]
    (now : Nat) (m : Measurement α) (e : CalibrationEngine α) :
    (e.newMeasurementReady now m).cvOutput = e.cvOutput
    ∧ ((e.newMeasurementReady now m).isRunning = true → e.isRunning = true) := by
  obtain ⟨tn, cv, ns, tr, st, se, ni, mc, cp, cd, fa, sc⟩ := e
  cases st <;>
    simp [CalibrationEngine.newMeasurementReady, CalibrationEngine.processCurrentMeasurement,
      CalibrationEngine.isRunning]

/-- Every reachable engine in a running state has its voltage-output collaborator:
`startCalibration` refuses to run without it. -/
theorem running_has_cvOutput {α : Type} [LinearOrderedField α] [CMath α]
    {e : CalibrationEngine α} (h : CalibrationEngine.Reachable e) :
    e.isRunning = true → e.cvOutput.isSome = true := by
  have step : ∀ e e2 : CalibrationEngine α,
      (e.isRunning = true → e.cvOutput.isSome = true) →
      (e2.cvOutput.isSome = e.cvOutput.isSome
        ∧ (e.cvOutput = none → e2.isRunning = true → e.isRunning = true)) →
      e2.isRunning = true → e2.cvOutput.isSome = true := by
    intro e e2 ih hk hr
    cases hcv : e.cvOutput with
    | none =>
      have := ih (hk.2 hcv hr)
      rw [hcv] at this
      cases this
    | some cv =>
      rw [hk.1, hcv]
      rfl
  induction h with
  | init t cv => intro h; simp [CalibrationEngine.isRunning, CalibrationEngine.init] at h
  | @startCalibration e e2 s _ hs ih => exact step e e2 ih (startCalibration_keeps s e e2 hs)
  | @pauseCalibration e e2 _ hs ih => exact step e e2 ih (pauseCalibration_keeps e e2 hs)
  | @resumeCalibration e e2 _ hs ih => exact step e e2 ih (resumeCalibration_keeps e e2 hs)
  | @cancelCalibration e e2 _ hs ih => exact step e e2 ih (cancelCalibration_keeps e e2 hs)
  | @triggerManualMeasurement e e2 v _ hs ih =>
    exact step e e2 ih (triggerManualMeasurement_keeps v e e2 hs)
  | @timerCallback e e2 now _ hs ih => exact step e e2 ih (timerCallback_keeps now e e2 hs)
  | @newMeasurementReady e now m _ ih =>
    have hk := newMeasurementReady_keeps now m e
    exact step e _ ih ⟨by rw [hk.1], fun _ => hk.2⟩
  | @tunerStopped e e2 _ hs ih => exact step e e2 ih (tunerStopped_keeps e e2 hs)
  | @collaborators e f g _ ih =>
    intro hr
    have := ih (by simpa [CalibrationEngine.isRunning] using hr)
    simpa using this

/-- C8: in every state other than `WaitingForMeasurement`, `newMeasurementReady` returns
the engine unchanged: state, current point, frequency accumulator, measurement count,
completed points and the notifications emitted so far are all as before. -/
theorem newMeasurementReady_ignored {α : Type} [LinearOrderedField α] [CMath α]
    (now : Nat) (m : Measurement α) (e : CalibrationEngine α)
    (hstate : e.state ≠ State.WaitingForMeasurement) :
    e.newMeasurementReady now m = e := by
  unfold CalibrationEngine.newMeasurementReady
  rw [if_pos hstate]

theorem newMeasurementReady_ignored_witness :
    cancelledEngine.state = State.Idle
    ∧ CalibrationEngine.newMeasurementReady 7
        ({ frequency := 440, pitchOffsetSemitones := 0, pitchDeviation := 0 } : Measurement ℝ)
        cancelledEngine = cancelledEngine :=
  ⟨rfl, newMeasurementReady_ignored 7 _ cancelledEngine (by
    simp [cancelledEngine, CalibrationEngine.init])⟩

/-- C9: for every reachable engine, from each of the five running states
`pauseCalibration` followed by `resumeCalibration` succeeds and leaves the engine in
`SettlingVoltage` (not `WaitingForMeasurement`) with settle counter 0, the tick running,
the voltage output active and the completed points unchanged; `resumeCalibration`
outside `Paused` and `pauseCalibration` in `Idle`, `Completed` or `Error` change
nothing. -/
theorem pause_resume_resettles {α : Type} [LinearOrderedField α] [CMath α]
    (e : CalibrationEngine α) (hreach : CalibrationEngine.Reachable e) :
    ((e.state = State.Starting ∨ e.state = State.SettlingVoltage
        ∨ e.state = State.WaitingForMeasurement ∨ e.state = State.ProcessingResult
        ∨ e.state = State.MovingToNext) →
      ∃ e2 cv2, e.pauseCalibration.bind CalibrationEngine.resumeCalibration = some e2
        ∧ e2.state = State.SettlingVoltage ∧ e2.state ≠ State.WaitingForMeasurement
        ∧ e2.settleCounter = 0 ∧ e2.timerRunning = true
        ∧ e2.cvOutput = some cv2 ∧ cv2.isActive = true
        ∧ e2.calibrationData = e.calibrationData)
    ∧ (e.state ≠ State.Paused → e.resumeCalibration = some e)
    ∧ ((e.state = State.Idle ∨ e.state = State.Completed ∨ e.state = State.Error) →
        e.pauseCalibration = some e) := by
  refine ⟨?_, ?_, ?_⟩
  · intro hrun
    have hr : e.isRunning = true := by
      unfold CalibrationEngine.isRunning
      rcases hrun with h | h | h | h | h <;> simp [h]
    obtain ⟨cv, hcv⟩ := Option.isSome_iff_exists.mp (running_has_cvOutput hreach hr)
    refine ⟨{ e with cvOutput := some ((cv.setActive false).setActive true),
                     state := State.SettlingVoltage, settleCounter := 0,
                     timerRunning := true },
            (cv.setActive false).setActive true, ?_, rfl, by simp, rfl, rfl, rfl, rfl, rfl⟩
    simp [CalibrationEngine.pauseCalibration, hr, hcv, CalibrationEngine.resumeCalibration]
  · intro h
    simp [CalibrationEngine.resumeCalibration, h]
  · intro h
    have hr : e.isRunning = false := by
      unfold CalibrationEngine.isRunning
      rcases h with h | h | h <;> simp [h]
    simp [CalibrationEngine.pauseCalibration, hr]

theorem pause_resume_resettles_witness :
    ∃ e2 cv2, startedEngine.pauseCalibration.bind CalibrationEngine.resumeCalibration = some e2
      ∧ e2.state = State.SettlingVoltage ∧ e2.state ≠ State.WaitingForMeasurement
      ∧ e2.settleCounter = 0 ∧ e2.timerRunning = true
      ∧ e2.cvOutput = some cv2 ∧ cv2.isActive = true
      ∧ e2.calibrationData = startedEngine.calibrationData :=
  (pause_resume_resettles startedEngine
    (CalibrationEngine.Reachable.startCalibration
      (scenarioSettings VoltageStandard.OneVoltPerOctave false)
      (CalibrationEngine.Reachable.init (some { requests := [] }) (some CVOutputManager.init))
      (by
        simp [CalibrationEngine.startCalibration, CalibrationEngine.init,
          CalibrationEngine.notify, startedEngine, scenarioSettings]))).1 (Or.inl rfl)

/-- C10 (the code at the failing input): `startCalibration` on an engine without the
voltage-output collaborator dereferences the null `cvOutput` inside `setError`, whatever
the settings and the tuner; with only the tuner missing it stops the tick, deactivates
the output, enters `Error` and emits exactly the one error notification, leaving the
settings and the completed points as they were. -/
theorem startCalibration_missing_collaborator {α : Type} [LinearOrderedField α]
    (e : CalibrationEngine α) (cv : CVOutputManager α) (s : CalibrationSettings) :
    ({ e with cvOutput := none }).startCalibration s = none
    ∧ ({ e with tuner := none, cvOutput := some cv }).startCalibration s
        = some { e with
            tuner := none
            cvOutput := some (cv.setActive false)
            timerRunning := false
            state := State.Error
            notifications := e.notifications
              ++ [Notification.calibrationError "Tuner or CV output not configured"] } := by
  constructor
  · simp [CalibrationEngine.startCalibration, CalibrationEngine.setError]
  · simp [CalibrationEngine.startCalibration, CalibrationEngine.setError,
      CalibrationEngine.notify]

/-- C11: for every reachable engine in a running or paused state, `cancelCalibration`
succeeds and leaves the engine in `Idle` with the tick stopped and the voltage output
inactive; the only notification it adds is the one `calibrationCancelled` (no
`calibrationCompleted`, whatever the number of completed points). -/
theorem cancelCalibration_abandons {α : Type} [LinearOrderedField α] [CMath α]
    (e : CalibrationEngine α) (hreach : CalibrationEngine.Reachable e)
    (hstate : e.state = State.Starting ∨ e.state = State.SettlingVoltage
      ∨ e.state = State.WaitingForMeasurement ∨ e.state = State.ProcessingResult
      ∨ e.state = State.MovingToNext ∨ e.state = State.Paused) :
    ∃ e2 cv2, e.cancelCalibration = some e2
      ∧ e2.state = State.Idle ∧ e2.timerRunning = false
      ∧ e2.cvOutput = some cv2 ∧ cv2.isActive = false
      ∧ e2.notifications = e.notifications ++ [Notification.calibrationCancelled]
      ∧ completedTables e2.notifications = completedTables e.notifications
      ∧ e2.calibrationData = e.calibrationData := by
  have hr : e.isRunning = true := by
    unfold CalibrationEngine.isRunning
    rcases hstate with h | h | h | h | h | h <;> simp [h]
  obtain ⟨cv, hcv⟩ := Option.isSome_iff_exists.mp (running_has_cvOutput hreach hr)
  refine ⟨{ e with timerRunning := false, state := State.Idle,
                   cvOutput := some (cv.setActive false),
                   notifications := e.notifications ++ [Notification.calibrationCancelled] },
          cv.setActive false, ?_, rfl, rfl, rfl, rfl, rfl, ?_, rfl⟩
  · simp [CalibrationEngine.cancelCalibration, hcv, CalibrationEngine.notify]
  · simp [completedTables, List.filterMap_append]

theorem cancelCalibration_abandons_witness :
    ∃ e2 cv2, startedEngine.cancelCalibration = some e2
      ∧ e2.state = State.Idle ∧ e2.timerRunning = false
      ∧ e2.cvOutput = some cv2 ∧ cv2.isActive = false
      ∧ e2.notifications = startedEngine.notifications ++ [Notification.calibrationCancelled]
      ∧ completedTables e2.notifications = completedTables startedEngine.notifications
      ∧ e2.calibrationData = startedEngine.calibrationData :=
  cancelCalibration_abandons startedEngine
    (CalibrationEngine.Reachable.startCalibration
      (scenarioSettings VoltageStandard.OneVoltPerOctave false)
      (CalibrationEngine.Reachable.init (some { requests := [] }) (some CVOutputManager.init))
      (by
        simp [CalibrationEngine.startCalibration, CalibrationEngine.init,
          CalibrationEngine.notify, startedEngine, scenarioSettings]))
    (Or.inl rfl)

/-- C18 (amended): in exact arithmetic, for an interface range with
`minVolts < maxVolts`, `voltageToSample` and
`sampleToVoltage` are inverse to each other (for every voltage and every sample, in
particular inside the range), and the ends of the range map to `-1` and `+1`. -/
theorem voltageToSample_sampleToVoltage {α : Type} [LinearOrderedField α]
    (m : CVOutputManager α) (hrange : m.interfaceMinVolts < m.interfaceMaxVolts) :
    (∀ v : α, m.sampleToVoltage (m.voltageToSample v) = v)
    ∧ (∀ s : α, m.voltageToSample (m.sampleToVoltage s) = s)
    ∧ m.voltageToSample m.interfaceMinVolts = -1
    ∧ m.voltageToSample m.interfaceMaxVolts = 1 := by
  have hne : m.interfaceMaxVolts - m.interfaceMinVolts ≠ 0 := ne_of_gt (sub_pos.mpr hrange)
  unfold CVOutputManager.sampleToVoltage CVOutputManager.voltageToSample
  refine ⟨fun v => ?_, fun s => ?_, ?_, ?_⟩
  · field_simp
    ring
  · field_simp
    ring
  · simp
  · simp only [div_self hne]
    norm_num

theorem voltageToSample_sampleToVoltage_witness :
    (∀ v : ℚ, (CVOutputManager.init : CVOutputManager ℚ).sampleToVoltage
        ((CVOutputManager.init : CVOutputManager ℚ).voltageToSample v) = v)
    ∧ (∀ s : ℚ, (CVOutputManager.init : CVOutputManager ℚ).voltageToSample
        ((CVOutputManager.init : CVOutputManager ℚ).sampleToVoltage s) = s)
    ∧ (CVOutputManager.init : CVOutputManager ℚ).voltageToSample
        (CVOutputManager.init : CVOutputManager ℚ).interfaceMinVolts = -1
    ∧ (CVOutputManager.init : CVOutputManager ℚ).voltageToSample
        (CVOutputManager.init : CVOutputManager ℚ).interfaceMaxVolts = 1 :=
  voltageToSample_sampleToVoltage CVOutputManager.init (by
    simp [CVOutputManager.init])

theorem sum_sq_nonneg {α : Type} [LinearOrderedField α] (mi : α) (points : List (α × α)) :
    0 ≤ (points.map (fun p => (p.1 - mi) ^ 2)).sum := by
  apply List.sum_nonneg
  intro x hx
  obtain ⟨p, -, rfl⟩ := List.mem_map.mp hx
  positivity

/-- The behaviour C19 describes, in exact arithmetic: for at least two calibration points
whose ideal values have sum of squared
deviations from their mean below `1e-10`, `computeCalibrationFromPoints` stores
`gain = 1`, `offset = mean (actual) - mean (ideal)` and `isCalibrated = true`, and that
sum is not among the divisors of the divisions it performs. -/
theorem computeCalibrationFromPoints_degenerate {α : Type} [LinearOrderedField α]
    (now : Nat) (mgr : CVOutputManager α)
    (hlen : 2 ≤ mgr.interfaceCalibration.calibrationPoints.length)
    (hvar : (mgr.interfaceCalibration.calibrationPoints.map (fun p =>
        (p.1 - (mgr.interfaceCalibration.calibrationPoints.map Prod.fst).sum
                / (mgr.interfaceCalibration.calibrationPoints.length : α)) ^ 2)).sum
      < 1 / 10 ^ 10) :
    (mgr.computeCalibrationFromPoints now).interfaceCalibration.gain = 1
    ∧ (mgr.computeCalibrationFromPoints now).interfaceCalibration.offset
        = (mgr.interfaceCalibration.calibrationPoints.map Prod.snd).sum
            / (mgr.interfaceCalibration.calibrationPoints.length : α)
          - (mgr.interfaceCalibration.calibrationPoints.map Prod.fst).sum
            / (mgr.interfaceCalibration.calibrationPoints.length : α)
    ∧ (mgr.computeCalibrationFromPoints now).interfaceCalibration.isCalibrated = true
    ∧ computeCalibrationDivisors mgr
        = [(mgr.interfaceCalibration.calibrationPoints.length : α),
           (mgr.interfaceCalibration.calibrationPoints.length : α)]
    ∧ (mgr.interfaceCalibration.calibrationPoints.map (fun p =>
        (p.1 - (mgr.interfaceCalibration.calibrationPoints.map Prod.fst).sum
                / (mgr.interfaceCalibration.calibrationPoints.length : α)) ^ 2)).sum
      ∉ computeCalibrationDivisors mgr := by
  set pts := mgr.interfaceCalibration.calibrationPoints with hpts
  set mi := (pts.map Prod.fst).sum / (pts.length : α) with hmi
  set den := (pts.map (fun p => (p.1 - mi) ^ 2)).sum with hden
  have hnn : 0 ≤ den := sum_sq_nonneg mi pts
  have hlt : |den| < 1 / 10 ^ 10 := by rw [abs_of_nonneg hnn]; exact hvar
  have hlen2 : ¬ pts.length < 2 := by omega
  have hdiv : computeCalibrationDivisors mgr = [(pts.length : α), (pts.length : α)] := by
    unfold computeCalibrationDivisors
    simp only [← hpts, hlen2, if_false, sumLoop_eq, covLoop_eq, ← hmi, ← hden, hlt, if_true]
  refine ⟨?_, ?_, ?_, hdiv, ?_⟩
  · unfold CVOutputManager.computeCalibrationFromPoints
    simp only [← hpts, hlen2, if_false, sumLoop_eq, covLoop_eq, ← hmi, ← hden, hlt, if_true]
  · unfold CVOutputManager.computeCalibrationFromPoints
    simp only [← hpts, hlen2, if_false, sumLoop_eq, covLoop_eq, ← hmi, ← hden, hlt, if_true]
  · unfold CVOutputManager.computeCalibrationFromPoints
    simp only [← hpts, hlen2, if_false]
  · rw [hdiv]
    have h2 : (2 : α) ≤ (pts.length : α) := by exact_mod_cast hlen
    have h3 : (1 : α) / 10 ^ 10 < 2 := by
      have : (1 : α) / 10 ^ 10 ≤ 1 := by
        rw [div_le_one (by positivity)]
        exact one_le_pow₀ (by norm_num)
      linarith
    intro hmem
    simp only [List.mem_cons, List.mem_singleton, List.not_mem_nil, or_false, or_self] at hmem
    linarith

theorem computeCalibrationFromPoints_degenerate_witness :
    (degenerateManager.computeCalibrationFromPoints 0).interfaceCalibration.gain = 1
    ∧ (degenerateManager.computeCalibrationFromPoints 0).interfaceCalibration.offset = 3
    ∧ (degenerateManager.computeCalibrationFromPoints 0).interfaceCalibration.isCalibrated
        = true
    ∧ computeCalibrationDivisors degenerateManager = [3, 3] := by
  have h := computeCalibrationFromPoints_degenerate 0 degenerateManager
    (by simp [degenerateManager, CVOutputManager.addCalibrationPoint, CVOutputManager.init,
          InterfaceCalibration.init])
    (by
      simp [degenerateManager, CVOutputManager.addCalibrationPoint, CVOutputManager.init,
        InterfaceCalibration.init]
      norm_num)
  refine ⟨h.1, ?_, h.2.2.1, ?_⟩
  · rw [h.2.1]
    simp [degenerateManager, CVOutputManager.addCalibrationPoint, CVOutputManager.init,
      InterfaceCalibration.init]
    norm_num
  · rw [h.2.2.2.1]
    simp [degenerateManager, CVOutputManager.addCalibrationPoint, CVOutputManager.init,
      InterfaceCalibration.init]

/-! ## Theorems: table statistics and sorting -/

theorem foldl_max_spec {α : Type} [LinearOrderedField α] (xs : List (Entry α)) (a : α) :
    a ≤ xs.foldl (fun maxErr entry => max maxErr entry.errorCents) a
    ∧ (∀ e ∈ xs, e.errorCents ≤ xs.foldl (fun maxErr entry => max maxErr entry.errorCents) a)
    ∧ (xs.foldl (fun maxErr entry => max maxErr entry.errorCents) a = a
        ∨ ∃ e ∈ xs, xs.foldl (fun maxErr entry => max maxErr entry.errorCents) a
            = e.errorCents) := by
  induction xs generalizing a with
  | nil => simp
  | cons x xs ih =>
    rw [List.foldl_cons]
    obtain ⟨h1, h2, h3⟩ := ih (max a x.errorCents)
    refine ⟨le_trans (le_max_left _ _) h1, ?_, ?_⟩
    · intro e he
      rcases List.mem_cons.mp he with rfl | he
      · exact le_trans (le_max_right _ _) h1
      · exact h2 e he
    · rcases h3 with h | ⟨e, he, h⟩
      · rcases max_choice a x.errorCents with hm | hm
        · left; rw [h, hm]
        · right; exact ⟨x, List.mem_cons_self _ _, by rw [h, hm]⟩
      · right; exact ⟨e, List.mem_cons_of_mem _ he, h⟩

theorem foldl_min_spec {α : Type} [LinearOrderedField α] (xs : List (Entry α)) (a : α) :
    xs.foldl (fun minErr entry => min minErr entry.errorCents) a ≤ a
    ∧ (∀ e ∈ xs, xs.foldl (fun minErr entry => min minErr entry.errorCents) a ≤ e.errorCents)
    ∧ (xs.foldl (fun minErr entry => min minErr entry.errorCents) a = a
        ∨ ∃ e ∈ xs, xs.foldl (fun minErr entry => min minErr entry.errorCents) a
            = e.errorCents) := by
  induction xs generalizing a with
  | nil => simp
  | cons x xs ih =>
    rw [List.foldl_cons]
    obtain ⟨h1, h2, h3⟩ := ih (min a x.errorCents)
    refine ⟨le_trans h1 (min_le_left _ _), ?_, ?_⟩
    · intro e he
      rcases List.mem_cons.mp he with rfl | he
      · exact le_trans h1 (min_le_right _ _)
      · exact h2 e he
    · rcases h3 with h | ⟨e, he, h⟩
      · rcases min_choice a x.errorCents with hm | hm
        · left; rw [h, hm]
        · right; exact ⟨x, List.mem_cons_self _ _, by rw [h, hm]⟩
      · right; exact ⟨e, List.mem_cons_of_mem _ he, h⟩

theorem foldl_add_map {α β : Type} [LinearOrderedField α] (f : β → α) (xs : List β) (a : α) :
    xs.foldl (fun acc x => acc + f x) a = a + (xs.map f).sum := by
  induction xs generalizing a with
  | nil => simp
  | cons x xs ih => simp [ih, add_assoc]

/-- C16: for a non-empty table, `getMaxErrorCents` and `getMinErrorCents` are the greatest
and the least `errorCents` of the entries, `getAverageErrorCents` is the mean of
`|errorCents|`, and `getRMSErrorCents` is the square root of the mean of `errorCents ^ 2`. -/
theorem error_statistics {α : Type} [LinearOrderedField α] [CMath α]
    (t : CalibrationTable α) (hne : t.entries ≠ []) :
    ((∃ e ∈ t.entries, t.getMaxErrorCents = e.errorCents)
      ∧ ∀ e ∈ t.entries, e.errorCents ≤ t.getMaxErrorCents)
    ∧ ((∃ e ∈ t.entries, t.getMinErrorCents = e.errorCents)
      ∧ ∀ e ∈ t.entries, t.getMinErrorCents ≤ e.errorCents)
    ∧ t.getAverageErrorCents
        = (t.entries.map (fun e => |e.errorCents|)).sum / (t.entries.length : α)
    ∧ t.getRMSErrorCents
        = CMath.sqrt ((t.entries.map (fun e => e.errorCents ^ 2)).sum / (t.entries.length : α)) := by
  rcases hes : t.entries with _ | ⟨first, rest⟩
  · exact absurd hes hne
  · refine ⟨?_, ?_, ?_, ?_⟩
    · have hdef : t.getMaxErrorCents
          = (first :: rest).foldl (fun maxErr entry => max maxErr entry.errorCents)
              first.errorCents := by
        unfold CalibrationTable.getMaxErrorCents
        rw [hes]
      obtain ⟨-, h2, h3⟩ := foldl_max_spec (first :: rest) first.errorCents
      rw [hdef]
      refine ⟨?_, h2⟩
      rcases h3 with h | h
      · exact ⟨first, List.mem_cons_self _ _, h⟩
      · exact h
    · have hdef : t.getMinErrorCents
          = (first :: rest).foldl (fun minErr entry => min minErr entry.errorCents)
              first.errorCents := by
        unfold CalibrationTable.getMinErrorCents
        rw [hes]
      obtain ⟨-, h2, h3⟩ := foldl_min_spec (first :: rest) first.errorCents
      rw [hdef]
      refine ⟨?_, h2⟩
      rcases h3 with h | h
      · exact ⟨first, List.mem_cons_self _ _, h⟩
      · exact h
    · unfold CalibrationTable.getAverageErrorCents
      rw [hes]
      simp only [List.isEmpty_cons, Bool.false_eq_true, if_false]
      rw [foldl_add_map (fun e : Entry α => |e.errorCents|), zero_add]
    · unfold CalibrationTable.getRMSErrorCents
      rw [hes]
      simp only [List.isEmpty_cons, Bool.false_eq_true, if_false]
      rw [foldl_add_map (fun e : Entry α => e.errorCents * e.errorCents), zero_add]
      simp only [sq]

theorem error_statistics_witness :
    (errorTable ℝ).getMaxErrorCents = 6 ∧ (errorTable ℝ).getMinErrorCents = -4
    ∧ (errorTable ℝ).getAverageErrorCents = 4
    ∧ (errorTable ℝ).getRMSErrorCents = Real.sqrt (56 / 3) := by
  have hent : (errorTable ℝ).entries
      = [{ (Entry.init : Entry ℝ) with midiNote := 60, errorCents := 2 },
         { (Entry.init : Entry ℝ) with midiNote := 61, errorCents := -4 },
         { (Entry.init : Entry ℝ) with midiNote := 62, errorCents := 6 }] := by
    simp [errorTable, CalibrationTable.addEntry, CalibrationTable.init]
  obtain ⟨⟨⟨e, he, hmax⟩, hle⟩, ⟨⟨e2, he2, hmin⟩, hge⟩, havg, hrms⟩ :=
    error_statistics (errorTable ℝ) (by rw [hent]; simp)
  rw [hent] at he hle he2 hge havg hrms
  refine ⟨?_, ?_, ?_, ?_⟩
  · have h6 := hle _ (List.mem_cons_of_mem _ (List.mem_cons_of_mem _ (List.mem_cons_self _ _)))
    rw [hmax] at h6 ⊢
    simp only [List.mem_cons, List.mem_singleton, List.not_mem_nil, or_false] at he
    rcases he with rfl | rfl | rfl
    · norm_num at h6
    · norm_num at h6
    · rfl
  · have h4 := hge _ (List.mem_cons_of_mem _ (List.mem_cons_self _ _))
    rw [hmin] at h4 ⊢
    simp only [List.mem_cons, List.mem_singleton, List.not_mem_nil, or_false] at he2
    rcases he2 with rfl | rfl | rfl
    · norm_num at h4
    · rfl
    · norm_num at h4
  · rw [havg]
    norm_num [abs_of_pos, abs_of_neg]
  · rw [hrms]
    show Real.sqrt _ = Real.sqrt _
    congr 1
    norm_num

/-- The loop of `getWorstNote`: either no visited entry exceeds the initial error and the
pair is unchanged, or the result is the first visited entry with the greatest absolute
error. -/
theorem worstStep_foldl_spec {α : Type} [LinearOrderedField α] (xs : List (Entry α))
    (acc : Int × α) :
    (xs.foldl CalibrationTable.worstStep acc = acc ∧ ∀ x ∈ xs, |x.errorCents| ≤ acc.2)
    ∨ ∃ pre w post, xs = pre ++ w :: post
        ∧ (∀ x ∈ pre, |x.errorCents| < |w.errorCents|)
        ∧ (∀ x ∈ post, |x.errorCents| ≤ |w.errorCents|)
        ∧ acc.2 < |w.errorCents|
        ∧ xs.foldl CalibrationTable.worstStep acc = (w.midiNote, |w.errorCents|) := by
  induction xs generalizing acc with
  | nil => left; simp
  | cons x xs ih =>
    rw [List.foldl_cons]
    by_cases hx : |x.errorCents| > acc.2
    · have hs : CalibrationTable.worstStep acc x = (x.midiNote, |x.errorCents|) := by
        simp [CalibrationTable.worstStep, hx]
      rw [hs]
      right
      rcases ih (x.midiNote, |x.errorCents|) with ⟨h1, h2⟩ | ⟨pre, w, post, hxs, hpre, hpost, hlt, hr⟩
      · exact ⟨[], x, xs, rfl, by simp, h2, hx, h1⟩
      · refine ⟨x :: pre, w, post, by rw [hxs]; rfl, ?_, hpost, lt_trans hx hlt, hr⟩
        intro y hy
        rcases List.mem_cons.mp hy with rfl | hy
        · exact hlt
        · exact hpre y hy
    · have hs : CalibrationTable.worstStep acc x = acc := by
        simp [CalibrationTable.worstStep, hx]
      rw [hs]
      push_neg at hx
      rcases ih acc with ⟨h1, h2⟩ | ⟨pre, w, post, hxs, hpre, hpost, hlt, hr⟩
      · left
        refine ⟨h1, ?_⟩
        intro y hy
        rcases List.mem_cons.mp hy with rfl | hy
        · exact hx
        · exact h2 y hy
      · right
        refine ⟨x :: pre, w, post, by rw [hxs]; rfl, ?_, hpost, hlt, hr⟩
        intro y hy
        rcases List.mem_cons.mp hy with rfl | hy
        · exact lt_of_le_of_lt hx hlt
        · exact hpre y hy

/-- C17: for a non-empty table, `getWorstNote` returns the note and the absolute error of
the first entry, in iteration order, whose absolute error is the greatest: every entry
before it has a strictly smaller absolute error, every entry after it one that is not
greater. -/
theorem getWorstNote_first_max {α : Type} [LinearOrderedField α]
    (t : CalibrationTable α) (hne : t.entries ≠ []) :
    ∃ pre w post, t.entries = pre ++ w :: post
      ∧ (∀ x ∈ pre, |x.errorCents| < |w.errorCents|)
      ∧ (∀ x ∈ post, |x.errorCents| ≤ |w.errorCents|)
      ∧ t.getWorstNote = (w.midiNote, |w.errorCents|) := by
  rcases hes : t.entries with _ | ⟨first, rest⟩
  · exact absurd hes hne
  · have hdef : t.getWorstNote
        = (first :: rest).foldl CalibrationTable.worstStep
            (first.midiNote, |first.errorCents|) := by
      unfold CalibrationTable.getWorstNote
      rw [hes]
    rw [hdef]
    rcases worstStep_foldl_spec (first :: rest) (first.midiNote, |first.errorCents|)
      with ⟨h1, h2⟩ | ⟨pre, w, post, hxs, hpre, hpost, -, hr⟩
    · exact ⟨[], first, rest, rfl, by simp,
        fun x hx => h2 x (List.mem_cons_of_mem _ hx), h1⟩
    · exact ⟨pre, w, post, hxs, hpre, hpost, hr⟩

theorem getWorstNote_first_max_witness : (errorTable ℚ).getWorstNote = (62, 6) := by
  have hent : (errorTable ℚ).entries
      = [{ (Entry.init : Entry ℚ) with midiNote := 60, errorCents := 2 },
         { (Entry.init : Entry ℚ) with midiNote := 61, errorCents := -4 },
         { (Entry.init : Entry ℚ) with midiNote := 62, errorCents := 6 }] := by
    simp [errorTable, CalibrationTable.addEntry, CalibrationTable.init]
  obtain ⟨pre, w, post, hsplit, hpre, hpost, hr⟩ :=
    getWorstNote_first_max (errorTable ℚ) (by rw [hent]; simp)
  rw [hr]
  rw [hent] at hsplit
  -- the entry with error 6 is in the table, so it cannot lose against `w`
  have hmem : ({ (Entry.init : Entry ℚ) with midiNote := 62, errorCents := 6 } : Entry ℚ)
      ∈ pre ++ w :: post := by
    rw [← hsplit]
    simp
  have hwmem : w ∈ ([{ (Entry.init : Entry ℚ) with midiNote := 60, errorCents := 2 },
         { (Entry.init : Entry ℚ) with midiNote := 61, errorCents := -4 },
         { (Entry.init : Entry ℚ) with midiNote := 62, errorCents := 6 }] : List (Entry ℚ)) := by
    rw [hsplit]
    simp
  have h6 : (6 : ℚ) ≤ |w.errorCents| := by
    rcases List.mem_append.mp hmem with h | h
    · have := hpre _ h
      simp only [abs_of_pos (show (0 : ℚ) < 6 by norm_num)] at this
      exact this.le
    · rcases List.mem_cons.mp h with h | h
      · rw [← h]
        norm_num [abs_of_pos]
      · have := hpost _ h
        simp only [abs_of_pos (show (0 : ℚ) < 6 by norm_num)] at this
        exact this
  simp only [List.mem_cons, List.mem_singleton, List.not_mem_nil, or_false] at hwmem
  rcases hwmem with rfl | rfl | rfl
  · norm_num [abs_of_pos] at h6
  · norm_num [abs_of_neg] at h6
  · norm_num [abs_of_pos]

/-- C20 (counterexample): on the table of seventeen entries that all have the note 60,
with the offsets 1, 2, ..., 17 in this order, `sortByMidiNote` leaves the entries in the
order 9, 17, 16, 15, 14, 13, 12, 11, 10, 1, 8, 7, 6, 5, 4, 3, 2 of their offsets: the
median-of-three step of the introsort loop brings the ninth entry to the front and the
partition exchanges the others in pairs.  Entries with equal notes have not kept their
relative order. -/
theorem sortByMidiNote_not_stable :
    seventeenEqualNotes.sortByMidiNote.entries.map Entry.correctionOffset
        = [9, 17, 16, 15, 14, 13, 12, 11, 10, 1, 8, 7, 6, 5, 4, 3, 2]
    ∧ seventeenEqualNotes.sortByMidiNote.entries.map Entry.midiNote
        = seventeenEqualNotes.entries.map Entry.midiNote
    ∧ ¬ KeepsEqualOrder seventeenEqualNotes.entries
          seventeenEqualNotes.sortByMidiNote.entries := by
  have hs : seventeenEqualNotes.sortByMidiNote.entries
      = ([9, 17, 16, 15, 14, 13, 12, 11, 10, 1, 8, 7, 6, 5, 4, 3, 2] : List ℚ).map
          equalNoteEntry := rfl
  refine ⟨?_, ?_, ?_⟩
  · rw [hs]
    simp [equalNoteEntry]
  · rw [hs]
    simp [equalNoteEntry, seventeenEqualNotes]
  · intro h
    have h60 := congrArg (fun l => (l.map Entry.correctionOffset).head?) (h 60)
    rw [hs] at h60
    simp [equalNoteEntry, seventeenEqualNotes] at h60

theorem filter_orderedInsert_note {α : Type} [LinearOrderedField α] (note : Int)
    (a : Entry α) (l : List (Entry α)) :
    (l.orderedInsert (fun a b => a.midiNote ≤ b.midiNote) a).filter
        (fun e => decide (e.midiNote = note))
      = (a :: l).filter (fun e => decide (e.midiNote = note)) := by
  induction l with
  | nil => rfl
  | cons b l ih =>
    simp only [List.orderedInsert]
    split_ifs with hab
    · rfl
    · have hlt : b.midiNote < a.midiNote := lt_of_not_le hab
      by_cases hb : b.midiNote = note
      · have ha : a.midiNote ≠ note := by omega
        simp [List.filter_cons, hb, ha, ih]
      · by_cases ha : a.midiNote = note
        · simp [List.filter_cons, hb, ha, ih]
        · simp [List.filter_cons, hb, ha, ih]

theorem filter_insertionSort_note {α : Type} [LinearOrderedField α] (note : Int)
    (l : List (Entry α)) :
    (l.insertionSort (fun a b => a.midiNote ≤ b.midiNote)).filter
        (fun e => decide (e.midiNote = note))
      = l.filter (fun e => decide (e.midiNote = note)) := by
  induction l with
  | nil => rfl
  | cons a l ih =>
    rw [List.insertionSort, filter_orderedInsert_note]
    simp only [List.filter_cons, ih]

/-- C20 (amended): for every table, `sortByMidiNote` leaves a permutation of the previous
entries in which the notes ascend; on a table of at most 16 entries (where `std::sort` is
the insertion sort alone) the entries with equal notes keep their relative order. -/
theorem sortByMidiNote_sorted_perm {α : Type} [LinearOrderedField α] (t : CalibrationTable α) :
    StdSortPost t.entries t.sortByMidiNote.entries
    ∧ (t.entries.length ≤ 16 → KeepsEqualOrder t.entries t.sortByMidiNote.entries) := by
  refine ⟨⟨sortByMidiNote_entries_perm t, sortByMidiNote_entries_sorted t⟩, ?_⟩
  intro h note
  rw [sortByMidiNote_short t h]
  exact filter_insertionSort_note note t.entries

theorem sortByMidiNote_sorted_perm_witness :
    duplicateNoteTable.entries.length ≤ 16
    ∧ duplicateNoteTable.sortByMidiNote.entries.map Entry.midiNote = [48, 60, 60]
    ∧ KeepsEqualOrder duplicateNoteTable.entries duplicateNoteTable.sortByMidiNote.entries := by
  have hlen : duplicateNoteTable.entries.length ≤ 16 := by
    simp [duplicateNoteTable, CalibrationTable.init, CalibrationTable.addEntry]
  exact ⟨hlen, rfl, (sortByMidiNote_sorted_perm duplicateNoteTable).2 hlen⟩

/-! ## Theorems: polynomial fit -/

theorem swapRows_self {β : Type} (v : Nat → β) (k : Nat) : swapRows v k k = v := by
  funext i
  unfold swapRows
  split_ifs with h
  · rw [h]
  · rfl

theorem normalEquations_foldl {α : Type} [LinearOrderedField α] (entries : List (Entry α))
    (m : Nat) (Ab : (Nat → Nat → α) × (Nat → α)) :
    (∀ i j, (entries.foldl (CalibrationTable.accumulateEntry m) Ab).1 i j
      = if i < m ∧ j < m then
          Ab.1 i j + (entries.map (fun e => (e.midiNote : α) ^ (i + j))).sum
        else Ab.1 i j)
    ∧ (∀ i, (entries.foldl (CalibrationTable.accumulateEntry m) Ab).2 i
      = if i < m then
          Ab.2 i + (entries.map (fun e => e.correctionOffset * (e.midiNote : α) ^ i)).sum
        else Ab.2 i) := by
  induction entries generalizing Ab with
  | nil => simp
  | cons e es ih =>
    rw [List.foldl_cons]
    obtain ⟨h1, h2⟩ := ih (CalibrationTable.accumulateEntry m Ab e)
    constructor
    · intro i j
      rw [h1 i j]
      by_cases h : i < m ∧ j < m
      · simp [CalibrationTable.accumulateEntry, h, add_assoc]
      · simp [CalibrationTable.accumulateEntry, h]
    · intro i
      rw [h2 i]
      by_cases h : i < m
      · simp [CalibrationTable.accumulateEntry, h, add_assoc]
      · simp [CalibrationTable.accumulateEntry, h]

/-- The normal equations in closed form: the power sums of the notes and the moments of
the offsets. -/
theorem normalEquations_apply {α : Type} [LinearOrderedField α] (entries : List (Entry α))
    (m : Nat) :
    (∀ i j, (CalibrationTable.normalEquations entries m).1 i j
      = if i < m ∧ j < m then (entries.map (fun e => (e.midiNote : α) ^ (i + j))).sum else 0)
    ∧ (∀ i, (CalibrationTable.normalEquations entries m).2 i
      = if i < m then (entries.map (fun e => e.correctionOffset * (e.midiNote : α) ^ i)).sum
        else 0) := by
  obtain ⟨h1, h2⟩ := normalEquations_foldl entries m (fun _ _ => 0, fun _ => 0)
  constructor
  · intro i j
    unfold CalibrationTable.normalEquations
    rw [h1 i j]
    simp
  · intro i
    unfold CalibrationTable.normalEquations
    rw [h2 i]
    simp

/-- The inner loop of `eliminateRow` over a list of distinct columns. -/
theorem eliminateRow_foldl {α : Type} [LinearOrderedField α] (k i : Nat) (hik : i ≠ k)
    (factor : α) (js : List Nat) (hjs : js.Nodup) (A : Nat → Nat → α) (r c : Nat) :
    (js.foldl (fun A j => fun r c => if r = i ∧ c = j then A i j - factor * A k j else A r c) A)
        r c
      = if r = i ∧ c ∈ js then A i c - factor * A k c else A r c := by
  induction js generalizing A with
  | nil => simp
  | cons j js ih =>
    rw [List.foldl_cons, ih (List.nodup_cons.mp hjs).2]
    have hj : j ∉ js := (List.nodup_cons.mp hjs).1
    by_cases hr : r = i
    · subst hr
      by_cases hc : c ∈ js
      · have hcj : c ≠ j := fun h => hj (h ▸ hc)
        simp [hc, hcj, Ne.symm hik]
      · by_cases hcj : c = j
        · subst hcj
          simp [hc]
        · simp [hc, hcj]
    · simp [hr]

theorem eliminateRow_apply {α : Type} [LinearOrderedField α] (m k i : Nat) (hik : i ≠ k)
    (Ab : (Nat → Nat → α) × (Nat → α)) :
    (∀ r c, (CalibrationTable.eliminateRow m k i Ab).1 r c
      = if r = i ∧ k ≤ c ∧ c < m then Ab.1 i c - (Ab.1 i k / Ab.1 k k) * Ab.1 k c
        else Ab.1 r c)
    ∧ (∀ r, (CalibrationTable.eliminateRow m k i Ab).2 r
      = if r = i then Ab.2 i - (Ab.1 i k / Ab.1 k k) * Ab.2 k else Ab.2 r) := by
  constructor
  · intro r c
    unfold CalibrationTable.eliminateRow
    simp only
    rw [eliminateRow_foldl k i hik _ _ (List.nodup_range' k (m - k)) Ab.1 r c]
    have hmem : c ∈ List.range' k (m - k) ↔ k ≤ c ∧ c < m := by
      rw [List.mem_range'_1]
      omega
    simp only [hmem]
  · intro r
    rfl

/-- The elimination loop over a list of distinct rows other than `k`. -/
theorem eliminateColumn_foldl {α : Type} [LinearOrderedField α] (m k : Nat) (rows : List Nat)
    (hrows : rows.Nodup) (hk : k ∉ rows) (Ab : (Nat → Nat → α) × (Nat → α)) :
    (∀ r c, (rows.foldl (fun Ab i => CalibrationTable.eliminateRow m k i Ab) Ab).1 r c
      = if r ∈ rows ∧ k ≤ c ∧ c < m then Ab.1 r c - (Ab.1 r k / Ab.1 k k) * Ab.1 k c
        else Ab.1 r c)
    ∧ (∀ r, (rows.foldl (fun Ab i => CalibrationTable.eliminateRow m k i Ab) Ab).2 r
      = if r ∈ rows then Ab.2 r - (Ab.1 r k / Ab.1 k k) * Ab.2 k else Ab.2 r) := by
  induction rows generalizing Ab with
  | nil => simp
  | cons i is ih =>
    have hi : i ∉ is := (List.nodup_cons.mp hrows).1
    have hik : i ≠ k := fun h => hk (h ▸ List.mem_cons_self _ _)
    have hkis : k ∉ is := fun h => hk (List.mem_cons_of_mem _ h)
    obtain ⟨h1, h2⟩ := ih (List.nodup_cons.mp hrows).2 hkis (CalibrationTable.eliminateRow m k i Ab)
    obtain ⟨e1, e2⟩ := eliminateRow_apply m k i hik Ab
    rw [List.foldl_cons]
    constructor
    · intro r c
      rw [h1 r c]
      by_cases hr : r ∈ is
      · have hri : r ≠ i := fun h => hi (h ▸ hr)
        have hkk : ¬ (k = i ∧ k ≤ k ∧ k < m) := fun h => hik h.1.symm
        have hkc : ¬ (k = i ∧ k ≤ c ∧ c < m) := fun h => hik h.1.symm
        simp only [e1, hr, hri, false_and, if_false, true_and, hkk, hkc, List.mem_cons, or_true]
      · by_cases hri : r = i
        · subst hri
          simp only [e1, hr, false_and, if_false, true_and, List.mem_cons, true_or]
        · simp only [e1, hr, hri, false_and, if_false, List.mem_cons, or_self]
    · intro r
      rw [h2 r]
      by_cases hr : r ∈ is
      · have hri : r ≠ i := fun h => hi (h ▸ hr)
        have hkk : ¬ (k = i ∧ k ≤ k ∧ k < m) := fun h => hik h.1.symm
        simp only [e1, e2, hr, hri, false_and, if_false, if_true, hkk, List.mem_cons, or_true,
          Ne.symm hik]
      · by_cases hri : r = i
        · subst hri
          simp only [e2, hr, if_false, if_true, List.mem_cons, true_or]
        · simp only [e2, hr, hri, if_false, List.mem_cons, or_self]

/-- The elimination of column `k`, entry by entry: the rows below `k` lose their multiple
of row `k` in the columns `k, ..., m - 1`. -/
theorem eliminateColumn_apply {α : Type} [LinearOrderedField α] (m k : Nat)
    (Ab : (Nat → Nat → α) × (Nat → α)) :
    (∀ r c, (CalibrationTable.eliminateColumn m k Ab).1 r c
      = if k < r ∧ r < m ∧ k ≤ c ∧ c < m then Ab.1 r c - (Ab.1 r k / Ab.1 k k) * Ab.1 k c
        else Ab.1 r c)
    ∧ (∀ r, (CalibrationTable.eliminateColumn m k Ab).2 r
      = if k < r ∧ r < m then Ab.2 r - (Ab.1 r k / Ab.1 k k) * Ab.2 k else Ab.2 r) := by
  have hmem : ∀ r, r ∈ List.range' (k + 1) (m - (k + 1)) ↔ k < r ∧ r < m := by
    intro r
    rw [List.mem_range'_1]
    omega
  obtain ⟨h1, h2⟩ := eliminateColumn_foldl m k (List.range' (k + 1) (m - (k + 1)))
    (List.nodup_range' _ _) (by rw [hmem]; omega) Ab
  constructor
  · intro r c
    unfold CalibrationTable.eliminateColumn
    rw [h1 r c]
    simp only [hmem, and_assoc]
  · intro r
    unfold CalibrationTable.eliminateColumn
    rw [h2 r]
    simp only [hmem]

/-- The pivot search over a list of rows: the result is the start row or a visited row,
and no visited row has a greater absolute value in column `k`. -/
theorem findPivot_foldl {α : Type} [LinearOrderedField α] (A : Nat → Nat → α) (k : Nat)
    (rows : List Nat) (p0 : Nat) :
    (rows.foldl (fun maxRow i => if |A i k| > |A maxRow k| then i else maxRow) p0 = p0
      ∨ rows.foldl (fun maxRow i => if |A i k| > |A maxRow k| then i else maxRow) p0 ∈ rows)
    ∧ |A p0 k| ≤ |A (rows.foldl
        (fun maxRow i => if |A i k| > |A maxRow k| then i else maxRow) p0) k|
    ∧ ∀ i ∈ rows, |A i k| ≤ |A (rows.foldl
        (fun maxRow i => if |A i k| > |A maxRow k| then i else maxRow) p0) k| := by
  induction rows generalizing p0 with
  | nil => simp
  | cons i is ih =>
    rw [List.foldl_cons]
    obtain ⟨h1, h2, h3⟩ := ih (if |A i k| > |A p0 k| then i else p0)
    by_cases hgt : |A i k| > |A p0 k|
    · simp only [hgt, if_true] at h1 h2 h3 ⊢
      refine ⟨?_, le_trans hgt.le h2, ?_⟩
      · rcases h1 with h | h
        · right; rw [h]; exact List.mem_cons_self _ _
        · right; exact List.mem_cons_of_mem _ h
      · intro j hj
        rcases List.mem_cons.mp hj with rfl | hj
        · exact h2
        · exact h3 j hj
    · simp only [hgt, if_false] at h1 h2 h3 ⊢
      refine ⟨?_, h2, ?_⟩
      · rcases h1 with h | h
        · left; exact h
        · right; exact List.mem_cons_of_mem _ h
      · intro j hj
        rcases List.mem_cons.mp hj with rfl | hj
        · exact le_trans (not_lt.mp hgt) h2
        · exact h3 j hj

/-- The pivot row of step `k`: a row between `k` and `m - 1` (or `k` itself) whose entry
in column `k` has the greatest absolute value among the rows `k, ..., m - 1`. -/
theorem findPivot_spec {α : Type} [LinearOrderedField α] (A : Nat → Nat → α) (m k : Nat) :
    k ≤ CalibrationTable.findPivot A m k
    ∧ (CalibrationTable.findPivot A m k = k ∨ CalibrationTable.findPivot A m k < m)
    ∧ ∀ i, k ≤ i → i < m → |A i k| ≤ |A (CalibrationTable.findPivot A m k) k| := by
  obtain ⟨h1, h2, h3⟩ := findPivot_foldl A k (List.range' (k + 1) (m - (k + 1))) k
  have hmem : ∀ r, r ∈ List.range' (k + 1) (m - (k + 1)) ↔ k < r ∧ r < m := by
    intro r
    rw [List.mem_range'_1]
    omega
  unfold CalibrationTable.findPivot
  refine ⟨?_, ?_, ?_⟩
  · rcases h1 with h | h
    · rw [h]
    · exact ((hmem _).mp h).1.le
  · rcases h1 with h | h
    · left; exact h
    · right; exact ((hmem _).mp h).2
  · intro i hki him
    rcases Nat.eq_or_lt_of_le hki with h | h
    · rw [← h]; exact h2
    · exact h3 i ((hmem i).mpr ⟨h, him⟩)

theorem fitTable_coefficients :
    fitTable.getPolynomialCoefficients 1 = some [-(1 / 15), 1 / 360] := by
  have habs : ¬ |(216 : ℚ) / 5| < 1 / 10000000000 := by
    rw [abs_of_pos (by norm_num)]
    norm_num
  simp [fitTable, CalibrationTable.getPolynomialCoefficients, CalibrationTable.addEntry,
    CalibrationTable.init, CalibrationTable.forwardElimination, CalibrationTable.normalEquations,
    CalibrationTable.accumulateEntry, CalibrationTable.eliminationStep, CalibrationTable.findPivot, swapRows,
    CalibrationTable.eliminateColumn, CalibrationTable.eliminateRow,
    CalibrationTable.backSubstitution, List.range, List.range.loop, List.range', Entry.init,
    habs]
  norm_num
  rw [if_neg habs]
  simp [swapRows]
  norm_num

theorem forwardElimination_foldl_none {α : Type} [LinearOrderedField α] (m : Nat)
    (ks : List Nat) :
    ks.foldl
      (fun (st : Option ((Nat → Nat → α) × (Nat → α))) k =>
        match st with
        | none => none
        | some Ab => CalibrationTable.eliminationStep m k Ab)
      none = none := by
  induction ks with
  | nil => rfl
  | cons k ks ih => rw [List.foldl_cons]; exact ih

/-- The last elimination step of a system (`k = m - 1`) only tests the pivot. -/
theorem eliminationStep_last {α : Type} [LinearOrderedField α] (k : Nat)
    (Ab : (Nat → Nat → α) × (Nat → α)) :
    CalibrationTable.eliminationStep (k + 1) k Ab
      = if |Ab.1 k k| < 1 / 10 ^ 10 then none else some Ab := by
  unfold CalibrationTable.eliminationStep CalibrationTable.findPivot
    CalibrationTable.eliminateColumn
  simp [swapRows_self]

theorem forwardElimination_two {α : Type} [LinearOrderedField α]
    (Ab : (Nat → Nat → α) × (Nat → α)) :
    CalibrationTable.forwardElimination 2 Ab
      = match CalibrationTable.eliminationStep 2 0 Ab with
        | none => none
        | some Ab1 => if |Ab1.1 1 1| < 1 / 10 ^ 10 then none else some Ab1 := by
  unfold CalibrationTable.forwardElimination
  have hr : List.range 2 = [0, 1] := rfl
  rw [hr]
  simp only [List.foldl_cons, List.foldl_nil]
  cases h : CalibrationTable.eliminationStep 2 0 Ab with
  | none => rfl
  | some Ab1 => exact eliminationStep_last 1 Ab1

theorem backSubstitution_two {α : Type} [LinearOrderedField α]
    (Ab : (Nat → Nat → α) × (Nat → α)) :
    (List.range 2).map (CalibrationTable.backSubstitution 2 Ab)
      = [(Ab.2 0 - Ab.1 0 1 * (Ab.2 1 / Ab.1 1 1)) / Ab.1 0 0, Ab.2 1 / Ab.1 1 1] := by
  have hr : List.range 2 = [0, 1] := rfl
  unfold CalibrationTable.backSubstitution
  rw [hr]
  simp [List.range']

theorem evaluatePolynomial_two {α : Type} [LinearOrderedField α] (c0 c1 x : α) :
    CalibrationTable.evaluatePolynomial [c0, c1] x = c0 + c1 * x := by
  simp [CalibrationTable.evaluatePolynomial]

/-- The first elimination step of a `2 × 2` system, by the outcome of the pivot search. -/
theorem eliminationStep_zero_two {α : Type} [LinearOrderedField α]
    (Ab : (Nat → Nat → α) × (Nat → α)) :
    (|Ab.1 1 0| > |Ab.1 0 0| → ¬ |Ab.1 1 0| < 1 / 10 ^ 10 →
      ∃ Ab1, CalibrationTable.eliminationStep 2 0 Ab = some Ab1
        ∧ Ab1.1 0 0 = Ab.1 1 0 ∧ Ab1.1 0 1 = Ab.1 1 1
        ∧ Ab1.1 1 1 = Ab.1 0 1 - (Ab.1 0 0 / Ab.1 1 0) * Ab.1 1 1
        ∧ Ab1.2 0 = Ab.2 1 ∧ Ab1.2 1 = Ab.2 0 - (Ab.1 0 0 / Ab.1 1 0) * Ab.2 1)
    ∧ (¬ |Ab.1 1 0| > |Ab.1 0 0| → ¬ |Ab.1 0 0| < 1 / 10 ^ 10 →
      ∃ Ab1, CalibrationTable.eliminationStep 2 0 Ab = some Ab1
        ∧ Ab1.1 0 0 = Ab.1 0 0 ∧ Ab1.1 0 1 = Ab.1 0 1
        ∧ Ab1.1 1 1 = Ab.1 1 1 - (Ab.1 1 0 / Ab.1 0 0) * Ab.1 0 1
        ∧ Ab1.2 0 = Ab.2 0 ∧ Ab1.2 1 = Ab.2 1 - (Ab.1 1 0 / Ab.1 0 0) * Ab.2 0) := by
  have hfp : CalibrationTable.findPivot Ab.1 2 0 = if |Ab.1 1 0| > |Ab.1 0 0| then 1 else 0 := by
    simp [CalibrationTable.findPivot, List.range']
  constructor
  · intro hgt hpiv
    refine ⟨CalibrationTable.eliminateColumn 2 0 (swapRows Ab.1 0 1, swapRows Ab.2 0 1), ?_, ?_⟩
    · unfold CalibrationTable.eliminationStep
      simp only [hfp, hgt, if_true]
      have : swapRows Ab.1 0 1 0 0 = Ab.1 1 0 := by simp [swapRows]
      rw [this, if_neg hpiv]
    · obtain ⟨h1, h2⟩ := eliminateColumn_apply 2 0 (swapRows Ab.1 0 1, swapRows Ab.2 0 1)
      simp [h1, h2, swapRows]
  · intro hgt hpiv
    refine ⟨CalibrationTable.eliminateColumn 2 0 (Ab.1, Ab.2), ?_, ?_⟩
    · unfold CalibrationTable.eliminationStep
      simp only [hfp, hgt, if_false, swapRows_self]
      rw [if_neg hpiv]
    · obtain ⟨h1, h2⟩ := eliminateColumn_apply 2 0 (Ab.1, Ab.2)
      simp [h1, h2]

/-- C13 (counterexample): the degree-1 fit of `(24, 0.0)` and `(96, 0.2)` evaluated at
note 60 is `0.1`, which is farther than `0.0005` from `0.1111`. -/
theorem fit_at_60_not_0_1111 :
    ∃ c, fitTable.getPolynomialCoefficients 1 = some c
      ∧ ¬ |CalibrationTable.evaluatePolynomial c 60 - 1111 / 10000| < 5 / 10000 := by
  refine ⟨_, fitTable_coefficients, ?_⟩
  rw [evaluatePolynomial_two]
  norm_num [abs_lt]

/-- C13 (amended): the degree-1 fit of `(24, 0.0)` and `(96, 0.2)` has the coefficients
`-1/15` and `1/360` of the line through the two points, and `evaluatePolynomial` gives
exactly `0.1` at note 60. -/
theorem fit_at_60 :
    fitTable.getPolynomialCoefficients 1 = some [-(1 / 15), 1 / 360]
    ∧ CalibrationTable.evaluatePolynomial [-(1 / 15), 1 / 360] (60 : ℚ) = 1 / 10 := by
  refine ⟨fitTable_coefficients, ?_⟩
  rw [evaluatePolynomial_two]
  norm_num

/-- C14 (amended): in exact arithmetic, for a table with exactly two entries at distinct
notes in the 32-bit range,
`getPolynomialCoefficients 1` returns two coefficients (not the empty result), and the
polynomial takes the offset of each entry at its note. -/
theorem fit_two_points_interpolates {α : Type} [LinearOrderedField α]
    (t : CalibrationTable α) (e1 e2 : Entry α) (hent : t.entries = [e1, e2])
    (hne : e1.midiNote ≠ e2.midiNote)
    (hr1 : -2 ^ 31 ≤ e1.midiNote ∧ e1.midiNote < 2 ^ 31)
    (hr2 : -2 ^ 31 ≤ e2.midiNote ∧ e2.midiNote < 2 ^ 31) :
    ∃ c0 c1, t.getPolynomialCoefficients 1 = some [c0, c1]
      ∧ CalibrationTable.evaluatePolynomial [c0, c1] (e1.midiNote : α) = e1.correctionOffset
      ∧ CalibrationTable.evaluatePolynomial [c0, c1] (e2.midiNote : α) = e2.correctionOffset := by
  obtain ⟨hA, hb⟩ := normalEquations_apply t.entries 2
  set Ab := CalibrationTable.normalEquations t.entries 2 with hAb
  set x1 : α := (e1.midiNote : α) with hx1
  set x2 : α := (e2.midiNote : α) with hx2
  set y1 : α := e1.correctionOffset with hy1
  set y2 : α := e2.correctionOffset with hy2
  have a00 : Ab.1 0 0 = 2 := by rw [hA, hent]; simp; norm_num
  have a01 : Ab.1 0 1 = x1 + x2 := by rw [hA, hent]; simp
  have a10 : Ab.1 1 0 = x1 + x2 := by rw [hA, hent]; simp
  have a11 : Ab.1 1 1 = x1 ^ 2 + x2 ^ 2 := by rw [hA, hent]; simp
  have b0 : Ab.2 0 = y1 + y2 := by rw [hb, hent]; simp
  have b1 : Ab.2 1 = y1 * x1 + y2 * x2 := by rw [hb, hent]; simp
  -- the notes are distinct integers of 32 bits
  have hd : x1 - x2 ≠ 0 := by
    rw [hx1, hx2, sub_ne_zero]
    exact_mod_cast hne
  have hd1 : (1 : α) ≤ (x1 - x2) ^ 2 := by
    have hz : (1 : Int) ≤ (e1.midiNote - e2.midiNote) ^ 2 := by
      have : e1.midiNote - e2.midiNote ≠ 0 := sub_ne_zero.mpr hne
      have h1 : 0 < (e1.midiNote - e2.midiNote) ^ 2 := by positivity
      omega
    have : ((1 : Int) : α) ≤ (((e1.midiNote - e2.midiNote) ^ 2 : Int) : α) := Int.cast_le.mpr hz
    push_cast at this
    exact this
  have hs : |x1 + x2| ≤ (4294967296 : α) := by
    have hz : |e1.midiNote + e2.midiNote| ≤ (4294967296 : Int) := by
      rw [abs_le]
      constructor <;> omega
    have : ((|e1.midiNote + e2.midiNote| : Int) : α) ≤ ((4294967296 : Int) : α) :=
      Int.cast_le.mpr hz
    push_cast at this
    exact this
  have hsmall : (1 : α) / 10 ^ 10 < 1 / 4294967296 := by
    rw [div_lt_div_iff₀ (by positivity) (by positivity)]
    norm_num
  have hget : ∀ Ab1, CalibrationTable.forwardElimination 2 Ab = some Ab1 →
      t.getPolynomialCoefficients 1
        = some [(Ab1.2 0 - Ab1.1 0 1 * (Ab1.2 1 / Ab1.1 1 1)) / Ab1.1 0 0,
                Ab1.2 1 / Ab1.1 1 1] := by
    intro Ab1 h
    unfold CalibrationTable.getPolynomialCoefficients
    have hn : ¬ ((t.entries.length : Int) < 1 + 1) := by rw [hent]; simp
    have hm : ((1 : Int) + 1).toNat = 2 := rfl
    simp only [hn, if_false, show ¬ ((1 : Int) + 1 < 0) by norm_num, hm, ← hAb, h,
      backSubstitution_two]
  obtain ⟨hswap, hkeep⟩ := eliminationStep_zero_two Ab
  by_cases hgt : |Ab.1 1 0| > |Ab.1 0 0|
  · -- the rows are swapped: the pivot is `x1 + x2`
    have hgt2 : (2 : α) < |x1 + x2| := by
      rw [a10, a00, abs_of_pos (by norm_num : (0 : α) < 2)] at hgt
      exact hgt
    have hspos : (0 : α) < |x1 + x2| := lt_trans (by norm_num) hgt2
    have hsne : x1 + x2 ≠ 0 := abs_pos.mp hspos
    have hpiv : ¬ |Ab.1 1 0| < 1 / 10 ^ 10 := by
      rw [a10, not_lt]
      have : (1 : α) / 10 ^ 10 ≤ 1 := by
        rw [div_le_one (by positivity)]
        exact one_le_pow₀ (by norm_num)
      linarith
    obtain ⟨Ab1, hstep, p00, p01, p11, q0, q1⟩ := hswap hgt hpiv
    rw [a00, a01, a10, a11] at p11
    rw [a10] at p00
    rw [a11] at p01
    rw [b1] at q0
    rw [a00, a10, b0, b1] at q1
    have hp11 : Ab1.1 1 1 = -((x1 - x2) ^ 2) / (x1 + x2) := by
      rw [p11]
      field_simp
      ring
    have hpiv1 : ¬ |Ab1.1 1 1| < 1 / 10 ^ 10 := by
      rw [hp11, not_lt, abs_div, abs_neg, abs_of_nonneg (sq_nonneg _)]
      have h1 : (1 : α) / 4294967296 ≤ (x1 - x2) ^ 2 / |x1 + x2| := by
        rw [div_le_div_iff₀ (by positivity) hspos]
        calc (1 : α) * |x1 + x2| ≤ 1 * 4294967296 := by
              apply mul_le_mul_of_nonneg_left hs (by norm_num)
          _ ≤ (x1 - x2) ^ 2 * 4294967296 := by
              apply mul_le_mul_of_nonneg_right hd1 (by positivity)
      exact le_trans hsmall.le h1
    have hfe : CalibrationTable.forwardElimination 2 Ab = some Ab1 := by
      rw [forwardElimination_two, hstep]
      simp only [if_neg hpiv1]
    refine ⟨_, _, hget Ab1 hfe, ?_, ?_⟩
    · rw [evaluatePolynomial_two, p00, p01, hp11, q0, q1]
      field_simp
      ring
    · rw [evaluatePolynomial_two, p00, p01, hp11, q0, q1]
      field_simp
      ring
  · -- no swap: the pivot is the number of entries
    have hpiv : ¬ |Ab.1 0 0| < 1 / 10 ^ 10 := by
      rw [a00, not_lt, abs_of_pos (by norm_num : (0 : α) < 2)]
      have : (1 : α) / 10 ^ 10 ≤ 1 := by
        rw [div_le_one (by positivity)]
        exact one_le_pow₀ (by norm_num)
      linarith
    obtain ⟨Ab1, hstep, p00, p01, p11, q0, q1⟩ := hkeep hgt hpiv
    rw [a00, a01, a10, a11] at p11
    rw [a00] at p00
    rw [a01] at p01
    rw [b0] at q0
    rw [a00, a10, b0, b1] at q1
    have hp11 : Ab1.1 1 1 = (x1 - x2) ^ 2 / 2 := by
      rw [p11]
      field_simp
      ring
    have hpiv1 : ¬ |Ab1.1 1 1| < 1 / 10 ^ 10 := by
      rw [hp11, not_lt, abs_of_nonneg (by positivity)]
      have h1 : (1 : α) / 4294967296 ≤ (x1 - x2) ^ 2 / 2 := by
        rw [div_le_div_iff₀ (by positivity) (by norm_num)]
        calc (1 : α) * 2 ≤ 1 * 4294967296 := by norm_num
          _ ≤ (x1 - x2) ^ 2 * 4294967296 := by
              apply mul_le_mul_of_nonneg_right hd1 (by positivity)
      exact le_trans hsmall.le h1
    have hfe : CalibrationTable.forwardElimination 2 Ab = some Ab1 := by
      rw [forwardElimination_two, hstep]
      simp only [if_neg hpiv1]
    refine ⟨_, _, hget Ab1 hfe, ?_, ?_⟩
    · rw [evaluatePolynomial_two, p00, p01, hp11, q0, q1]
      field_simp
      ring
    · rw [evaluatePolynomial_two, p00, p01, hp11, q0, q1]
      field_simp
      ring

theorem fit_two_points_interpolates_witness :
    ∃ c0 c1, fitTable.getPolynomialCoefficients 1 = some [c0, c1]
      ∧ CalibrationTable.evaluatePolynomial [c0, c1] (24 : ℚ) = 0
      ∧ CalibrationTable.evaluatePolynomial [c0, c1] (96 : ℚ) = 1 / 5 := by
  obtain ⟨c0, c1, h, h1, h2⟩ := fit_two_points_interpolates fitTable
    { (Entry.init : Entry ℚ) with midiNote := 24, correctionOffset := 0 }
    { (Entry.init : Entry ℚ) with midiNote := 96, correctionOffset := 1 / 5 }
    (by simp [fitTable, CalibrationTable.addEntry, CalibrationTable.init])
    (by decide) (by decide) (by decide)
  refine ⟨c0, c1, h, ?_, ?_⟩
  · simpa using h1
  · simpa using h2

theorem sum_pow_same_note {α : Type} [LinearOrderedField α] (es : List (Entry α)) (note : Int)
    (hsame : ∀ e ∈ es, e.midiNote = note) (k : Nat) :
    (es.map (fun e => (e.midiNote : α) ^ k)).sum = (es.length : α) * (note : α) ^ k := by
  induction es with
  | nil => simp
  | cons e es ih =>
    have he := hsame e (List.mem_cons_self _ _)
    have := ih (fun x hx => hsame x (List.mem_cons_of_mem _ hx))
    simp only [List.map_cons, List.sum_cons, List.length_cons, Nat.cast_succ, this, he]
    ring

/-- After the first elimination step on the normal equations of entries that share one
note, every row below the first is zero, so the second step meets a zero pivot. -/
theorem forwardElimination_same_note {α : Type} [LinearOrderedField α] (es : List (Entry α))
    (note : Int) (hsame : ∀ e ∈ es, e.midiNote = note) (m : Nat) (hm : 2 ≤ m)
    (hlen : m ≤ es.length) :
    CalibrationTable.forwardElimination m (CalibrationTable.normalEquations es m) = none := by
  obtain ⟨hA, -⟩ := normalEquations_apply es m
  set Ab := CalibrationTable.normalEquations es m with hAb
  set x : α := (note : α) with hx
  set N : α := (es.length : α) with hN
  have hN2 : (2 : α) ≤ N := by
    have : 2 ≤ es.length := le_trans hm hlen
    rw [hN]
    exact_mod_cast this
  have hA0 : ∀ i j, i < m → j < m → Ab.1 i j = N * x ^ (i + j) := by
    intro i j hi hj
    rw [hA, if_pos ⟨hi, hj⟩, sum_pow_same_note es note hsame]
  -- step 0
  obtain ⟨-, hp1, hp2⟩ := findPivot_spec Ab.1 m 0
  set p := CalibrationTable.findPivot Ab.1 m 0 with hp
  have hpm : p < m := by
    rcases hp1 with h | h
    · rw [h]; omega
    · exact h
  have hpiv_ge : N ≤ |Ab.1 p 0| := by
    have h := hp2 0 (le_refl 0) (by omega)
    rw [hA0 0 0 (by omega) (by omega)] at h
    simp only [add_zero, pow_zero, mul_one] at h
    exact le_trans (le_abs_self N) h
  have hpiv_pos : 0 < |Ab.1 p 0| := lt_of_lt_of_le (by linarith) hpiv_ge
  have hpiv_ne : N * x ^ p ≠ 0 := by
    have := abs_pos.mp hpiv_pos
    rw [hA0 p 0 hpm (by omega), add_zero] at this
    exact this
  have hNne : N ≠ 0 := left_ne_zero_of_mul hpiv_ne
  have hxp : x ^ p ≠ 0 := right_ne_zero_of_mul hpiv_ne
  have hpiv : ¬ |swapRows Ab.1 0 p 0 0| < 1 / 10 ^ 10 := by
    have hsw : swapRows Ab.1 0 p 0 0 = Ab.1 p 0 := by simp [swapRows]
    rw [hsw, not_lt]
    have : (1 : α) / 10 ^ 10 ≤ 1 := by
      rw [div_le_one (by positivity)]
      exact one_le_pow₀ (by norm_num)
    linarith
  have hstep0 : CalibrationTable.eliminationStep m 0 Ab
      = some (CalibrationTable.eliminateColumn m 0 (swapRows Ab.1 0 p, swapRows Ab.2 0 p)) := by
    unfold CalibrationTable.eliminationStep
    simp only [← hp, if_neg hpiv]
  set Ab1 := CalibrationTable.eliminateColumn m 0 (swapRows Ab.1 0 p, swapRows Ab.2 0 p)
    with hAb1
  -- every row below the first is zero in column 1
  have hzero : ∀ r, 1 ≤ r → r < m → Ab1.1 r 1 = 0 := by
    intro r hr1 hrm
    obtain ⟨h1, -⟩ := eliminateColumn_apply m 0 (swapRows Ab.1 0 p, swapRows Ab.2 0 p)
    rw [hAb1, h1 r 1, if_pos ⟨by omega, hrm, by omega, by omega⟩]
    have hr0 : r ≠ 0 := by omega
    have h00 : swapRows Ab.1 0 p 0 0 = N * x ^ p := by
      simp only [swapRows, if_true]
      rw [hA0 p 0 hpm (by omega), add_zero]
    have h01 : swapRows Ab.1 0 p 0 1 = N * x ^ (p + 1) := by
      simp only [swapRows, if_true]
      rw [hA0 p 1 hpm (by omega)]
    show swapRows Ab.1 0 p r 1 - swapRows Ab.1 0 p r 0 / swapRows Ab.1 0 p 0 0
        * swapRows Ab.1 0 p 0 1 = 0
    rw [h00, h01]
    by_cases hrp : r = p
    · have hr_0 : swapRows Ab.1 0 p r 0 = N := by
        simp only [swapRows, if_neg hr0, if_pos hrp]
        rw [hA0 0 0 (by omega) (by omega)]
        simp
      have hr_1 : swapRows Ab.1 0 p r 1 = N * x := by
        simp only [swapRows, if_neg hr0, if_pos hrp]
        rw [hA0 0 1 (by omega) (by omega)]
        simp
      rw [hr_0, hr_1]
      field_simp
      ring
    · have hr_0 : swapRows Ab.1 0 p r 0 = N * x ^ r := by
        simp only [swapRows, if_neg hr0, if_neg hrp]
        rw [hA0 r 0 hrm (by omega), add_zero]
      have hr_1 : swapRows Ab.1 0 p r 1 = N * x ^ (r + 1) := by
        simp only [swapRows, if_neg hr0, if_neg hrp]
        rw [hA0 r 1 hrm (by omega)]
      rw [hr_0, hr_1]
      field_simp
      ring
  -- step 1
  obtain ⟨hq0, hq1, -⟩ := findPivot_spec Ab1.1 m 1
  have hqm : CalibrationTable.findPivot Ab1.1 m 1 < m := by
    rcases hq1 with h | h
    · rw [h]; omega
    · exact h
  have hstep1 : CalibrationTable.eliminationStep m 1 Ab1 = none := by
    unfold CalibrationTable.eliminationStep
    have hsw : swapRows Ab1.1 1 (CalibrationTable.findPivot Ab1.1 m 1) 1 1 = 0 := by
      simp only [swapRows, if_true]
      exact hzero _ hq0 hqm
    simp only [hsw, abs_zero]
    rw [if_pos (by positivity)]
  -- the loop
  obtain ⟨m2, rfl⟩ : ∃ m2, m = m2 + 2 := ⟨m - 2, by omega⟩
  unfold CalibrationTable.forwardElimination
  have hr : List.range (m2 + 2) = 0 :: 1 :: List.range' 2 m2 := by
    rw [List.range_eq_range', List.range'_succ, List.range'_succ]
  rw [hr]
  simp only [List.foldl_cons, hstep0, hstep1]
  exact forwardElimination_foldl_none _ _

/-- The behaviour C15 describes, in exact arithmetic: `getPolynomialCoefficients d`
returns the empty sequence, without raising an
error, for every `d` (in particular `d ≥ 0`) on a table with fewer than `d + 1` entries,
and for `d ≥ 1` on a table with at least `d + 1` entries that all have the same note. -/
theorem fit_not_available {α : Type} [LinearOrderedField α] (t : CalibrationTable α)
    (d : Int) :
    ((t.entries.length : Int) < d + 1 → t.getPolynomialCoefficients d = some [])
    ∧ (1 ≤ d → d + 1 ≤ (t.entries.length : Int) →
        ∀ note : Int, (∀ e ∈ t.entries, e.midiNote = note) →
          t.getPolynomialCoefficients d = some []) := by
  constructor
  · intro h
    unfold CalibrationTable.getPolynomialCoefficients
    simp only [h, if_true]
  · intro hd1 hlen note hsame
    unfold CalibrationTable.getPolynomialCoefficients
    have h1 : ¬ ((t.entries.length : Int) < d + 1) := by omega
    have h2 : ¬ (d + 1 < 0) := by omega
    have hm : 2 ≤ (d + 1).toNat := by omega
    have hl : (d + 1).toNat ≤ t.entries.length := by omega
    simp only [h1, h2, if_false,
      forwardElimination_same_note t.entries note hsame (d + 1).toNat hm hl]

theorem fit_not_available_witness :
    ({ (CalibrationTable.init 0 : CalibrationTable ℚ) with
        entries := sameNotePair }).getPolynomialCoefficients 1 = some []
    ∧ ({ (CalibrationTable.init 0 : CalibrationTable ℚ) with
        entries := sameNotePair }).getPolynomialCoefficients 4 = some [] := by
  constructor
  · exact (fit_not_available _ 1).2 (by decide)
      (by simp [sameNotePair]) 60
      (by
        intro e he
        simp [sameNotePair] at he
        rcases he with rfl | rfl <;> rfl)
  · exact (fit_not_available _ 4).1 (by simp [sameNotePair])

/-! ## Theorems: general sweep -/

theorem runSweepWith_stopped {α : Type} [LinearOrderedField α] [CMath α]
    (respond : Nat → Int → Measurement α) (now fuel : Nat)
    (e : CalibrationEngine α) (h : e.timerRunning = false) :
    runSweepWith respond now fuel e = some e := by
  cases fuel with
  | zero => rfl
  | succ n => simp [runSweepWith, h]

theorem runSweepWith_add {α : Type} [LinearOrderedField α] [CMath α]
    (respond : Nat → Int → Measurement α) (now a b : Nat) (e : CalibrationEngine α) :
    runSweepWith respond now (a + b) e
      = (runSweepWith respond now a e).bind (runSweepWith respond now b) := by
  induction a generalizing e with
  | zero => simp [runSweepWith]
  | succ a ih =>
    rw [Nat.add_right_comm]
    by_cases ht : e.timerRunning = true
    · simp only [runSweepWith, ht, if_true]
      cases h : sweepStepWith respond now e with
      | none => rfl
      | some e1 => exact ih e1
    · have hf : e.timerRunning = false := by simpa using ht
      simp only [runSweepWith, hf, Bool.false_eq_true, if_false, Option.some_bind]
      exact (runSweepWith_stopped respond now b e hf).symm

theorem runSweepWith_one {α : Type} [LinearOrderedField α] [CMath α]
    (respond : Nat → Int → Measurement α) (now : Nat) (e e1 : CalibrationEngine α)
    (ht : e.timerRunning = true) (h : sweepStepWith respond now e = some e1) :
    runSweepWith respond now 1 e = some e1 := by
  simp [runSweepWith, ht, h]

theorem runSweepWith_trans {α : Type} [LinearOrderedField α] [CMath α]
    (respond : Nat → Int → Measurement α) (now a b : Nat) (e e1 e2 : CalibrationEngine α)
    (h1 : runSweepWith respond now a e = some e1)
    (h2 : runSweepWith respond now b e1 = some e2) :
    runSweepWith respond now (a + b) e = some e2 := by
  rw [runSweepWith_add, h1]
  exact h2

theorem SweepFrame.refl {α : Type} [LinearOrderedField α] (e : CalibrationEngine α) :
    SweepFrame e e :=
  ⟨rfl, rfl, rfl, rfl, rfl, rfl, rfl, rfl⟩

theorem SweepFrame.trans {α : Type} [LinearOrderedField α] {e1 e2 e3 : CalibrationEngine α}
    (h12 : SweepFrame e1 e2) (h23 : SweepFrame e2 e3) : SweepFrame e1 e3 :=
  ⟨h23.settings.trans h12.settings, h23.timerRunning.trans h12.timerRunning,
   h23.cvOutput.trans h12.cvOutput, h23.tuner.trans h12.tuner,
   h23.calibrationData.trans h12.calibrationData, h23.notifications.trans h12.notifications,
   h23.currentNoteIndex.trans h12.currentNoteIndex,
   h23.targetMidiNote.trans h12.targetMidiNote⟩

/-- A settle tick that has not yet reached the settle time only counts. -/
theorem sweepStep_settle_wait {α : Type} [LinearOrderedField α] [CMath α]
    (respond : Nat → Int → Measurement α) (now : Nat) (e : CalibrationEngine α)
    (hst : e.state = State.SettlingVoltage)
    (hc : ¬ (e.settleCounter + 1) * 10 ≥ e.settings.settleTimeMs) :
    sweepStepWith respond now e = some { e with settleCounter := e.settleCounter + 1 } := by
  obtain ⟨tn, cv, ns, tr, st, se, ni, mc, cp, cd, fa, sc⟩ := e
  simp only at hst hc
  subst hst
  simp [sweepStepWith, CalibrationEngine.timerCallback, hc, requestsOf, answerFrom]

/-- The settle tick that reaches the settle time requests a measurement, and the answer
puts the engine in `ProcessingResult`. -/
theorem sweepStep_settle_done {α : Type} [LinearOrderedField α] [CMath α]
    (respond : Nat → Int → Measurement α) (now : Nat) (e : CalibrationEngine α)
    (hst : e.state = State.SettlingVoltage) (htn : e.tuner.isSome = true)
    (hc : (e.settleCounter + 1) * 10 ≥ e.settings.settleTimeMs) :
    ∃ e2, sweepStepWith respond now e = some e2 ∧ e2.state = State.ProcessingResult
      ∧ e2.currentMeasurementCount = e.currentMeasurementCount ∧ SweepFrame e e2 := by
  obtain ⟨tn, cv, ns, tr, st, se, ni, mc, cp, cd, fa, sc⟩ := e
  simp only at hst hc htn
  subst hst
  obtain ⟨t, rfl⟩ := Option.isSome_iff_exists.mp htn
  refine ⟨CalibrationEngine.newMeasurementReady now
      (respond t.requests.length cp.targetMidiNote)
      { tuner := some { requests := t.requests ++ [cp.targetMidiNote] }, cvOutput := cv,
        notifications := ns, timerRunning := tr, state := State.WaitingForMeasurement,
        settings := se, currentNoteIndex := ni, currentMeasurementCount := mc,
        currentPoint := cp, calibrationData := cd, frequencyAccumulator := fa,
        settleCounter := sc + 1 }, ?_, ?_, ?_, ?_⟩
  · simp [sweepStepWith, CalibrationEngine.timerCallback, hc,
      CalibrationEngine.startMeasurement, requestsOf, Tuner.startSingleMeasurement,
      answerFrom]
  · simp [CalibrationEngine.newMeasurementReady]
  · simp [CalibrationEngine.newMeasurementReady, CalibrationEngine.processCurrentMeasurement]
  · constructor <;>
      simp [CalibrationEngine.newMeasurementReady, CalibrationEngine.processCurrentMeasurement]

/-- From `SettlingVoltage` an uninterrupted sweep reaches `ProcessingResult` for the same
note, whatever the settle time. -/
theorem settle_phase {α : Type} [LinearOrderedField α] [CMath α]
    (respond : Nat → Int → Measurement α) (now : Nat) :
    ∀ (r : Nat) (e : CalibrationEngine α), e.state = State.SettlingVoltage →
      e.timerRunning = true → e.tuner.isSome = true →
      (e.settings.settleTimeMs - (e.settleCounter + 1) * 10).toNat = r →
      ∃ n e2, runSweepWith respond now n e = some e2 ∧ e2.state = State.ProcessingResult
        ∧ e2.currentMeasurementCount = e.currentMeasurementCount ∧ SweepFrame e e2 := by
  intro r
  induction r using Nat.strong_induction_on with
  | _ r ih =>
    intro e hst ht htn hr
    by_cases hc : (e.settleCounter + 1) * 10 ≥ e.settings.settleTimeMs
    · obtain ⟨e2, hstep, h1, h2, h3⟩ := sweepStep_settle_done respond now e hst htn hc
      exact ⟨1, e2, runSweepWith_one respond now e e2 ht hstep, h1, h2, h3⟩
    · have hstep := sweepStep_settle_wait respond now e hst hc
      obtain ⟨n, e2, hrun, h1, h2, h3⟩ :=
        ih ((e.settings.settleTimeMs - (e.settleCounter + 1 + 1) * 10).toNat)
          (by omega) { e with settleCounter := e.settleCounter + 1 } hst ht htn rfl
      refine ⟨1 + n, e2, ?_, h1, h2, ?_⟩
      · exact runSweepWith_trans respond now 1 n e _ e2
          (runSweepWith_one respond now e _ ht hstep) hrun
      · have hf : SweepFrame e { e with settleCounter := e.settleCounter + 1 } :=
          ⟨rfl, rfl, rfl, rfl, rfl, rfl, rfl, rfl⟩
        exact SweepFrame.trans hf h3

/-- A processing tick that still lacks measurements requests one more, and the answer
puts the engine back in `ProcessingResult`. -/
theorem sweepStep_process_more {α : Type} [LinearOrderedField α] [CMath α]
    (respond : Nat → Int → Measurement α) (now : Nat) (e : CalibrationEngine α)
    (hst : e.state = State.ProcessingResult) (htn : e.tuner.isSome = true)
    (hc : ¬ e.currentMeasurementCount + 1 ≥ e.settings.measurementsPerNote) :
    ∃ e2, sweepStepWith respond now e = some e2 ∧ e2.state = State.ProcessingResult
      ∧ e2.currentMeasurementCount = e.currentMeasurementCount + 1 ∧ SweepFrame e e2 := by
  obtain ⟨tn, cv, ns, tr, st, se, ni, mc, cp, cd, fa, sc⟩ := e
  simp only at hst hc htn
  subst hst
  obtain ⟨t, rfl⟩ := Option.isSome_iff_exists.mp htn
  refine ⟨CalibrationEngine.newMeasurementReady now
      (respond t.requests.length cp.targetMidiNote)
      { tuner := some { requests := t.requests ++ [cp.targetMidiNote] }, cvOutput := cv,
        notifications := ns, timerRunning := tr, state := State.WaitingForMeasurement,
        settings := se, currentNoteIndex := ni, currentMeasurementCount := mc + 1,
        currentPoint := cp, calibrationData := cd, frequencyAccumulator := fa,
        settleCounter := sc }, ?_, ?_, ?_, ?_⟩
  · simp [sweepStepWith, CalibrationEngine.timerCallback, hc,
      CalibrationEngine.startMeasurement, requestsOf, Tuner.startSingleMeasurement,
      answerFrom]
  · simp [CalibrationEngine.newMeasurementReady]
  · simp [CalibrationEngine.newMeasurementReady, CalibrationEngine.processCurrentMeasurement]
  · constructor <;>
      simp [CalibrationEngine.newMeasurementReady, CalibrationEngine.processCurrentMeasurement]

/-- The processing tick that completes the quota appends the current point, notifies and
moves on. -/
theorem sweepStep_process_done {α : Type} [LinearOrderedField α] [CMath α]
    (respond : Nat → Int → Measurement α) (now : Nat) (e : CalibrationEngine α)
    (hst : e.state = State.ProcessingResult)
    (hc : e.currentMeasurementCount + 1 ≥ e.settings.measurementsPerNote) :
    ∃ e2, sweepStepWith respond now e = some e2 ∧ e2.state = State.MovingToNext
      ∧ e2.settings = e.settings ∧ e2.timerRunning = e.timerRunning
      ∧ e2.cvOutput = e.cvOutput ∧ e2.tuner = e.tuner
      ∧ e2.currentNoteIndex = e.currentNoteIndex
      ∧ e2.calibrationData = e.calibrationData ++ [e.currentPoint]
      ∧ e2.notifications = e.notifications ++
          [Notification.calibrationPointCompleted e.currentPoint,
           Notification.calibrationProgress e2.getProgressPercent
            (StatusText.noteError e.currentPoint.targetMidiNote e.currentPoint.errorCents)] := by
  obtain ⟨tn, cv, ns, tr, st, se, ni, mc, cp, cd, fa, sc⟩ := e
  simp only at hst hc
  subst hst
  refine ⟨
    { tuner := tn, cvOutput := cv,
      notifications := ns ++
        [Notification.calibrationPointCompleted cp,
         Notification.calibrationProgress
          (CalibrationEngine.getProgressPercent
            { tuner := tn, cvOutput := cv, notifications := ns, timerRunning := tr,
              state := State.ProcessingResult, settings := se, currentNoteIndex := ni,
              currentMeasurementCount := mc + 1, currentPoint := cp,
              calibrationData := cd ++ [cp], frequencyAccumulator := fa,
              settleCounter := sc })
          (StatusText.noteError cp.targetMidiNote cp.errorCents)],
      timerRunning := tr, state := State.MovingToNext,
      settings := se, currentNoteIndex := ni, currentMeasurementCount := mc + 1,
      currentPoint := cp, calibrationData := cd ++ [cp], frequencyAccumulator := fa,
      settleCounter := sc }, ?_, rfl, rfl, rfl, rfl, rfl, rfl, rfl, rfl⟩
  simp [sweepStepWith, CalibrationEngine.timerCallback, hc, CalibrationEngine.notify,
    requestsOf, answerFrom, CalibrationEngine.getProgressPercent,
    CalibrationEngine.getTotalPoints]

/-- From `ProcessingResult` an uninterrupted sweep reaches `MovingToNext` with the
current point appended and its progress reported, whatever the quota. -/
theorem process_phase {α : Type} [LinearOrderedField α] [CMath α]
    (respond : Nat → Int → Measurement α) (now : Nat) :
    ∀ (r : Nat) (e : CalibrationEngine α), e.state = State.ProcessingResult →
      e.timerRunning = true → e.tuner.isSome = true →
      (e.settings.measurementsPerNote - (e.currentMeasurementCount + 1)).toNat = r →
      ∃ n e2 p status, runSweepWith respond now n e = some e2 ∧ e2.state = State.MovingToNext
        ∧ e2.settings = e.settings ∧ e2.timerRunning = e.timerRunning
        ∧ e2.cvOutput = e.cvOutput ∧ e2.tuner.isSome = e.tuner.isSome
        ∧ e2.currentNoteIndex = e.currentNoteIndex
        ∧ e2.calibrationData = e.calibrationData ++ [p]
        ∧ p.targetMidiNote = e.currentPoint.targetMidiNote
        ∧ e2.notifications = e.notifications ++
            [Notification.calibrationPointCompleted p,
             Notification.calibrationProgress e2.getProgressPercent status] := by
  intro r
  induction r using Nat.strong_induction_on with
  | _ r ih =>
    intro e hst ht htn hr
    by_cases hc : e.currentMeasurementCount + 1 ≥ e.settings.measurementsPerNote
    · obtain ⟨e2, hstep, h1, h2, h3, h4, h5, h6, h7, h8⟩ :=
        sweepStep_process_done respond now e hst hc
      exact ⟨1, e2, e.currentPoint, _, runSweepWith_one respond now e e2 ht hstep, h1, h2, h3,
        h4, by rw [h5], h6, h7, rfl, h8⟩
    · obtain ⟨e1, hstep, g1, g2, g3⟩ := sweepStep_process_more respond now e hst htn hc
      obtain ⟨n, e2, p, status, hrun, h1, h2, h3, h4, h5, h6, h7, h8, h9⟩ :=
        ih ((e1.settings.measurementsPerNote - (e1.currentMeasurementCount + 1)).toNat)
          (by rw [g3.settings, g2]; omega) e1 g1 (g3.timerRunning.trans ht)
          (g3.tuner.trans htn) rfl
      refine ⟨1 + n, e2, p, status, ?_, h1, h2.trans g3.settings, h3.trans g3.timerRunning,
        h4.trans g3.cvOutput, h5.trans g3.tuner, h6.trans g3.currentNoteIndex, ?_, ?_, ?_⟩
      · exact runSweepWith_trans respond now 1 n e e1 e2
          (runSweepWith_one respond now e e1 ht hstep) hrun
      · rw [h7, g3.calibrationData]
      · rw [h8, g3.targetMidiNote]
      · rw [h9, g3.notifications]

theorem generateCalibrationTable_isSome {α : Type} [LinearOrderedField α] [CMath α]
    (now : Nat) (e : CalibrationEngine α) (hcv : e.cvOutput.isSome = true) :
    ∃ table, e.generateCalibrationTable now = some table := by
  obtain ⟨tn, cv, ns, tr, st, se, ni, mc, cp, cd, fa, sc⟩ := e
  simp only at hcv
  obtain ⟨c, rfl⟩ := Option.isSome_iff_exists.mp hcv
  have key : ∀ (ps : List (CalibrationPoint α)) (t0 : CalibrationTable α),
      ∃ t1, ps.foldl
        (fun (acc : Option (CalibrationTable α)) (point : CalibrationPoint α) =>
          match acc, (some c : Option (CVOutputManager α)) with
          | some table, some cv =>
            let idealVoltage := cv.midiToVoltageInt point.targetMidiNote
            some (table.addEntry
              { midiNote := point.targetMidiNote
                idealVoltage := idealVoltage
                actualVoltage := idealVoltage + point.voltageCorrection
                correctionOffset := point.voltageCorrection
                measuredFrequency := point.measuredFrequency
                errorCents := point.errorCents
                stdDevCents := point.stdDevCents })
          | _, _ => none)
        (some t0) = some t1 := by
    intro ps
    induction ps with
    | nil => intro t0; exact ⟨t0, rfl⟩
    | cons p ps ih =>
      intro t0
      rw [List.foldl_cons]
      exact ih _
  obtain ⟨t1, h1⟩ := key cd (CalibrationTable.init now)
  unfold CalibrationEngine.generateCalibrationTable
  simp only [h1, Option.map_some']
  exact ⟨_, rfl⟩

/-- The `MovingToNext` tick when the next note is still inside the sweep. -/
theorem sweepStep_move_next {α : Type} [LinearOrderedField α] [CMath α]
    (respond : Nat → Int → Measurement α) (now : Nat) (e : CalibrationEngine α)
    (hst : e.state = State.MovingToNext) (hcv : e.cvOutput.isSome = true)
    (hc : ¬ e.settings.startNote + (e.currentNoteIndex + 1) * e.settings.noteStep
            > e.settings.endNote) :
    ∃ e2, sweepStepWith respond now e = some e2 ∧ e2.state = State.SettlingVoltage
      ∧ e2.settings = e.settings ∧ e2.timerRunning = e.timerRunning
      ∧ e2.cvOutput.isSome = true ∧ e2.tuner = e.tuner
      ∧ e2.currentNoteIndex = e.currentNoteIndex + 1
      ∧ e2.calibrationData = e.calibrationData
      ∧ e2.notifications = e.notifications
      ∧ e2.settleCounter = 0 ∧ e2.currentMeasurementCount = 0
      ∧ e2.currentPoint.targetMidiNote
          = e.settings.startNote + (e.currentNoteIndex + 1) * e.settings.noteStep := by
  obtain ⟨tn, cv, ns, tr, st, se, ni, mc, cp, cd, fa, sc⟩ := e
  simp only at hst hc hcv
  subst hst
  obtain ⟨c, rfl⟩ := Option.isSome_iff_exists.mp hcv
  refine ⟨
    { tuner := tn,
      cvOutput := some (if se.useExternalCVSource then c
        else c.outputVoltage (c.midiToVoltageInt (se.startNote + (ni + 1) * se.noteStep))),
      notifications := ns, timerRunning := tr, state := State.SettlingVoltage,
      settings := se, currentNoteIndex := ni + 1, currentMeasurementCount := 0,
      currentPoint :=
        { (CalibrationPoint.init : CalibrationPoint α) with
          targetMidiNote := se.startNote + (ni + 1) * se.noteStep
          targetVoltage := c.midiToVoltageInt (se.startNote + (ni + 1) * se.noteStep) },
      calibrationData := cd, frequencyAccumulator := [],
      settleCounter := 0 }, ?_, rfl, rfl, rfl, rfl, rfl, rfl, rfl, rfl, rfl, rfl, rfl⟩
  simp [sweepStepWith, CalibrationEngine.timerCallback, CalibrationEngine.advanceToNextPoint,
    hc, outputCurrentVoltage_eq, requestsOf, answerFrom]

/-- The `MovingToNext` tick when the next note is past the end of the sweep. -/
theorem sweepStep_move_finish {α : Type} [LinearOrderedField α] [CMath α]
    (respond : Nat → Int → Measurement α) (now : Nat) (e : CalibrationEngine α)
    (hst : e.state = State.MovingToNext) (hcv : e.cvOutput.isSome = true)
    (hc : e.settings.startNote + (e.currentNoteIndex + 1) * e.settings.noteStep
            > e.settings.endNote) :
    ∃ e2 table, sweepStepWith respond now e = some e2 ∧ e2.state = State.Completed
      ∧ e2.settings = e.settings ∧ e2.timerRunning = false
      ∧ e2.calibrationData = e.calibrationData
      ∧ e2.notifications = e.notifications ++ [Notification.calibrationCompleted table] := by
  obtain ⟨tn, cv, ns, tr, st, se, ni, mc, cp, cd, fa, sc⟩ := e
  simp only at hst hc hcv
  subst hst
  obtain ⟨c, rfl⟩ := Option.isSome_iff_exists.mp hcv
  obtain ⟨table, htable⟩ := generateCalibrationTable_isSome now
    ({ tuner := tn, cvOutput := some (c.setActive false), notifications := ns,
       timerRunning := false, state := State.Completed, settings := se,
       currentNoteIndex := ni + 1, currentMeasurementCount := mc, currentPoint := cp,
       calibrationData := cd, frequencyAccumulator := fa, settleCounter := sc } :
      CalibrationEngine α) rfl
  refine ⟨
    { tuner := tn, cvOutput := some (c.setActive false),
      notifications := ns ++ [Notification.calibrationCompleted table],
      timerRunning := false, state := State.Completed, settings := se,
      currentNoteIndex := ni + 1, currentMeasurementCount := mc, currentPoint := cp,
      calibrationData := cd, frequencyAccumulator := fa, settleCounter := sc },
    table, ?_, rfl, rfl, rfl, rfl, rfl⟩
  simp [sweepStepWith, CalibrationEngine.timerCallback, CalibrationEngine.advanceToNextPoint,
    hc, CalibrationEngine.finishCalibration, htable, CalibrationEngine.notify, requestsOf,
    answerFrom]

theorem getProgressPercent_congr {α : Type} [LinearOrderedField α]
    (e e2 : CalibrationEngine α) (hs : e2.settings = e.settings)
    (hd : e2.calibrationData = e.calibrationData) :
    e2.getProgressPercent = e.getProgressPercent := by
  unfold CalibrationEngine.getProgressPercent CalibrationEngine.getTotalPoints
  rw [hs, hd]

theorem progressPercents_point {α : Type} [LinearOrderedField α]
    (ns : List (Notification α)) (p : CalibrationPoint α) (pct : α) (status : StatusText α) :
    progressPercents (ns ++ [Notification.calibrationPointCompleted p,
        Notification.calibrationProgress pct status]) = progressPercents ns ++ [pct] := by
  simp [progressPercents, List.filterMap_append]

theorem progressPercents_completed {α : Type} [LinearOrderedField α]
    (ns : List (Notification α)) (table : CalibrationTable α) :
    progressPercents (ns ++ [Notification.calibrationCompleted table]) = progressPercents ns := by
  simp [progressPercents, List.filterMap_append]

/-- The tick in `Starting` sets up the first note and enters `SettlingVoltage`. -/
theorem sweepStep_starting {α : Type} [LinearOrderedField α] [CMath α]
    (respond : Nat → Int → Measurement α) (now : Nat) (e : CalibrationEngine α)
    (hst : e.state = State.Starting) (hcv : e.cvOutput.isSome = true) :
    ∃ e2, sweepStepWith respond now e = some e2 ∧ e2.state = State.SettlingVoltage
      ∧ e2.settings = e.settings ∧ e2.timerRunning = e.timerRunning
      ∧ e2.cvOutput.isSome = true ∧ e2.tuner = e.tuner
      ∧ e2.currentNoteIndex = 0
      ∧ e2.calibrationData = e.calibrationData
      ∧ e2.notifications = e.notifications
      ∧ e2.settleCounter = 0
      ∧ e2.currentMeasurementCount = e.currentMeasurementCount
      ∧ e2.currentPoint.targetMidiNote = e.settings.startNote := by
  obtain ⟨tn, cv, ns, tr, st, se, ni, mc, cp, cd, fa, sc⟩ := e
  simp only at hst hcv
  subst hst
  obtain ⟨c, rfl⟩ := Option.isSome_iff_exists.mp hcv
  refine ⟨
    { tuner := tn,
      cvOutput := some (if se.useExternalCVSource then c
        else c.outputVoltage (c.midiToVoltageInt se.startNote)),
      notifications := ns, timerRunning := tr, state := State.SettlingVoltage,
      settings := se, currentNoteIndex := 0, currentMeasurementCount := mc,
      currentPoint :=
        { (CalibrationPoint.init : CalibrationPoint α) with
          targetMidiNote := se.startNote
          targetVoltage := c.midiToVoltageInt se.startNote },
      calibrationData := cd, frequencyAccumulator := fa,
      settleCounter := 0 }, ?_, rfl, rfl, rfl, rfl, rfl, rfl, rfl, rfl, rfl, rfl, rfl⟩
  simp [sweepStepWith, CalibrationEngine.timerCallback, outputCurrentVoltage_eq, requestsOf,
    answerFrom]

/-- The loop of an uninterrupted sweep: from `SettlingVoltage` at note index `k` with `k`
points completed, the sweep runs to `Completed`; the final index `K` is the last one with
`startNote + K * noteStep ≤ endNote`, `K + 1` points are completed, and the last progress
reported is the final progress. -/
theorem sweep_loop {α : Type} [LinearOrderedField α] [CMath α]
    (respond : Nat → Int → Measurement α) (now : Nat) (s : CalibrationSettings)
    (hstep : 1 ≤ s.noteStep) :
    ∀ (r : Nat) (e : CalibrationEngine α), e.state = State.SettlingVoltage →
      e.timerRunning = true → e.tuner.isSome = true → e.cvOutput.isSome = true →
      e.settings = s → (e.calibrationData.length : Int) = e.currentNoteIndex →
      s.startNote + e.currentNoteIndex * s.noteStep ≤ s.endNote →
      (s.endNote - (s.startNote + e.currentNoteIndex * s.noteStep)).toNat = r →
      ∃ n e2 K, runSweepWith respond now n e = some e2 ∧ e2.state = State.Completed
        ∧ e2.timerRunning = false ∧ e2.settings = s
        ∧ (e2.calibrationData.length : Int) = K + 1
        ∧ s.startNote + K * s.noteStep ≤ s.endNote
        ∧ s.endNote < s.startNote + (K + 1) * s.noteStep
        ∧ (progressPercents e2.notifications).getLast? = some e2.getProgressPercent := by
  intro r
  induction r using Nat.strong_induction_on with
  | _ r ih =>
    intro e hst ht htn hcv hs hlen hle hr
    obtain ⟨n1, e1, hrun1, a1, -, f1⟩ := settle_phase respond now _ e hst ht htn rfl
    obtain ⟨n2, e2, p, status, hrun2, b1, b2, b3, b4, b5, b6, b7, -, b9⟩ :=
      process_phase respond now _ e1 a1 (f1.timerRunning.trans ht) (f1.tuner.trans htn) rfl
    have hs2 : e2.settings = s := (b2.trans f1.settings).trans hs
    have ht2 : e2.timerRunning = true := (b3.trans f1.timerRunning).trans ht
    have hcv2 : e2.cvOutput.isSome = true := by rw [b4, f1.cvOutput]; exact hcv
    have hidx2 : e2.currentNoteIndex = e.currentNoteIndex := b6.trans f1.currentNoteIndex
    have hlen2 : (e2.calibrationData.length : Int) = e.currentNoteIndex + 1 := by
      rw [b7, f1.calibrationData, List.length_append, List.length_singleton]
      push_cast
      rw [hlen]
    have hmul : (e.currentNoteIndex + 1) * s.noteStep
        = e.currentNoteIndex * s.noteStep + s.noteStep := by ring
    by_cases hc : e2.settings.startNote + (e2.currentNoteIndex + 1) * e2.settings.noteStep
        > e2.settings.endNote
    · obtain ⟨e3, table, hstep3, c1, c2, c3, c4, c5⟩ :=
        sweepStep_move_finish respond now e2 b1 hcv2 hc
      refine ⟨n1 + (n2 + 1), e3, e.currentNoteIndex, ?_, c1, c3, c2.trans hs2, ?_, hle, ?_, ?_⟩
      · exact runSweepWith_trans respond now n1 (n2 + 1) e e1 e3 hrun1
          (runSweepWith_trans respond now n2 1 e1 e2 e3 hrun2
            (runSweepWith_one respond now e2 e3 ht2 hstep3))
      · rw [c4, hlen2]
      · rw [hs2, hidx2] at hc
        exact hc
      · rw [c5, progressPercents_completed, b9, progressPercents_point,
          List.getLast?_concat, getProgressPercent_congr e2 e3 c2 c4]
    · obtain ⟨e3, hstep3, c1, c2, c3, c4, c5, c6, c7, c8, -, -, -⟩ :=
        sweepStep_move_next respond now e2 b1 hcv2 hc
      rw [hs2, hidx2] at hc
      have hle3 : s.startNote + e3.currentNoteIndex * s.noteStep ≤ s.endNote := by
        rw [c6, hidx2]
        omega
      obtain ⟨n3, e4, K, hrun4, d1, d2, d3, d4, d5, d6, d7⟩ :=
        ih ((s.endNote - (s.startNote + e3.currentNoteIndex * s.noteStep)).toNat)
          (by rw [c6, hidx2, ← hr]; omega)
          e3 c1 (c3.trans ht2) (by rw [c5, b5, f1.tuner]; exact htn) c4 (c2.trans hs2)
          (by rw [c7, hlen2, c6, hidx2]) hle3 rfl
      refine ⟨n1 + (n2 + (1 + n3)), e4, K, ?_, d1, d2, d3, d4, d5, d6, d7⟩
      exact runSweepWith_trans respond now n1 _ e e1 e4 hrun1
        (runSweepWith_trans respond now n2 _ e1 e2 e4 hrun2
          (runSweepWith_trans respond now 1 n3 e2 e3 e4
            (runSweepWith_one respond now e2 e3 ht2 hstep3) hrun4))

theorem floor_int_div (a b : Int) (hb : 0 < b) : ⌊(a : ℚ) / (b : ℚ)⌋ = a / b := by
  obtain ⟨n, rfl⟩ := Int.eq_ofNat_of_zero_le hb.le
  have := Rat.floor_intCast_div_natCast a n
  simpa using this

theorem getTotalPoints_eq {α : Type} [LinearOrderedField α] (e : CalibrationEngine α)
    (hse : e.settings.startNote ≤ e.settings.endNote) (hstep : 1 ≤ e.settings.noteStep) :
    e.getTotalPoints = (e.settings.endNote - e.settings.startNote) / e.settings.noteStep + 1 := by
  unfold CalibrationEngine.getTotalPoints
  rw [if_neg (by omega), Int.tdiv_eq_ediv (by omega) (by omega)]

/-- C12: for settings with `startNote ≤ endNote` and `noteStep ≥ 1`,
`getTotalPoints = floor ((endNote - startNote) / noteStep) + 1` and
`getProgressPercent = 100 * completedPoints / totalPoints`; an uninterrupted sweep, whatever
the measurements, runs to `Completed` with exactly `getTotalPoints` completed points, and
the last progress it reports is 100. -/
theorem sweep_total_points {α : Type} [LinearOrderedField α] [CMath α]
    (s : CalibrationSettings) (hse : s.startNote ≤ s.endNote) (hstep : 1 ≤ s.noteStep) :
    (∀ e : CalibrationEngine α, e.settings = s →
      e.getTotalPoints
          = ⌊((s.endNote - s.startNote : Int) : ℚ) / ((s.noteStep : Int) : ℚ)⌋ + 1
      ∧ e.getProgressPercent = 100 * (e.getCompletedPoints : α) / (e.getTotalPoints : α))
    ∧ (∀ (tn : Tuner) (cv : CVOutputManager α) (respond : Nat → Int → Measurement α)
        (now : Nat),
      ∃ fuel e2,
        (∀ extra, ((CalibrationEngine.init (some tn) (some cv)).startCalibration s).bind
            (runSweepWith respond now (fuel + extra)) = some e2)
        ∧ e2.state = State.Completed ∧ e2.timerRunning = false ∧ e2.settings = s
        ∧ e2.getCompletedPoints = e2.getTotalPoints
        ∧ e2.getCompletedPoints
            = ⌊((s.endNote - s.startNote : Int) : ℚ) / ((s.noteStep : Int) : ℚ)⌋ + 1
        ∧ e2.getProgressPercent = 100
        ∧ (progressPercents e2.notifications).getLast? = some 100) := by
  constructor
  · intro e hs
    subst hs
    have htot := getTotalPoints_eq e hse hstep
    refine ⟨?_, ?_⟩
    · rw [htot, floor_int_div _ _ (by omega)]
    · have hpos : 0 < e.getTotalPoints := by
        rw [htot]
        have : 0 ≤ (e.settings.endNote - e.settings.startNote) / e.settings.noteStep :=
          Int.ediv_nonneg (by omega) (by omega)
        omega
      have hne : ((e.getTotalPoints : Int) : α) ≠ 0 := by
        exact_mod_cast (ne_of_gt hpos)
      unfold CalibrationEngine.getProgressPercent CalibrationEngine.getCompletedPoints
      simp only [if_neg (not_le.mpr hpos)]
      push_cast
      field_simp
      ring
  · intro tn cv respond now
    -- the engine after `startCalibration`
    have hstart : (CalibrationEngine.init (some tn) (some cv) : CalibrationEngine α).startCalibration s
        = some
          { (CalibrationEngine.init (some tn) (some cv) : CalibrationEngine α) with
            settings := s
            cvOutput := some ((cv.setVoltageStandard s.standard).setActive true)
            state := State.Starting
            notifications := [Notification.calibrationStarted,
              Notification.calibrationProgress 0
                (StatusText.literal "Starting calibration...")]
            timerRunning := true } := by
      simp [CalibrationEngine.startCalibration, CalibrationEngine.init,
        CalibrationEngine.notify]
    set e1 : CalibrationEngine α :=
      { (CalibrationEngine.init (some tn) (some cv) : CalibrationEngine α) with
        settings := s
        cvOutput := some ((cv.setVoltageStandard s.standard).setActive true)
        state := State.Starting
        notifications := [Notification.calibrationStarted,
          Notification.calibrationProgress 0
            (StatusText.literal "Starting calibration...")]
        timerRunning := true } with he1
    obtain ⟨e2, hstep2, a1, a2, a3, a4, a5, a6, a7, -, -, -, -⟩ :=
      sweepStep_starting respond now e1 rfl rfl
    have hs2 : e2.settings = s := a2
    obtain ⟨n, e3, K, hrun, b1, b2, b3, b4, b5, b6, b7⟩ :=
      sweep_loop respond now s hstep _ e2 a1 (a3.trans rfl) (by rw [a5]; rfl) a4 hs2
        (by rw [a7, a6]; rfl) (by rw [a6]; omega) rfl
    have htot : e3.getTotalPoints = K + 1 := by
      rw [getTotalPoints_eq e3 (by rw [b3]; exact hse) (by rw [b3]; exact hstep), b3]
      have hpos : 0 < s.noteStep := by omega
      have h1 : K ≤ (s.endNote - s.startNote) / s.noteStep :=
        (Int.le_ediv_iff_mul_le hpos).mpr (by omega)
      have h2 : (s.endNote - s.startNote) / s.noteStep < K + 1 :=
        (Int.ediv_lt_iff_lt_mul hpos).mpr (by omega)
      generalize (s.endNote - s.startNote) / s.noteStep = q at h1 h2 ⊢
      omega
    have hcomp : e3.getCompletedPoints = e3.getTotalPoints := by
      rw [htot]
      exact b4
    have hpct : e3.getProgressPercent = 100 := by
      have hK : 0 < K + 1 := by
        rw [← htot, getTotalPoints_eq e3 (by rw [b3]; exact hse) (by rw [b3]; exact hstep)]
        have : 0 ≤ (e3.settings.endNote - e3.settings.startNote) / e3.settings.noteStep :=
          Int.ediv_nonneg (by rw [b3]; omega) (by rw [b3]; omega)
        omega
      have hne : ((K + 1 : Int) : α) ≠ 0 := by exact_mod_cast (ne_of_gt hK)
      unfold CalibrationEngine.getProgressPercent
      simp only [htot, if_neg (not_le.mpr hK)]
      have hlen : (e3.calibrationData.length : α) = ((K + 1 : Int) : α) := by
        rw [← b4]
        simp
      rw [hlen, div_self hne]
      norm_num
    have hfloor : e3.getCompletedPoints
        = ⌊((s.endNote - s.startNote : Int) : ℚ) / ((s.noteStep : Int) : ℚ)⌋ + 1 := by
      rw [hcomp, getTotalPoints_eq e3 (by rw [b3]; exact hse) (by rw [b3]; exact hstep), b3,
        floor_int_div _ _ (by omega)]
    refine ⟨1 + n, e3, ?_, b1, b2, b3, hcomp, hfloor, hpct, by rw [b7, hpct]⟩
    intro extra
    rw [hstart, Option.some_bind, runSweepWith_add]
    rw [runSweepWith_trans respond now 1 n e1 e2 e3
      (runSweepWith_one respond now e1 e2 rfl hstep2) hrun]
    exact runSweepWith_stopped respond now extra e3 b2

theorem sweep_total_points_witness :
    ∃ fuel e2,
      (∀ extra, ((CalibrationEngine.init (some { requests := [] })
            (some CVOutputManager.init) : CalibrationEngine ℝ).startCalibration
              (scenarioSettings VoltageStandard.OneVoltPerOctave false)).bind
          (runSweepWith (fun _ note => idealMeasurement note) 0 (fuel + extra)) = some e2)
      ∧ e2.state = State.Completed ∧ e2.timerRunning = false
      ∧ e2.settings = scenarioSettings VoltageStandard.OneVoltPerOctave false
      ∧ e2.getCompletedPoints = e2.getTotalPoints
      ∧ e2.getCompletedPoints = ⌊(((62 : Int) - 60 : Int) : ℚ) / ((1 : Int) : ℚ)⌋ + 1
      ∧ e2.getProgressPercent = 100
      ∧ (progressPercents e2.notifications).getLast? = some 100 :=
  (sweep_total_points (scenarioSettings VoltageStandard.OneVoltPerOctave false)
    (by decide) (by decide)).2 { requests := [] } CVOutputManager.init
    (fun _ note => idealMeasurement note) 0

/-! ## Theorems: event traces -/

theorem runEvents_append {α : Type} [LinearOrderedField α] [CMath α]
    (xs ys : List (Event α)) (e : CalibrationEngine α) :
    runEvents (xs ++ ys) e = (runEvents xs e).bind (runEvents ys) := by
  induction xs generalizing e with
  | nil => simp [runEvents]
  | cons x xs ih =>
    simp only [List.cons_append, runEvents]
    cases h : x.apply e with
    | none => rfl
    | some e1 => simp [ih]

/-- Every engine a sequence of calls produces from a reachable engine is reachable. -/
theorem runEvents_reachable {α : Type} [LinearOrderedField α] [CMath α]
    (evs : List (Event α)) (e e2 : CalibrationEngine α)
    (hreach : CalibrationEngine.Reachable e) (hrun : runEvents evs e = some e2) :
    CalibrationEngine.Reachable e2 := by
  induction evs generalizing e with
  | nil =>
    simp only [runEvents, Option.some.injEq] at hrun
    rw [← hrun]
    exact hreach
  | cons ev rest ih =>
    simp only [runEvents] at hrun
    cases h : ev.apply e with
    | none => rw [h] at hrun; cases hrun
    | some e1 =>
      rw [h] at hrun
      refine ih e1 ?_ hrun
      cases ev with
      | startCalibration s => exact CalibrationEngine.Reachable.startCalibration s hreach h
      | tick now => exact CalibrationEngine.Reachable.timerCallback now hreach h
      | measurementReady now m =>
        simp only [Event.apply, Option.some.injEq] at h
        rw [← h]
        exact CalibrationEngine.Reachable.newMeasurementReady now m hreach
      | tunerStopped => exact CalibrationEngine.Reachable.tunerStopped hreach h
      | pauseCalibration => exact CalibrationEngine.Reachable.pauseCalibration hreach h
      | resumeCalibration => exact CalibrationEngine.Reachable.resumeCalibration hreach h
      | cancelCalibration => exact CalibrationEngine.Reachable.cancelCalibration hreach h

theorem waitingEngine_run :
    runEvents [Event.startCalibration (scenarioSettings VoltageStandard.OneVoltPerOctave false),
        Event.tick 0, Event.tick 0, Event.tick 0]
      (CalibrationEngine.init (some { requests := [] }) (some CVOutputManager.init)
        : CalibrationEngine ℝ) = some waitingEngine := by
  simp [runEvents, Event.apply, CalibrationEngine.init, CalibrationEngine.startCalibration,
    CalibrationEngine.timerCallback, CalibrationEngine.notify, scenarioSettings,
    outputCurrentVoltage_eq, CalibrationEngine.startMeasurement,
    Tuner.startSingleMeasurement, waitingEngine, startedEngine]

/-- C25: for every reachable engine, `tunerStopped` received in `WaitingForMeasurement`
succeeds and leaves the engine in `Error` with the tick stopped and the voltage output
inactive; the only notification it adds is one `calibrationError` carrying a non-empty
reason.  In every other state `tunerStopped` returns the engine unchanged (same state, no
notification). -/
theorem tunerStopped_while_waiting {α : Type} [LinearOrderedField α] [CMath α]
    (e : CalibrationEngine α) (hreach : CalibrationEngine.Reachable e) :
    (e.state = State.WaitingForMeasurement →
      ∃ e2 cv2 reason, e.tunerStopped = some e2
        ∧ e2.state = State.Error ∧ e2.timerRunning = false
        ∧ e2.cvOutput = some cv2 ∧ cv2.isActive = false
        ∧ e2.notifications = e.notifications ++ [Notification.calibrationError reason]
        ∧ reason ≠ ""
        ∧ e2.calibrationData = e.calibrationData)
    ∧ (e.state ≠ State.WaitingForMeasurement → e.tunerStopped = some e) := by
  constructor
  · intro hst
    have hr : e.isRunning = true := by
      unfold CalibrationEngine.isRunning
      simp [hst]
    obtain ⟨cv, hcv⟩ := Option.isSome_iff_exists.mp (running_has_cvOutput hreach hr)
    refine ⟨{ e with timerRunning := false, state := State.Error,
                     cvOutput := some (cv.setActive false),
                     notifications := e.notifications
                       ++ [Notification.calibrationError
                            "Measurement failed - no signal detected"] },
            cv.setActive false, "Measurement failed - no signal detected",
            ?_, rfl, rfl, rfl, rfl, rfl, by decide, rfl⟩
    simp [CalibrationEngine.tunerStopped, hst, CalibrationEngine.setError, hcv,
      CalibrationEngine.notify]
  · intro hst
    simp [CalibrationEngine.tunerStopped, hst]

theorem tunerStopped_while_waiting_witness :
    ∃ e2 cv2 reason, waitingEngine.tunerStopped = some e2
      ∧ e2.state = State.Error ∧ e2.timerRunning = false
      ∧ e2.cvOutput = some cv2 ∧ cv2.isActive = false
      ∧ e2.notifications = waitingEngine.notifications
          ++ [Notification.calibrationError reason]
      ∧ reason ≠ ""
      ∧ e2.calibrationData = waitingEngine.calibrationData :=
  (tunerStopped_while_waiting waitingEngine
    (runEvents_reachable _ _ waitingEngine
      (CalibrationEngine.Reachable.init (some { requests := [] }) (some CVOutputManager.init))
      waitingEngine_run)).1 rfl

/-! ## Theorems: measurement processing and table generation -/

theorem foldl_add_sum {α : Type} [LinearOrderedField α] (xs : List α) :
    xs.foldl (fun acc f => acc + f) 0 = xs.sum := by
  have h := foldl_add_map (fun x : α => x) xs 0
  simpa using h

/-- C22: for every engine, whichever voltage standard is set, `processCurrentMeasurement`
keeps the target note `n` and, with `f` the mean of the frequency samples of the current
note (the new one included), sets `measuredFrequency = f`,
`measuredPitch = 69 + 12 * log2 (f / 440)`, `pitchError = measuredPitch - n` and
`errorCents = 100 * pitchError`; under `OneVoltPerOctave` it sets
`voltageCorrection = -pitchError / 12`.  Hence, under either standard, a mean above the
ideal frequency `440 * 2 ^ ((n - 69) / 12)` gives `errorCents > 0` and
`voltageCorrection < 0`, and a mean equal to the ideal frequency gives `errorCents = 0`
and `voltageCorrection = 0`. -/
theorem processCurrentMeasurement_error (now : Nat) (m : Measurement ℝ)
    (e : CalibrationEngine ℝ) :
    ∃ f : ℝ, f = (e.frequencyAccumulator ++ [m.frequency]).sum
                  / ((e.frequencyAccumulator ++ [m.frequency]).length : ℝ)
      ∧ (e.processCurrentMeasurement now m).currentPoint.targetMidiNote
          = e.currentPoint.targetMidiNote
      ∧ (e.processCurrentMeasurement now m).currentPoint.measuredFrequency = f
      ∧ (e.processCurrentMeasurement now m).currentPoint.measuredPitch
          = 69 + 12 * Real.logb 2 (f / 440)
      ∧ (e.processCurrentMeasurement now m).currentPoint.pitchError
          = (e.processCurrentMeasurement now m).currentPoint.measuredPitch
              - (e.currentPoint.targetMidiNote : ℝ)
      ∧ (e.processCurrentMeasurement now m).currentPoint.errorCents
          = 100 * (e.processCurrentMeasurement now m).currentPoint.pitchError
      ∧ (e.settings.standard = VoltageStandard.OneVoltPerOctave →
          (e.processCurrentMeasurement now m).currentPoint.voltageCorrection
            = -(e.processCurrentMeasurement now m).currentPoint.pitchError / 12)
      ∧ (440 * (2 : ℝ) ^ (((e.currentPoint.targetMidiNote : ℝ) - 69) / 12) < f →
          0 < (e.processCurrentMeasurement now m).currentPoint.errorCents
          ∧ (e.processCurrentMeasurement now m).currentPoint.voltageCorrection < 0)
      ∧ (f = 440 * (2 : ℝ) ^ (((e.currentPoint.targetMidiNote : ℝ) - 69) / 12) →
          (e.processCurrentMeasurement now m).currentPoint.errorCents = 0
          ∧ (e.processCurrentMeasurement now m).currentPoint.voltageCorrection = 0) := by
  obtain ⟨tn, cv, ns, tr, st, se, ni, mc, cp, cd, fa, sc⟩ := e
  refine ⟨_, rfl, ?_⟩
  simp only [CalibrationEngine.processCurrentMeasurement, foldl_add_sum]
  have hlog : ∀ x : ℝ, CMath.log2 x = Real.logb 2 x := fun _ => rfl
  have hpw : ∀ x y : ℝ, CMath.pow x y = x ^ y := fun _ _ => rfl
  simp only [hlog, hpw]
  set f : ℝ := (fa ++ [m.frequency]).sum / ((fa ++ [m.frequency]).length : ℝ) with hf
  have hcast : ((cp.targetMidiNote - 69 : Int) : ℝ) = (cp.targetMidiNote : ℝ) - 69 := by
    push_cast
    ring
  rw [hcast]
  set n : ℝ := (cp.targetMidiNote : ℝ) with hn
  have hpow : 0 < (2 : ℝ) ^ ((n - 69) / 12) := Real.rpow_pos_of_pos (by norm_num) _
  refine ⟨trivial, trivial, trivial, trivial, by ring, ?_, ?_, ?_⟩
  · intro hstd
    rw [if_pos hstd]
  · intro hlt
    have hlt2 : (2 : ℝ) ^ ((n - 69) / 12) < f / 440 := by
      rw [lt_div_iff₀ (by norm_num : (0 : ℝ) < 440)]
      linarith
    have hl : (n - 69) / 12 < Real.logb 2 (f / 440) := by
      rw [Real.lt_logb_iff_rpow_lt (by norm_num) (lt_trans hpow hlt2)]
      exact hlt2
    refine ⟨by linarith, ?_⟩
    split_ifs
    · linarith
    · linarith
  · intro heq
    have heq2 : f / 440 = (2 : ℝ) ^ ((n - 69) / 12) := by
      rw [heq]
      field_simp
    have hl : Real.logb 2 (f / 440) = (n - 69) / 12 := by
      rw [heq2]
      exact Real.logb_rpow (by norm_num) (by norm_num)
    rw [hl]
    refine ⟨by ring, ?_⟩
    split_ifs
    · ring
    · rw [heq]
      ring

theorem processCurrentMeasurement_error_witness :
    (waitingEngine.processCurrentMeasurement 0
        ({ frequency := 440 * (2 : ℝ) ^ ((((60 : Int) : ℝ) - 69) / 12),
           pitchOffsetSemitones := 0, pitchDeviation := 0 } : Measurement ℝ)).currentPoint.errorCents
      = 0 := by
  obtain ⟨f, hf, -, -, -, -, -, -, -, h0⟩ :=
    processCurrentMeasurement_error 0
      ({ frequency := 440 * (2 : ℝ) ^ ((((60 : Int) : ℝ) - 69) / 12),
         pitchOffsetSemitones := 0, pitchDeviation := 0 } : Measurement ℝ)
      waitingEngine
  refine (h0 ?_).1
  rw [hf]
  simp [waitingEngine, startedEngine, CalibrationEngine.init]

/-- C23 (the code at the failing input): with the voltage output configured to any
Hz-per-volt scale `s`, a sweep of the single note 69 under `HzPerVolt` whose measurement
is 220 Hz gets the correction `(440 - 220) / 1000 = 0.22`: the scale `s` is not used.  For
`s = 500` the difference of the ideal and the measured frequency expressed in the
configured scale is `(440 - 220) / 500 = 0.44`. -/
theorem hzPerVolt_correction_ignores_scale (s : ℝ) :
    ∃ e : CalibrationEngine ℝ,
      runEvents [Event.startCalibration (oneNoteSettings VoltageStandard.HzPerVolt),
          Event.tick 0, Event.tick 0,
          Event.measurementReady 0
            ({ frequency := 220, pitchOffsetSemitones := 0, pitchDeviation := 0 }
              : Measurement ℝ)]
        (CalibrationEngine.init (some { requests := [] })
          (some ((CVOutputManager.init : CVOutputManager ℝ).setHzPerVoltScale s))) = some e
      ∧ e.state = State.ProcessingResult
      ∧ e.settings.standard = VoltageStandard.HzPerVolt
      ∧ e.cvOutput.map (fun cv => cv.hzPerVoltScaling) = some s
      ∧ e.currentPoint.targetMidiNote = 69
      ∧ e.currentPoint.measuredFrequency = 220
      ∧ e.currentPoint.voltageCorrection = 11 / 50
      ∧ e.currentPoint.voltageCorrection
          ≠ (440 * (2 : ℝ) ^ ((((69 : Int) : ℝ) - 69) / 12) - 220) / 500 := by
  have hpow : ∀ x y : ℝ, CMath.pow x y = x ^ y := fun _ _ => rfl
  simp [runEvents, Event.apply, CalibrationEngine.init, CalibrationEngine.startCalibration,
    CalibrationEngine.timerCallback, CalibrationEngine.notify, oneNoteSettings,
    outputCurrentVoltage_eq, CalibrationEngine.startMeasurement,
    Tuner.startSingleMeasurement, CalibrationEngine.newMeasurementReady,
    CalibrationEngine.processCurrentMeasurement, CVOutputManager.setHzPerVoltScale,
    CVOutputManager.setVoltageStandard, CVOutputManager.setActive,
    CVOutputManager.outputVoltage, CalibrationPoint.init, hpow]
  norm_num

/-- What `generateCalibrationTable` returns when the voltage-output collaborator is
present. -/
theorem generateCalibrationTable_eq {α : Type} [LinearOrderedField α] [CMath α]
    (now : Nat) (e : CalibrationEngine α) (cv : CVOutputManager α) (hcv : e.cvOutput = some cv) :
    e.generateCalibrationTable now
      = some ((CalibrationTable.sortByMidiNote
          { (CalibrationTable.init now : CalibrationTable α) with
            entries := e.calibrationData.map (fun point =>
              { midiNote := point.targetMidiNote
                idealVoltage := cv.midiToVoltageInt point.targetMidiNote
                actualVoltage := cv.midiToVoltageInt point.targetMidiNote
                  + point.voltageCorrection
                correctionOffset := point.voltageCorrection
                measuredFrequency := point.measuredFrequency
                errorCents := point.errorCents
                stdDevCents := point.stdDevCents }) }).setCalibrationDate now) := by
  obtain ⟨tn, cv0, ns, tr, st, se, ni, mc, cp, cd, fa, sc⟩ := e
  simp only at hcv
  subst hcv
  have key : ∀ (ps : List (CalibrationPoint α)) (t0 : CalibrationTable α),
      ps.foldl
        (fun (acc : Option (CalibrationTable α)) (point : CalibrationPoint α) =>
          match acc, (some cv : Option (CVOutputManager α)) with
          | some table, some cv =>
            let idealVoltage := cv.midiToVoltageInt point.targetMidiNote
            some (table.addEntry
              { midiNote := point.targetMidiNote
                idealVoltage := idealVoltage
                actualVoltage := idealVoltage + point.voltageCorrection
                correctionOffset := point.voltageCorrection
                measuredFrequency := point.measuredFrequency
                errorCents := point.errorCents
                stdDevCents := point.stdDevCents })
          | _, _ => none)
        (some t0)
      = some { t0 with entries := t0.entries ++ ps.map (fun point =>
              { midiNote := point.targetMidiNote
                idealVoltage := cv.midiToVoltageInt point.targetMidiNote
                actualVoltage := cv.midiToVoltageInt point.targetMidiNote
                  + point.voltageCorrection
                correctionOffset := point.voltageCorrection
                measuredFrequency := point.measuredFrequency
                errorCents := point.errorCents
                stdDevCents := point.stdDevCents }) } := by
    intro ps
    induction ps with
    | nil => intro t0; simp
    | cons p ps ih =>
      intro t0
      rw [List.foldl_cons]
      refine (ih _).trans ?_
      simp [CalibrationTable.addEntry]
  unfold CalibrationEngine.generateCalibrationTable
  simp only [key, Option.map_some']
  simp [CalibrationTable.init]

/-- C24: with the voltage-output collaborator `cv` present, `generateCalibrationTable`
returns a table whose entries are, up to order, the images of the completed points (one
entry per point) under: `midiNote` = the target note, `idealVoltage` =
`cv.midiToVoltage (note)`, `actualVoltage = idealVoltage + voltageCorrection`,
`correctionOffset = voltageCorrection`, and `measuredFrequency`, `errorCents`,
`stdDevCents` copied from the point.  The entries are in ascending order of the note, and
in each of them `correctionOffset = actualVoltage - idealVoltage`. -/
theorem generateCalibrationTable_entries {α : Type} [LinearOrderedField α] [CMath α]
    (now : Nat) (e : CalibrationEngine α) (cv : CVOutputManager α) (hcv : e.cvOutput = some cv) :
    ∃ table, e.generateCalibrationTable now = some table
      ∧ table.entries.Perm (e.calibrationData.map (fun point =>
          { midiNote := point.targetMidiNote
            idealVoltage := cv.midiToVoltage (point.targetMidiNote : α)
            actualVoltage := cv.midiToVoltage (point.targetMidiNote : α)
              + point.voltageCorrection
            correctionOffset := point.voltageCorrection
            measuredFrequency := point.measuredFrequency
            errorCents := point.errorCents
            stdDevCents := point.stdDevCents }))
      ∧ table.entries.length = e.calibrationData.length
      ∧ table.entries.Sorted (fun a b => a.midiNote ≤ b.midiNote)
      ∧ (∀ entry ∈ table.entries,
          entry.correctionOffset = entry.actualVoltage - entry.idealVoltage) := by
  refine ⟨_, generateCalibrationTable_eq now e cv hcv, ?_, ?_, ?_, ?_⟩
  · exact sortByMidiNote_entries_perm _
  · exact (sortByMidiNote_entries_perm _).length_eq.trans (by simp)
  · exact sortByMidiNote_entries_sorted _
  · intro entry hentry
    have hmem : entry ∈ e.calibrationData.map (fun point =>
          ({ midiNote := point.targetMidiNote
             idealVoltage := cv.midiToVoltageInt point.targetMidiNote
             actualVoltage := cv.midiToVoltageInt point.targetMidiNote
               + point.voltageCorrection
             correctionOffset := point.voltageCorrection
             measuredFrequency := point.measuredFrequency
             errorCents := point.errorCents
             stdDevCents := point.stdDevCents } : Entry α)) :=
      (sortByMidiNote_entries_perm _).subset hentry
    obtain ⟨point, -, rfl⟩ := List.mem_map.mp hmem
    simp

theorem generateCalibrationTable_entries_witness :
    ∃ table, twoPointEngine.generateCalibrationTable 0 = some table
      ∧ table.entries.map Entry.midiNote = [60, 62]
      ∧ table.entries.map Entry.correctionOffset = [-(1 / 50), 1 / 100] := by
  have hcv : twoPointEngine.cvOutput
      = some ((CVOutputManager.init.setVoltageStandard
          VoltageStandard.OneVoltPerOctave).setActive true) := by
    simp [twoPointEngine, startedEngine]
  obtain ⟨table, h, -, -, -, -⟩ := generateCalibrationTable_entries 0 twoPointEngine _ hcv
  rw [generateCalibrationTable_eq 0 twoPointEngine _ hcv] at h
  refine ⟨table, by rw [generateCalibrationTable_eq 0 twoPointEngine _ hcv, h], ?_, ?_⟩
  · rw [← Option.some.inj h]
    simp [twoPointEngine, startedEngine, sortByMidiNote_short,
      CalibrationTable.setCalibrationDate, CalibrationTable.init, CalibrationPoint.init]
  · rw [← Option.some.inj h]
    simp [twoPointEngine, startedEngine, sortByMidiNote_short,
      CalibrationTable.setCalibrationDate, CalibrationTable.init, CalibrationPoint.init]

/-! ## Theorems: settle time -/

theorem ceil_int_div (a b : Int) (hb : 0 < b) : ⌈(a : ℚ) / (b : ℚ)⌉ = -((-a) / b) := by
  have h := floor_int_div (-a) b hb
  have h2 : ⌈(a : ℚ) / (b : ℚ)⌉ = -⌊-((a : ℚ) / (b : ℚ))⌋ := by
    rw [Int.floor_neg, neg_neg]
  rw [h2, ← h]
  congr 2
  push_cast
  ring

/-- A tick in `SettlingVoltage`. -/
theorem tick_settling {α : Type} [LinearOrderedField α] [CMath α] (now : Nat)
    (e : CalibrationEngine α) (t : Tuner) (hst : e.state = State.SettlingVoltage)
    (htn : e.tuner = some t) :
    e.timerCallback now =
      if (e.settleCounter + 1) * 10 ≥ e.settings.settleTimeMs then
        some { e with
          settleCounter := e.settleCounter + 1
          state := State.WaitingForMeasurement
          tuner := some { requests := t.requests ++ [e.currentPoint.targetMidiNote] } }
      else some { e with settleCounter := e.settleCounter + 1 } := by
  obtain ⟨tn, cv, ns, tr, st, se, ni, mc, cp, cd, fa, sc⟩ := e
  simp only at hst htn
  subst hst htn
  by_cases hc : (sc + 1) * 10 ≥ se.settleTimeMs
  · simp [CalibrationEngine.timerCallback, hc, CalibrationEngine.startMeasurement,
      Tuner.startSingleMeasurement]
  · simp [CalibrationEngine.timerCallback, hc]

/-- C26: let `k = max (1, ceil (settleTimeMs / 10))`, the least positive integer with
`10 * k ≥ settleTimeMs`.  From an engine in `SettlingVoltage` with settle counter 0, fewer
than `k` ticks only count (the engine stays in `SettlingVoltage`, no measurement is
requested), and `k` ticks leave it in `WaitingForMeasurement` with exactly one request, for
the current note, added. -/
theorem settle_ticks {α : Type} [LinearOrderedField α] [CMath α]
    (e : CalibrationEngine α) (t : Tuner)
    (hst : e.state = State.SettlingVoltage) (hsc : e.settleCounter = 0)
    (htn : e.tuner = some t) :
    ∃ k : Nat, (k : Int) = max 1 ⌈(e.settings.settleTimeMs : ℚ) / 10⌉
      ∧ 1 ≤ k ∧ e.settings.settleTimeMs ≤ 10 * (k : Int)
      ∧ (∀ j : Nat, 1 ≤ j → e.settings.settleTimeMs ≤ 10 * (j : Int) → k ≤ j)
      ∧ (∀ nows : List Nat, nows.length < k →
          runEvents (nows.map Event.tick) e
            = some { e with settleCounter := (nows.length : Int) })
      ∧ (∀ nows : List Nat, nows.length = k →
          runEvents (nows.map Event.tick) e
            = some { e with
                settleCounter := (k : Int)
                state := State.WaitingForMeasurement
                tuner := some
                  { requests := t.requests ++ [e.currentPoint.targetMidiNote] } }) := by
  have hceil : ⌈(e.settings.settleTimeMs : ℚ) / 10⌉ = -((-e.settings.settleTimeMs) / 10) := by
    have := ceil_int_div e.settings.settleTimeMs 10 (by norm_num)
    simpa using this
  have hwait : ∀ nows : List Nat,
      (nows.length : Int) * 10 < e.settings.settleTimeMs ∨ nows.length = 0 →
      runEvents (nows.map Event.tick) e
        = some { e with settleCounter := (nows.length : Int) } := by
    intro nows
    induction nows using List.reverseRecOn with
    | nil =>
      intro _
      obtain ⟨tn, cv, ns, tr, st, se, ni, mc, cp, cd, fa, sc⟩ := e
      simp only at hsc
      subst hsc
      simp [runEvents]
    | append_singleton xs x ih =>
      intro h
      have hlen : ((xs ++ [x]).length : Int) = (xs.length : Int) + 1 := by simp
      have hlt : ((xs.length : Int) + 1) * 10 < e.settings.settleTimeMs := by
        rcases h with h | h
        · rw [hlen] at h
          exact h
        · simp at h
      rw [List.map_append, runEvents_append, ih (Or.inl (by omega))]
      simp only [List.map_cons, List.map_nil, Option.some_bind, runEvents, Event.apply]
      rw [tick_settling x { e with settleCounter := (xs.length : Int) } t hst htn]
      simp only
      rw [if_neg (by omega), hlen]
      rfl
  refine ⟨(max 1 (-((-e.settings.settleTimeMs) / 10))).toNat, ?_, ?_, ?_, ?_, ?_, ?_⟩
  · rw [hceil]
    omega
  · omega
  · omega
  · intro j hj hle
    omega
  · intro nows hlen
    apply hwait
    omega
  · intro nows hlen
    obtain ⟨xs, x, rfl⟩ : ∃ xs x, nows = xs ++ [x] := by
      rcases List.eq_nil_or_concat nows with h | ⟨xs, x, h⟩
      · subst h
        simp at hlen
        omega
      · exact ⟨xs, x, by simpa using h⟩
    have hlen2 : (xs.length : Int) + 1
        = ((max 1 (-((-e.settings.settleTimeMs) / 10))).toNat : Int) := by
      rw [← hlen]
      simp
    rw [List.map_append, runEvents_append, hwait xs (by omega)]
    simp only [List.map_cons, List.map_nil, Option.some_bind, runEvents, Event.apply]
    rw [tick_settling x { e with settleCounter := (xs.length : Int) } t hst htn]
    simp only
    rw [if_pos (by omega), hlen2]
    rfl

theorem settle_ticks_witness :
    runEvents [Event.tick 0] settlingEngine = some { settlingEngine with settleCounter := 1 }
    ∧ runEvents [Event.tick 0, Event.tick 0] settlingEngine = some waitingEngine := by
  obtain ⟨k, hk, -, -, -, hbefore, hat⟩ :=
    settle_ticks settlingEngine { requests := [] } rfl rfl rfl
  have hk2 : k = 2 := by
    have h20 : settlingEngine.settings.settleTimeMs = 20 := rfl
    rw [h20] at hk
    norm_num at hk
    exact_mod_cast hk
  subst hk2
  refine ⟨hbefore [0] (by simp), ?_⟩
  rw [show [Event.tick 0, Event.tick 0] = ([0, 0].map Event.tick : List (Event ℝ)) from rfl,
    hat [0, 0] rfl]
  simp [settlingEngine, waitingEngine]

/-! ## Theorems: the voltage output in the quiet states -/

/-- One call keeps the voltage-output collaborator present, and inactive in the quiet
states. -/
theorem apply_keeps_quiet_inactive {α : Type} [LinearOrderedField α] [CMath α]
    (ev : Event α) (e : CalibrationEngine α) (cv : CVOutputManager α)
    (hcv : e.cvOutput = some cv) (hq : e.state.isQuiet = true → cv.isActive = false) :
    ∃ e2 cv2, ev.apply e = some e2 ∧ e2.cvOutput = some cv2
      ∧ (e2.state.isQuiet = true → cv2.isActive = false) := by
  obtain ⟨tn, cv0, ns, tr, st, se, ni, mc, cp, cd, fa, sc⟩ := e
  simp only at hcv hq
  subst hcv
  cases ev with
  | startCalibration s =>
    cases tn <;>
      simp [Event.apply, CalibrationEngine.startCalibration, CalibrationEngine.setError,
        CalibrationEngine.notify, State.isQuiet, CVOutputManager.setActive,
        CVOutputManager.isActive]
  | tick now =>
    cases st <;>
      simp [Event.apply, CalibrationEngine.timerCallback, outputCurrentVoltage_eq,
        State.isQuiet] at hq ⊢
    · exact hq
    · by_cases hc : se.settleTimeMs ≤ (sc + 1) * 10 <;> cases tn <;>
        simp [hc, CalibrationEngine.startMeasurement]
    · by_cases hc : se.measurementsPerNote ≤ mc + 1 <;> cases tn <;>
        simp [hc, CalibrationEngine.startMeasurement, CalibrationEngine.notify]
    · by_cases hc : se.startNote + (ni + 1) * se.noteStep > se.endNote
      · have htable := generateCalibrationTable_eq now
          ({ tuner := tn, cvOutput := some (cv.setActive false), notifications := ns,
             timerRunning := false, state := State.Completed, settings := se,
             currentNoteIndex := ni + 1, currentMeasurementCount := mc, currentPoint := cp,
             calibrationData := cd, frequencyAccumulator := fa, settleCounter := sc } :
            CalibrationEngine α) (cv.setActive false) rfl
        have hact : (cv.setActive false).isActiveFlag = false := rfl
        simp [CalibrationEngine.advanceToNextPoint, hc, CalibrationEngine.finishCalibration,
          htable, CalibrationEngine.notify, CVOutputManager.isActive, hact]
      · simp [CalibrationEngine.advanceToNextPoint, hc, outputCurrentVoltage_eq]
    · exact hq
    · exact hq
    · exact hq
  | measurementReady now m =>
    cases st <;>
      simp [Event.apply, CalibrationEngine.newMeasurementReady,
        CalibrationEngine.processCurrentMeasurement, State.isQuiet] at hq ⊢
    all_goals exact hq
  | tunerStopped =>
    cases st <;>
      simp [Event.apply, CalibrationEngine.tunerStopped, CalibrationEngine.setError,
        CalibrationEngine.notify, State.isQuiet, CVOutputManager.setActive,
        CVOutputManager.isActive] at hq ⊢
    all_goals exact hq
  | pauseCalibration =>
    cases st <;>
      simp [Event.apply, CalibrationEngine.pauseCalibration, CalibrationEngine.isRunning,
        State.isQuiet, CVOutputManager.setActive, CVOutputManager.isActive] at hq ⊢
    all_goals exact hq
  | resumeCalibration =>
    cases st <;>
      simp [Event.apply, CalibrationEngine.resumeCalibration, State.isQuiet,
        CVOutputManager.setActive, CVOutputManager.isActive] at hq ⊢
    all_goals exact hq
  | cancelCalibration =>
    simp [Event.apply, CalibrationEngine.cancelCalibration, CalibrationEngine.notify,
      State.isQuiet, CVOutputManager.setActive, CVOutputManager.isActive]

/-- C30: from a freshly constructed engine with both collaborators, whose voltage output
is inactive as constructed, every sequence of `startCalibration`, tick,
measurement-ready, `tunerStopped`, `pauseCalibration`, `resumeCalibration` and
`cancelCalibration` calls succeeds, and in the engine it produces the voltage output is
inactive whenever the state is `Idle`, `Paused`, `Completed` or `Error`. -/
theorem quiet_states_output_inactive {α : Type} [LinearOrderedField α] [CMath α]
    (tn : Tuner) (cv : CVOutputManager α) (hcv : cv.isActive = false) (evs : List (Event α)) :
    ∃ e cv2, runEvents evs (CalibrationEngine.init (some tn) (some cv)) = some e
      ∧ e.cvOutput = some cv2
      ∧ ((e.state = State.Idle ∨ e.state = State.Paused ∨ e.state = State.Completed
            ∨ e.state = State.Error) → cv2.isActive = false) := by
  have hrun : ∀ (evs : List (Event α)) (e : CalibrationEngine α) (c : CVOutputManager α),
      e.cvOutput = some c → (e.state.isQuiet = true → c.isActive = false) →
      ∃ e2 c2, runEvents evs e = some e2 ∧ e2.cvOutput = some c2
        ∧ (e2.state.isQuiet = true → c2.isActive = false) := by
    intro evs
    induction evs with
    | nil => intro e c h1 h2; exact ⟨e, c, rfl, h1, h2⟩
    | cons ev rest ih =>
      intro e c h1 h2
      obtain ⟨e1, c1, hstep, g1, g2⟩ := apply_keeps_quiet_inactive ev e c h1 h2
      obtain ⟨e2, c2, hrest, k1, k2⟩ := ih e1 c1 g1 g2
      exact ⟨e2, c2, by simp [runEvents, hstep, hrest], k1, k2⟩
  obtain ⟨e, c, h1, h2, h3⟩ := hrun evs (CalibrationEngine.init (some tn) (some cv)) cv rfl
    (fun _ => hcv)
  refine ⟨e, c, h1, h2, fun hst => h3 ?_⟩
  rcases hst with h | h | h | h <;> simp [h, State.isQuiet]

theorem quiet_states_output_inactive_witness :
    ∃ e cv2,
      runEvents [Event.startCalibration (scenarioSettings VoltageStandard.OneVoltPerOctave false),
          Event.tick 0, Event.pauseCalibration]
        (CalibrationEngine.init (some { requests := [] }) (some CVOutputManager.init)
          : CalibrationEngine ℝ) = some e
      ∧ e.cvOutput = some cv2
      ∧ ((e.state = State.Idle ∨ e.state = State.Paused ∨ e.state = State.Completed
            ∨ e.state = State.Error) → cv2.isActive = false) :=
  quiet_states_output_inactive { requests := [] } CVOutputManager.init rfl _

/-! ## Theorems: pausing between two notes -/

/-- C21 (the code at the failing input): in the sweep over the notes 60 and 61 (no settle
time, one measurement per note), `pauseCalibration` called after the tick that appended
the point of note 60 and before the next tick, followed by `resumeCalibration`, makes the
engine measure note 60 again and append a second point for it.  The sweep then runs to
`Completed` with the completed points 60, 60, 61, and the table it emits has two entries
for note 60. -/
theorem pause_between_notes_repeats_note {α : Type} [LinearOrderedField α] [CMath α]
    (tn : Tuner) (cv : CVOutputManager α) (m1 m2 m3 : Measurement α) (now : Nat) :
    ∃ e table,
      runEvents [Event.startCalibration twoNoteSettings,
          Event.tick now, Event.tick now, Event.measurementReady now m1, Event.tick now,
          Event.pauseCalibration, Event.resumeCalibration,
          Event.tick now, Event.measurementReady now m2, Event.tick now,
          Event.tick now, Event.tick now, Event.measurementReady now m3, Event.tick now,
          Event.tick now]
        (CalibrationEngine.init (some tn) (some cv)) = some e
      ∧ e.state = State.Completed
      ∧ e.calibrationData.map CalibrationPoint.targetMidiNote = [60, 60, 61]
      ∧ completedTables e.notifications = [table]
      ∧ table.entries.map Entry.midiNote = [60, 60, 61] :=
  ⟨_, _, rfl, rfl, rfl, rfl, rfl⟩

/-! ## Theorems: interpolation stays within the table -/

theorem linearInterpolateDivisors_of_two_le {α : Type} [LinearOrderedField α]
    (t : CalibrationTable α) (pitch : α) (hlen : 2 ≤ t.entries.length) :
    t.linearInterpolateDivisors pitch =
      match CalibrationTable.bracket pitch t.entries with
      | (none, none) => []
      | (none, some _) => []
      | (some _, none) => []
      | (some lower, some upper) =>
        if lower.1 = upper.1 then []
        else [(((upper.2.midiNote - lower.2.midiNote : Int) : α))] := by
  unfold CalibrationTable.linearInterpolateDivisors
  rcases hes : t.entries with _ | ⟨a, _ | ⟨b, rest⟩⟩
  · rw [hes] at hlen; simp at hlen
  · rw [hes] at hlen; simp at hlen
  · rfl

/-- A value between two offsets of the table lies between the least and the greatest. -/
theorem between_minimum_maximum {α : Type} [LinearOrderedField α]
    (es : List (Entry α)) (a b : Entry α) (ha : a ∈ es) (hb : b ∈ es) (v : α)
    (hav : a.correctionOffset ≤ v) (hvb : v ≤ b.correctionOffset) :
    (es.map Entry.correctionOffset).minimum ≤ (v : WithTop α)
    ∧ (v : WithBot α) ≤ (es.map Entry.correctionOffset).maximum := by
  constructor
  · exact le_trans (List.minimum_le_of_mem' (List.mem_map_of_mem _ ha))
      (WithTop.coe_le_coe.mpr hav)
  · exact le_trans (WithBot.coe_le_coe.mpr hvb)
      (List.le_maximum_of_mem' (List.mem_map_of_mem _ hb))

/-- C28 (amended): in exact arithmetic, for a non-empty table (duplicate notes allowed,
any order of the entries) and
every pitch `p`, `getCorrectionOffset p` returns a value between the least and the
greatest `correctionOffset` of the entries, and the divisor of the interpolation step,
when that step is executed, is not zero. -/
theorem getCorrectionOffset_within_offsets {α : Type} [LinearOrderedField α]
    (t : CalibrationTable α) (p : α) (hne : t.entries ≠ []) :
    ∃ v, t.getCorrectionOffset p = some v
      ∧ (t.entries.map Entry.correctionOffset).minimum ≤ (v : WithTop α)
      ∧ (v : WithBot α) ≤ (t.entries.map Entry.correctionOffset).maximum
      ∧ (∀ d ∈ t.linearInterpolateDivisors p, d ≠ 0) := by
  rcases hes : t.entries with _ | ⟨a, _ | ⟨b, rest⟩⟩
  · exact absurd hes hne
  · -- a single entry
    have hr : t.getCorrectionOffset p = some a.correctionOffset := by
      unfold CalibrationTable.getCorrectionOffset CalibrationTable.linearInterpolate
      rw [hes]
    have hd : t.linearInterpolateDivisors p = [] := by
      unfold CalibrationTable.linearInterpolateDivisors
      rw [hes]
    have hb := between_minimum_maximum [a] a a (List.mem_singleton_self a)
      (List.mem_singleton_self a) a.correctionOffset (le_refl _) (le_refl _)
    refine ⟨_, hr, hb.1, hb.2, ?_⟩
    rw [hd]
    intro d hd
    cases hd
  · have hlen : 2 ≤ t.entries.length := by rw [hes]; simp
    have ha : a ∈ t.entries := by rw [hes]; exact List.mem_cons_self _ _
    rw [← hes]
    have hres := linearInterpolate_of_two_le t p hlen
    have hdiv := linearInterpolateDivisors_of_two_le t p hlen
    rw [bracket_eq] at hres hdiv
    unfold CalibrationTable.getCorrectionOffset
    rcases sel_spec (fun e : Entry α => (e.midiNote : α) ≤ p) (fun e => - e.midiNote)
        t.entries with ⟨hL, hnoL⟩ | ⟨u, hu, hui, hcu, hmu⟩
    · rcases sel_spec (fun e : Entry α => p ≤ (e.midiNote : α)) (fun e => e.midiNote)
          t.entries with ⟨hU, hnoU⟩ | ⟨w, hw, hwi, hcw, hmw⟩
      · rcases le_total (a.midiNote : α) p with h | h
        · exact absurd h (hnoL a ha)
        · exact absurd h (hnoU a ha)
      · rw [hL, hw] at hres hdiv
        have hb := between_minimum_maximum t.entries w.2 w.2 (List.getElem?_mem hwi)
          (List.getElem?_mem hwi) w.2.correctionOffset (le_refl _) (le_refl _)
        refine ⟨_, hres, hb.1, hb.2, ?_⟩
        rw [hdiv]
        intro d hd
        cases hd
    · rcases sel_spec (fun e : Entry α => p ≤ (e.midiNote : α)) (fun e => e.midiNote)
          t.entries with ⟨hU, hnoU⟩ | ⟨w, hw, hwi, hcw, hmw⟩
      · rw [hu, hU] at hres hdiv
        have hb := between_minimum_maximum t.entries u.2 u.2 (List.getElem?_mem hui)
          (List.getElem?_mem hui) u.2.correctionOffset (le_refl _) (le_refl _)
        refine ⟨_, hres, hb.1, hb.2, ?_⟩
        rw [hdiv]
        intro d hd
        cases hd
      · rw [hu, hw] at hres hdiv
        have humem : u.2 ∈ t.entries := List.getElem?_mem hui
        have hwmem : w.2 ∈ t.entries := List.getElem?_mem hwi
        by_cases hsame : u.1 = w.1
        · simp only [hsame, if_true] at hres hdiv
          have hb := between_minimum_maximum t.entries u.2 u.2 humem humem
            u.2.correctionOffset (le_refl _) (le_refl _)
          refine ⟨_, hres, hb.1, hb.2, ?_⟩
          rw [hdiv]
          intro d hd
          cases hd
        · simp only [hsame, if_false] at hres hdiv
          -- the two notes differ: otherwise both pointers are the first entry with the note
          have hle : u.2.midiNote ≤ w.2.midiNote := by
            have : (u.2.midiNote : α) ≤ (w.2.midiNote : α) := le_trans hcu hcw
            exact_mod_cast this
          have hneq : u.2.midiNote ≠ w.2.midiNote := by
            intro heq
            have h1 := (hmu w.1 w.2 hwi (by rw [← heq]; exact hcu)).2 (by omega)
            have h2 := (hmw u.1 u.2 hui (by rw [heq]; exact hcw)).2 heq.symm
            exact hsame (by omega)
          have hlt : u.2.midiNote < w.2.midiNote := lt_of_le_of_ne hle hneq
          have hden : (0 : α) < ((w.2.midiNote - u.2.midiNote : Int) : α) := by
            exact_mod_cast (by omega : (0 : Int) < w.2.midiNote - u.2.midiNote)
          have ht0 : 0 ≤ (p - (u.2.midiNote : α))
              / ((w.2.midiNote - u.2.midiNote : Int) : α) :=
            div_nonneg (by linarith) hden.le
          have ht1 : (p - (u.2.midiNote : α))
              / ((w.2.midiNote - u.2.midiNote : Int) : α) ≤ 1 := by
            rw [div_le_one hden]
            push_cast
            linarith
          set s := (p - (u.2.midiNote : α)) / ((w.2.midiNote - u.2.midiNote : Int) : α)
            with hs
          refine ⟨_, hres, ?_, ?_, ?_⟩
          · rcases le_total u.2.correctionOffset w.2.correctionOffset with h | h
            · exact (between_minimum_maximum t.entries u.2 w.2 humem hwmem _
                (by nlinarith) (by nlinarith)).1
            · exact (between_minimum_maximum t.entries w.2 u.2 hwmem humem _
                (by nlinarith) (by nlinarith)).1
          · rcases le_total u.2.correctionOffset w.2.correctionOffset with h | h
            · exact (between_minimum_maximum t.entries u.2 w.2 humem hwmem _
                (by nlinarith) (by nlinarith)).2
            · exact (between_minimum_maximum t.entries w.2 u.2 hwmem humem _
                (by nlinarith) (by nlinarith)).2
          · rw [hdiv]
            intro d hd
            rw [List.mem_singleton.mp hd]
            exact ne_of_gt hden

theorem getCorrectionOffset_within_offsets_witness :
    ∃ v, duplicateNoteTable.getCorrectionOffset 60 = some v
      ∧ (duplicateNoteTable.entries.map Entry.correctionOffset).minimum ≤ (v : WithTop ℚ)
      ∧ (v : WithBot ℚ) ≤ (duplicateNoteTable.entries.map Entry.correctionOffset).maximum
      ∧ (∀ d ∈ duplicateNoteTable.linearInterpolateDivisors 60, d ≠ 0) :=
  getCorrectionOffset_within_offsets duplicateNoteTable 60
    (by simp [duplicateNoteTable, CalibrationTable.addEntry, CalibrationTable.init])

/-! ## Theorems: averaging -/

theorem averagingPhase_bounds {α : Type} [LinearOrderedField α] (s : CalibrationSettings)
    (n : Nat) (e : CalibrationEngine α) (d : Nat) (cur : List α) (r : Nat)
    (h : averagingPhase s n e d cur r) : cur.length ≤ r ∧ r ≤ n := by
  unfold averagingPhase at h
  split at h
  · obtain ⟨-, h1, h2, -⟩ := h
    subst h1 h2
    simp
  · obtain ⟨-, -, h1, h2, -⟩ := h
    subst h1 h2
    simp
  · obtain ⟨-, -, -, h1, h2, h3⟩ := h
    omega
  · obtain ⟨-, -, -, h1, h2, h3, -⟩ := h
    omega
  · obtain ⟨-, h1, h2⟩ := h
    subst h1 h2
    simp
  · obtain ⟨h1, h2⟩ := h
    subst h1 h2
    simp
  · exact absurd h id

/-- A measurement-ready event keeps the averaging invariant; when it is accepted, its
frequency joins the samples of the current note. -/
theorem averaging_measurementReady {α : Type} [LinearOrderedField α] [CMath α]
    (s : CalibrationSettings) (n : Nat) (requests0 : List Int)
    (now : Nat) (m : Measurement α) (e : CalibrationEngine α)
    (segs : List (List α)) (cur : List α) (r : Nat)
    (h : Averaging s n requests0 e segs cur r) :
    Averaging s n requests0 (e.newMeasurementReady now m) segs
      (cur ++ (if e.state = State.WaitingForMeasurement then [m.frequency] else [])) r := by
  by_cases hst : e.state = State.WaitingForMeasurement
  · obtain ⟨h1, h2, h3, h4, h5, h6, h7⟩ := h
    obtain ⟨tn, cv, ns, tr, st, se, ni, mc, cp, cd, fa, sc⟩ := e
    simp only at hst h1 h2 h3 h5 h6
    subst hst
    simp only [averagingPhase] at h7
    obtain ⟨p1, p2, p3, p4, p5, p6⟩ := h7
    subst p3
    simp only [if_true]
    refine ⟨h1, h2, h3, h4, h5, h6, ?_⟩
    simp only [averagingPhase, CalibrationEngine.newMeasurementReady,
      CalibrationEngine.processCurrentMeasurement, foldl_add_sum, arithmeticMean]
    simp only [ne_eq, not_true_eq_false, if_false]
    refine ⟨p1, p2, trivial, ?_, p5, p6, trivial⟩
    rw [List.length_append, List.length_singleton]
    push_cast
    omega
  · have hsame : e.newMeasurementReady now m = e := by
      unfold CalibrationEngine.newMeasurementReady
      rw [if_pos hst]
    rw [hsame, if_neg hst, List.append_nil]
    exact h

/-- A tick keeps the averaging invariant and accepts no sample. -/
theorem averaging_tick {α : Type} [LinearOrderedField α] [CMath α]
    (s : CalibrationSettings) (n : Nat) (requests0 : List Int)
    (hn : 1 ≤ n) (hsn : (n : Int) = s.measurementsPerNote)
    (now : Nat) (e : CalibrationEngine α)
    (segs : List (List α)) (cur : List α) (r : Nat)
    (h : Averaging s n requests0 e segs cur r) :
    ∃ e2 segs2 cur2 r2, e.timerCallback now = some e2
      ∧ Averaging s n requests0 e2 segs2 cur2 r2
      ∧ segs2.flatten ++ cur2 = segs.flatten ++ cur := by
  obtain ⟨h1, h2, h3, h4, h5, h6, h7⟩ := h
  obtain ⟨tn, cv, ns, tr, st, se, ni, mc, cp, cd, fa, sc⟩ := e
  simp only at h1 h2 h3 h5 h6
  subst h1
  obtain ⟨c, rfl⟩ := Option.isSome_iff_exists.mp h2
  subst h3
  cases st with
  | Idle => simp [averagingPhase] at h7
  | Paused => simp [averagingPhase] at h7
  | Error => simp [averagingPhase] at h7
  | Starting =>
    simp only [averagingPhase] at h7
    obtain ⟨p1, p2, p3, p4, p5⟩ := h7
    subst p2 p3 p4 p5
    have hsegs : segs = [] := List.length_eq_zero.mp p1
    subst hsegs
    refine ⟨_, [], [], 0, rfl, ⟨?_, ?_, ?_, h4, ?_, ?_, ?_⟩, rfl⟩
    · simp [outputCurrentVoltage_eq]
    · simp [outputCurrentVoltage_eq]
    · simp [outputCurrentVoltage_eq]
    · simpa [outputCurrentVoltage_eq] using h5
    · simpa [outputCurrentVoltage_eq] using h6
    · simp [averagingPhase, outputCurrentVoltage_eq, CalibrationSettings.noteAt]
  | SettlingVoltage =>
    simp only [averagingPhase] at h7
    obtain ⟨p1, p2, p3, p4, p5, p6⟩ := h7
    subst p3 p4 p5 p6
    simp only [CalibrationEngine.timerCallback, CalibrationEngine.startMeasurement,
      Tuner.startSingleMeasurement]
    by_cases hc : (sc + 1) * 10 ≥ se.settleTimeMs
    · rw [if_pos hc]
      refine ⟨_, segs, [], 1, rfl, ⟨rfl, rfl, ?_, h4, h5, h6, ?_⟩, rfl⟩
      · simp [p2]
      · simp only [averagingPhase]
        exact ⟨p1, p2, by simp, by simp, by simp, hn⟩
    · rw [if_neg hc]
      refine ⟨_, segs, [], 0, rfl, ⟨rfl, rfl, rfl, h4, h5, h6, ?_⟩, rfl⟩
      simp only [averagingPhase]
      exact ⟨p1, p2, by simp, by simp, by simp, by simp⟩
  | WaitingForMeasurement =>
    exact ⟨_, segs, cur, r, rfl, ⟨rfl, rfl, rfl, h4, h5, h6, h7⟩, rfl⟩
  | ProcessingResult =>
    simp only [averagingPhase] at h7
    obtain ⟨p1, p2, p3, p4, p5, p6, p7⟩ := h7
    subst p3
    simp only [CalibrationEngine.timerCallback, CalibrationEngine.notify,
      CalibrationEngine.startMeasurement, Tuner.startSingleMeasurement]
    by_cases hc : mc + 1 ≥ se.measurementsPerNote
    · have hr : r = n := by omega
      subst hr
      rw [if_pos hc]
      refine ⟨_, segs ++ [cur], [], 0, rfl, ⟨rfl, rfl, ?_, ?_, ?_, ?_, ?_⟩, ?_⟩
      · simp [List.range_succ]
      · intro seg hseg
        rcases List.mem_append.mp hseg with h | h
        · exact h4 seg h
        · rw [List.mem_singleton.mp h]
          omega
      · simp [h5, p7]
      · simp [h6, p2, List.range_succ]
      · simp [averagingPhase, p1]
      · simp
    · rw [if_neg hc]
      refine ⟨_, segs, cur, r + 1, rfl, ⟨rfl, rfl, ?_, h4, h5, h6, ?_⟩, rfl⟩
      · simp [p2, List.replicate_succ']
      · simp only [averagingPhase]
        refine ⟨p1, p2, by simp, p4, by push_cast; omega, by omega⟩
  | MovingToNext =>
    simp only [averagingPhase] at h7
    obtain ⟨p1, p2, p3⟩ := h7
    subst p2 p3
    simp only [CalibrationEngine.timerCallback, CalibrationEngine.advanceToNextPoint,
      CalibrationEngine.finishCalibration]
    by_cases hc : se.startNote + (ni + 1) * se.noteStep > se.endNote
    · have htable := generateCalibrationTable_eq now
        ({ tuner := some
             { requests := requests0
                 ++ (List.range segs.length).flatMap (fun j => List.replicate n (se.noteAt j))
                 ++ List.replicate 0 (se.noteAt segs.length) },
           cvOutput := some (c.setActive false), notifications := ns,
           timerRunning := false, state := State.Completed, settings := se,
           currentNoteIndex := ni + 1, currentMeasurementCount := mc, currentPoint := cp,
           calibrationData := cd, frequencyAccumulator := fa, settleCounter := sc } :
          CalibrationEngine α) (c.setActive false) rfl
      rw [if_pos hc]
      simp only [htable, CalibrationEngine.notify]
      refine ⟨_, segs, [], 0, rfl, ⟨rfl, rfl, rfl, h4, h5, h6, ?_⟩, rfl⟩
      simp [averagingPhase]
    · rw [if_neg hc]
      refine ⟨_, segs, [], 0, rfl, ⟨?_, ?_, ?_, h4, ?_, ?_, ?_⟩, rfl⟩
      · simp [outputCurrentVoltage_eq]
      · simp [outputCurrentVoltage_eq]
      · simp [outputCurrentVoltage_eq]
      · simpa [outputCurrentVoltage_eq] using h5
      · simpa [outputCurrentVoltage_eq] using h6
      · simp [averagingPhase, outputCurrentVoltage_eq, CalibrationSettings.noteAt, p1]
  | Completed =>
    simp only [averagingPhase] at h7
    exact ⟨_, segs, cur, r, rfl, ⟨rfl, rfl, rfl, h4, h5, h6, h7⟩, rfl⟩

/-- Ticks and measurement-ready events, in any order, keep the averaging invariant; the
samples they add are the accepted ones. -/
theorem averaging_run {α : Type} [LinearOrderedField α] [CMath α]
    (s : CalibrationSettings) (n : Nat) (requests0 : List Int)
    (hn : 1 ≤ n) (hsn : (n : Int) = s.measurementsPerNote) :
    ∀ (evs : List (Event α)) (e : CalibrationEngine α)
      (segs : List (List α)) (cur : List α) (r : Nat),
      (∀ ev ∈ evs, ev.isTickOrMeasurement = true) →
      Averaging s n requests0 e segs cur r →
      ∃ e2 segs2 cur2 r2, runEvents evs e = some e2
        ∧ Averaging s n requests0 e2 segs2 cur2 r2
        ∧ segs2.flatten ++ cur2 = segs.flatten ++ cur ++ acceptedFrequencies evs e := by
  intro evs
  induction evs with
  | nil =>
    intro e segs cur r _ h
    exact ⟨e, segs, cur, r, rfl, h, by simp [acceptedFrequencies]⟩
  | cons ev rest ih =>
    intro e segs cur r hev h
    have hrest : ∀ ev ∈ rest, ev.isTickOrMeasurement = true :=
      fun x hx => hev x (List.mem_cons_of_mem _ hx)
    have hhead := hev ev (List.mem_cons_self _ _)
    cases ev with
    | tick now =>
      obtain ⟨e1, segs1, cur1, r1, hstep, h1, hlog1⟩ :=
        averaging_tick s n requests0 hn hsn now e segs cur r h
      obtain ⟨e2, segs2, cur2, r2, hrun, h2, hlog2⟩ := ih e1 segs1 cur1 r1 hrest h1
      refine ⟨e2, segs2, cur2, r2, ?_, h2, ?_⟩
      · simp [runEvents, Event.apply, hstep, hrun]
      · rw [hlog2, hlog1]
        simp [acceptedFrequencies, Event.apply, hstep]
    | measurementReady now m =>
      have h1 := averaging_measurementReady s n requests0 now m e segs cur r h
      obtain ⟨e2, segs2, cur2, r2, hrun, h2, hlog2⟩ := ih _ segs _ r hrest h1
      refine ⟨e2, segs2, cur2, r2, ?_, h2, ?_⟩
      · simp [runEvents, Event.apply, hrun]
      · rw [hlog2]
        simp [acceptedFrequencies, Event.apply]
    | startCalibration s0 => simp [Event.isTickOrMeasurement] at hhead
    | tunerStopped => simp [Event.isTickOrMeasurement] at hhead
    | pauseCalibration => simp [Event.isTickOrMeasurement] at hhead
    | resumeCalibration => simp [Event.isTickOrMeasurement] at hhead
    | cancelCalibration => simp [Event.isTickOrMeasurement] at hhead

/-- `startCalibration` on an engine with both collaborators establishes the averaging
invariant, whatever the engine did before. -/
theorem averaging_start {α : Type} [LinearOrderedField α] [CMath α]
    (s : CalibrationSettings) (n : Nat) (tn : Tuner) (cv : CVOutputManager α)
    (e : CalibrationEngine α) (htn : e.tuner = some tn) (hcv : e.cvOutput = some cv) :
    ∃ e0, e.startCalibration s = some e0 ∧ Averaging s n tn.requests e0 [] [] 0 := by
  obtain ⟨tn0, cv0, ns, tr, st, se, ni, mc, cp, cd, fa, sc⟩ := e
  simp only at htn hcv
  subst htn hcv
  simp only [CalibrationEngine.startCalibration, CalibrationEngine.notify, Option.isNone_some,
    Bool.or_self, Bool.false_eq_true, if_false]
  refine ⟨_, rfl, ⟨rfl, rfl, ?_, ?_, rfl, rfl, ?_⟩⟩
  · simp
  · intro seg hseg
    cases hseg
  · simp [averagingPhase]

/-- C27: start a sweep with `measurementsPerNote = n ≥ 1` on an engine with both
collaborators and apply any sequence of ticks and measurement-ready events (no pause,
cancel or manual trigger).  Then the frequencies of the accepted measurement-ready events
are `segs.flatten ++ cur`, where `segs` consists of one block of exactly `n` samples per
completed point, in order, and `cur` are the samples accepted for the current note; the
`measuredFrequency` of each completed point is the arithmetic mean of its own block; point
number `j` is for the note `startNote + j * noteStep`; and the requests issued are exactly
`n` for the note of each completed point, followed by `r ≤ n` for the current note, of
which `cur.length` are answered. -/
theorem sweep_point_mean_of_samples {α : Type} [LinearOrderedField α] [CMath α]
    (s : CalibrationSettings) (hn : 1 ≤ s.measurementsPerNote)
    (tn : Tuner) (cv : CVOutputManager α) (eprev : CalibrationEngine α)
    (htn : eprev.tuner = some tn) (hcv : eprev.cvOutput = some cv)
    (evs : List (Event α)) (hev : ∀ ev ∈ evs, ev.isTickOrMeasurement = true) :
    ∃ (e0 e : CalibrationEngine α) (segs : List (List α)) (cur : List α) (r : Nat),
      eprev.startCalibration s = some e0
      ∧ runEvents evs e0 = some e
      ∧ acceptedFrequencies evs e0 = segs.flatten ++ cur
      ∧ (∀ seg ∈ segs, (seg.length : Int) = s.measurementsPerNote)
      ∧ e.calibrationData.length = segs.length
      ∧ e.calibrationData.map CalibrationPoint.measuredFrequency = segs.map arithmeticMean
      ∧ e.calibrationData.map CalibrationPoint.targetMidiNote
          = (List.range segs.length).map s.noteAt
      ∧ requestsOf e = tn.requests
          ++ (List.range segs.length).flatMap
              (fun j => List.replicate s.measurementsPerNote.toNat (s.noteAt j))
          ++ List.replicate r (s.noteAt segs.length)
      ∧ cur.length ≤ r ∧ (r : Int) ≤ s.measurementsPerNote := by
  have hsn : ((s.measurementsPerNote.toNat : Nat) : Int) = s.measurementsPerNote :=
    Int.toNat_of_nonneg (by omega)
  have hn1 : 1 ≤ s.measurementsPerNote.toNat := by omega
  obtain ⟨e0, hstart, h0⟩ :=
    averaging_start s s.measurementsPerNote.toNat tn cv eprev htn hcv
  obtain ⟨e, segs, cur, r, hrun, hinv, hlog⟩ :=
    averaging_run s s.measurementsPerNote.toNat tn.requests hn1 hsn evs e0 [] [] 0 hev h0
  have hb := averagingPhase_bounds s _ e segs.length cur r hinv.phase
  refine ⟨e0, e, segs, cur, r, hstart, hrun, ?_, ?_, ?_, hinv.frequencies, hinv.notes, ?_,
    hb.1, ?_⟩
  · rw [hlog]
    simp
  · intro seg hseg
    rw [hinv.blocks seg hseg, hsn]
  · have := congrArg List.length hinv.notes
    simpa using this
  · simp [requestsOf, hinv.requests]
  · rw [← hsn]
    exact_mod_cast hb.2

theorem sweep_point_mean_of_samples_witness :
    ∃ (e0 e : CalibrationEngine ℝ) (segs : List (List ℝ)) (cur : List ℝ) (r : Nat),
      (CalibrationEngine.init (some { requests := [] }) (some CVOutputManager.init)
        : CalibrationEngine ℝ).startCalibration twoSampleSettings = some e0
      ∧ runEvents [Event.tick 0, Event.tick 0,
          Event.measurementReady 0 (idealMeasurement 60), Event.tick 0,
          Event.measurementReady 0 (idealMeasurement 61), Event.tick 0] e0 = some e
      ∧ acceptedFrequencies [Event.tick 0, Event.tick 0,
          Event.measurementReady 0 (idealMeasurement 60), Event.tick 0,
          Event.measurementReady 0 (idealMeasurement 61), Event.tick 0] e0 = segs.flatten ++ cur
      ∧ (∀ seg ∈ segs, (seg.length : Int) = twoSampleSettings.measurementsPerNote)
      ∧ e.calibrationData.length = segs.length
      ∧ e.calibrationData.map CalibrationPoint.measuredFrequency = segs.map arithmeticMean
      ∧ e.calibrationData.map CalibrationPoint.targetMidiNote
          = (List.range segs.length).map twoSampleSettings.noteAt
      ∧ requestsOf e = ([] : List Int)
          ++ (List.range segs.length).flatMap
              (fun j => List.replicate twoSampleSettings.measurementsPerNote.toNat
                (twoSampleSettings.noteAt j))
          ++ List.replicate r (twoSampleSettings.noteAt segs.length)
      ∧ cur.length ≤ r ∧ (r : Int) ≤ twoSampleSettings.measurementsPerNote
      ∧ e.calibrationData.length = 1 := by
  obtain ⟨e0, e, segs, cur, r, h1, h2, h3, h4, h5, h6, h7, h8, h9, h10⟩ :=
    sweep_point_mean_of_samples twoSampleSettings (by decide) { requests := [] }
      CVOutputManager.init
      (CalibrationEngine.init (some { requests := [] }) (some CVOutputManager.init)
        : CalibrationEngine ℝ) rfl rfl
      [Event.tick 0, Event.tick 0,
        Event.measurementReady 0 (idealMeasurement 60), Event.tick 0,
        Event.measurementReady 0 (idealMeasurement 61), Event.tick 0]
      (by simp [Event.isTickOrMeasurement])
  refine ⟨e0, e, segs, cur, r, h1, h2, h3, h4, h5, h6, h7, h8, h9, h10, ?_⟩
  have hx : some e0 = some _ := h1.symm.trans rfl
  have he0 := Option.some.inj hx
  subst he0
  have hy : some e = some _ := h2.symm.trans rfl
  have he := Option.some.inj hy
  subst he
  rfl

/-! ## Theorems: the fit solves the normal equations -/

/-- A solution of the system with two rows swapped solves the system. -/
theorem swapRows_solves {α : Type} [LinearOrderedField α] (m k p : Nat) (hk : k < m)
    (hp : p < m) (Ab : (Nat → Nat → α) × (Nat → α)) (c : Nat → α)
    (h : SolvesSystem m (swapRows Ab.1 k p, swapRows Ab.2 k p) c) : SolvesSystem m Ab c := by
  intro i him
  by_cases hik : i = k
  · subst hik
    have := h p hp
    by_cases hpi : p = i
    · subst hpi
      simpa [swapRows] using this
    · simpa [swapRows, hpi] using this
  · by_cases hip : i = p
    · subst hip
      have := h k hk
      simpa [swapRows] using this
    · have := h i him
      simpa [swapRows, hik, hip] using this

/-- One elimination step that does not stop: column `k` is eliminated below the diagonal,
the pivot is not zero, the rows above `k` are untouched, and every solution of the new
system solves the old one. -/
theorem eliminationStep_spec {α : Type} [LinearOrderedField α] (m k : Nat) (hk : k < m)
    (Ab Ab2 : (Nat → Nat → α) × (Nat → α)) (hz : EliminatedBelow m k Ab.1)
    (hstep : CalibrationTable.eliminationStep m k Ab = some Ab2) :
    EliminatedBelow m (k + 1) Ab2.1 ∧ Ab2.1 k k ≠ 0
      ∧ (∀ i j, i < k → Ab2.1 i j = Ab.1 i j)
      ∧ (∀ c, SolvesSystem m Ab2 c → SolvesSystem m Ab c) := by
  obtain ⟨hp1, hp2, -⟩ := findPivot_spec Ab.1 m k
  unfold CalibrationTable.eliminationStep at hstep
  simp only at hstep
  generalize CalibrationTable.findPivot Ab.1 m k = p at hp1 hp2 hstep
  have hpm : p < m := by
    rcases hp2 with h | h
    · omega
    · exact h
  by_cases hpiv : |swapRows Ab.1 k p k k| < 1 / 10 ^ 10
  · rw [if_pos hpiv] at hstep
    cases hstep
  rw [if_neg hpiv] at hstep
  have hAb2 := Option.some.inj hstep
  subst hAb2
  obtain ⟨h1, h2⟩ := eliminateColumn_apply m k (swapRows Ab.1 k p, swapRows Ab.2 k p)
  simp only at h1 h2
  have hne : swapRows Ab.1 k p k k ≠ 0 := by
    intro h0
    apply hpiv
    rw [h0, abs_zero]
    positivity
  -- the rows of the swapped matrix from `k` on are zero in the columns before `k`
  have hA1z : ∀ i j, j < k → j < i → i < m → swapRows Ab.1 k p i j = 0 := by
    intro i j hj hji him
    simp only [swapRows]
    split_ifs with e1 e2
    · exact hz p j hj (by omega) hpm
    · exact hz k j hj hj hk
    · exact hz i j hj hji him
  refine ⟨?_, ?_, ?_, ?_⟩
  · intro i j hj hji him
    rw [h1 i j]
    by_cases hjk : j = k
    · subst hjk
      rw [if_pos ⟨hji, him, le_refl _, hk⟩]
      field_simp
    · rw [if_neg (by omega)]
      exact hA1z i j (by omega) hji him
  · rw [h1 k k, if_neg (by omega)]
    exact hne
  · intro i j hik
    rw [h1 i j, if_neg (by omega)]
    simp only [swapRows]
    rw [if_neg (by omega), if_neg (by omega)]
  · intro c hc
    apply swapRows_solves m k p hk hpm Ab c
    have hrowk : ∑ j ∈ Finset.range m, swapRows Ab.1 k p k j * c j = swapRows Ab.2 k p k := by
      have := hc k hk
      rw [h2 k, if_neg (by omega)] at this
      rw [← this]
      apply Finset.sum_congr rfl
      intro j _
      rw [h1 k j, if_neg (by omega)]
    intro i him
    show ∑ j ∈ Finset.range m, swapRows Ab.1 k p i j * c j = swapRows Ab.2 k p i
    by_cases hki : k < i
    · have := hc i him
      rw [h2 i, if_pos ⟨hki, him⟩] at this
      have hrow : ∑ j ∈ Finset.range m,
            (CalibrationTable.eliminateColumn m k
              (swapRows Ab.1 k p, swapRows Ab.2 k p)).1 i j * c j
          = ∑ j ∈ Finset.range m, swapRows Ab.1 k p i j * c j
            - (swapRows Ab.1 k p i k / swapRows Ab.1 k p k k)
              * ∑ j ∈ Finset.range m, swapRows Ab.1 k p k j * c j := by
        rw [Finset.mul_sum, ← Finset.sum_sub_distrib]
        apply Finset.sum_congr rfl
        intro j hj
        rw [h1 i j]
        by_cases hkj : k ≤ j
        · rw [if_pos ⟨hki, him, hkj, Finset.mem_range.mp hj⟩]
          ring
        · rw [if_neg (by omega), hA1z k j (by omega) (by omega) hk]
          ring
      rw [hrow, hrowk] at this
      linarith
    · have := hc i him
      rw [h2 i, if_neg (by omega)] at this
      rw [← this]
      apply Finset.sum_congr rfl
      intro j _
      rw [h1 i j, if_neg (by omega)]

/-- The forward elimination after its first `k` steps, when none of them stopped: the
first `k` columns are eliminated, the first `k` pivots are not zero, and every solution
of the system reached solves the system the elimination started from. -/
theorem forwardElimination_steps {α : Type} [LinearOrderedField α] (m : Nat)
    (Ab : (Nat → Nat → α) × (Nat → α)) :
    ∀ k, k ≤ m → ∀ Abk : (Nat → Nat → α) × (Nat → α),
      (List.range k).foldl
        (fun (st : Option ((Nat → Nat → α) × (Nat → α))) k =>
          match st with
          | none => none
          | some Ab => CalibrationTable.eliminationStep m k Ab)
        (some Ab) = some Abk →
      EliminatedBelow m k Abk.1 ∧ (∀ i, i < k → Abk.1 i i ≠ 0)
        ∧ (∀ c, SolvesSystem m Abk c → SolvesSystem m Ab c) := by
  intro k
  induction k with
  | zero =>
    intro _ Abk h
    simp only [List.range_zero, List.foldl_nil, Option.some.injEq] at h
    subst h
    exact ⟨fun i j hj => absurd hj (Nat.not_lt_zero j), fun i hi => absurd hi (Nat.not_lt_zero i),
      fun c hc => hc⟩
  | succ k ih =>
    intro hk Abk h
    rw [List.range_succ, List.foldl_append] at h
    simp only [List.foldl_cons, List.foldl_nil] at h
    cases hprev : (List.range k).foldl
        (fun (st : Option ((Nat → Nat → α) × (Nat → α))) k =>
          match st with
          | none => none
          | some Ab => CalibrationTable.eliminationStep m k Ab)
        (some Ab) with
    | none =>
      rw [hprev] at h
      cases h
    | some Ab1 =>
      rw [hprev] at h
      simp only at h
      obtain ⟨z1, d1, s1⟩ := ih (by omega) Ab1 hprev
      obtain ⟨z2, d2, r2, s2⟩ := eliminationStep_spec m k (by omega) Ab1 Abk z1 h
      refine ⟨z2, ?_, fun c hc => s1 c (s2 c hc)⟩
      intro i hi
      rcases Nat.lt_succ_iff_lt_or_eq.mp hi with h | h
      · rw [r2 i i h]
        exact d1 i h
      · rw [h]
        exact d2

/-- The inner loop of the back substitution: the subtraction of the terms of the columns
`start, ..., start + len - 1`. -/
theorem foldl_sub_range' {α : Type} [LinearOrderedField α] (g : Nat → α) :
    ∀ (len start : Nat) (a : α),
      (List.range' start len).foldl (fun acc j => acc - g j) a
        = a - ∑ j ∈ Finset.Ico start (start + len), g j := by
  intro len
  induction len with
  | zero => intro start a; simp
  | succ len ih =>
    intro start a
    rw [List.range'_succ, List.foldl_cons, ih (start + 1) (a - g start),
      Finset.sum_eq_sum_Ico_succ_bot (by omega : start < start + (len + 1))]
    have : start + 1 + len = start + (len + 1) := by omega
    rw [this]
    ring

theorem backSubstitution_eq_foldl {α : Type} [LinearOrderedField α] (m : Nat)
    (Ab : (Nat → Nat → α) × (Nat → α)) :
    CalibrationTable.backSubstitution m Ab
      = (List.range m).reverse.foldl (CalibrationTable.backSubstitutionStep m Ab)
          (fun _ => 0) := rfl

theorem backSubstitutionStep_apply {α : Type} [LinearOrderedField α] (m : Nat)
    (Ab : (Nat → Nat → α) × (Nat → α)) (c : Nat → α) (i : Nat) (him : i < m) (r : Nat) :
    CalibrationTable.backSubstitutionStep m Ab c i r
      = if r = i then (Ab.2 i - ∑ j ∈ Finset.Ico (i + 1) m, Ab.1 i j * c j) / Ab.1 i i
        else c r := by
  unfold CalibrationTable.backSubstitutionStep
  rw [foldl_sub_range' (fun j => Ab.1 i j * c j)]
  have hlen : i + 1 + (m - (i + 1)) = m := by omega
  rw [hlen]

/-- The back substitution over the rows `t - 1, ..., 0`: the entries from `t` on stay, and
each entry below `t` satisfies its equation of the triangular system. -/
theorem backSubstitution_foldl {α : Type} [LinearOrderedField α] (m : Nat)
    (Ab : (Nat → Nat → α) × (Nat → α)) :
    ∀ (t : Nat), t ≤ m → ∀ (c0 : Nat → α),
      (∀ r, t ≤ r →
        ((List.range t).reverse.foldl (CalibrationTable.backSubstitutionStep m Ab) c0) r = c0 r)
      ∧ (∀ i, i < t →
        ((List.range t).reverse.foldl (CalibrationTable.backSubstitutionStep m Ab) c0) i
        = (Ab.2 i - ∑ j ∈ Finset.Ico (i + 1) m, Ab.1 i j *
            ((List.range t).reverse.foldl (CalibrationTable.backSubstitutionStep m Ab) c0) j)
          / Ab.1 i i) := by
  intro t
  induction t with
  | zero =>
    intro _ c0
    exact ⟨fun r _ => rfl, fun i hi => absurd hi (Nat.not_lt_zero i)⟩
  | succ t ih =>
    intro ht c0
    rw [List.range_succ, List.reverse_append, List.reverse_singleton, List.singleton_append,
      List.foldl_cons]
    obtain ⟨keep, eqs⟩ := ih (by omega) (CalibrationTable.backSubstitutionStep m Ab c0 t)
    constructor
    · intro r hr
      rw [keep r (by omega), backSubstitutionStep_apply m Ab c0 t (by omega), if_neg (by omega)]
    · intro i hi
      rcases Nat.lt_succ_iff_lt_or_eq.mp hi with h | h
      · exact eqs i h
      · subst h
        have hsum : ∑ j ∈ Finset.Ico (i + 1) m, Ab.1 i j *
              ((List.range i).reverse.foldl (CalibrationTable.backSubstitutionStep m Ab)
                (CalibrationTable.backSubstitutionStep m Ab c0 i)) j
            = ∑ j ∈ Finset.Ico (i + 1) m, Ab.1 i j * c0 j := by
          apply Finset.sum_congr rfl
          intro j hj
          have hj1 := (Finset.mem_Ico.mp hj).1
          rw [keep j (by omega), backSubstitutionStep_apply m Ab c0 i (by omega),
            if_neg (by omega)]
        rw [hsum, keep i (le_refl _), backSubstitutionStep_apply m Ab c0 i (by omega),
          if_pos rfl]

/-- On an eliminated system with non-zero pivots the back substitution returns a
solution. -/
theorem backSubstitution_solves {α : Type} [LinearOrderedField α] (m : Nat)
    (Ab : (Nat → Nat → α) × (Nat → α)) (hz : EliminatedBelow m m Ab.1)
    (hd : ∀ i, i < m → Ab.1 i i ≠ 0) :
    SolvesSystem m Ab (CalibrationTable.backSubstitution m Ab) := by
  obtain ⟨-, eqs⟩ := backSubstitution_foldl m Ab m (le_refl m) (fun _ => 0)
  intro i him
  have hci := eqs i him
  have hlow : ∑ j ∈ Finset.Ico 0 i, Ab.1 i j * CalibrationTable.backSubstitution m Ab j
      = 0 := by
    apply Finset.sum_eq_zero
    intro j hj
    rw [hz i j (by have := (Finset.mem_Ico.mp hj).2; omega) (Finset.mem_Ico.mp hj).2 him,
      zero_mul]
  rw [Finset.range_eq_Ico, ← Finset.sum_Ico_consecutive _ (Nat.zero_le i) (le_of_lt him), hlow,
    Finset.sum_eq_sum_Ico_succ_bot him, zero_add]
  rw [backSubstitution_eq_foldl, hci]
  field_simp [hd i him]

/-- C29: for a degree `d ≥ 0`, whenever `getPolynomialCoefficients d` returns a non-empty
sequence, it has exactly `d + 1` coefficients `c_0, ..., c_d`, and they solve the normal
equations of the least-squares fit: for each `i` in `0, ..., d`,
`sum over j of (sum over the entries of note ^ (i + j)) * c_j
   = sum over the entries of correctionOffset * note ^ i`. -/
theorem getPolynomialCoefficients_normal_equations {α : Type} [LinearOrderedField α]
    (t : CalibrationTable α) (degree : Int) (hdeg : 0 ≤ degree) (cs : List α)
    (hres : t.getPolynomialCoefficients degree = some cs) (hne : cs ≠ []) :
    (cs.length : Int) = degree + 1
    ∧ ∀ i : Nat, (i : Int) ≤ degree →
        ∑ j ∈ Finset.range cs.length,
            (t.entries.map (fun e => (e.midiNote : α) ^ (i + j))).sum * cs.getD j 0
          = (t.entries.map (fun e => e.correctionOffset * (e.midiNote : α) ^ i)).sum := by
  unfold CalibrationTable.getPolynomialCoefficients at hres
  simp only at hres
  by_cases hn : (t.entries.length : Int) < degree + 1
  · rw [if_pos hn] at hres
    exact absurd (Option.some.inj hres).symm hne
  rw [if_neg hn, if_neg (by omega)] at hres
  cases hfe : CalibrationTable.forwardElimination (degree + 1).toNat
      (CalibrationTable.normalEquations t.entries (degree + 1).toNat) with
  | none =>
    rw [hfe] at hres
    exact absurd (Option.some.inj hres).symm hne
  | some Ab =>
    rw [hfe] at hres
    have hcs := Option.some.inj hres
    subst hcs
    have hm : (((degree + 1).toNat : Nat) : Int) = degree + 1 := Int.toNat_of_nonneg (by omega)
    obtain ⟨hz, hd, hsol⟩ := forwardElimination_steps (degree + 1).toNat
      (CalibrationTable.normalEquations t.entries (degree + 1).toNat)
      (degree + 1).toNat (le_refl _) Ab hfe
    have hsolved := hsol _ (backSubstitution_solves (degree + 1).toNat Ab hz hd)
    obtain ⟨hA, hb⟩ := normalEquations_apply t.entries (degree + 1).toNat
    refine ⟨by simp [hm], ?_⟩
    intro i hi
    have him : i < (degree + 1).toNat := by omega
    have := hsolved i him
    rw [hb i, if_pos him] at this
    rw [← this]
    simp only [List.length_map, List.length_range]
    apply Finset.sum_congr rfl
    intro j hj
    have hjm := Finset.mem_range.mp hj
    rw [hA i j, if_pos ⟨him, hjm⟩]
    congr 1
    simp [List.getD, hjm]

theorem getPolynomialCoefficients_normal_equations_witness :
    ((([-(1 / 15), 1 / 360] : List ℚ).length : Int) = 1 + 1)
    ∧ ∀ i : Nat, (i : Int) ≤ 1 →
        ∑ j ∈ Finset.range ([-(1 / 15), 1 / 360] : List ℚ).length,
            (fitTable.entries.map (fun e => (e.midiNote : ℚ) ^ (i + j))).sum
              * ([-(1 / 15), 1 / 360] : List ℚ).getD j 0
          = (fitTable.entries.map (fun e => e.correctionOffset * (e.midiNote : ℚ) ^ i)).sum :=
  getPolynomialCoefficients_normal_equations fitTable 1 (by norm_num) [-(1 / 15), 1 / 360]
    fitTable_coefficients (by simp)

/-! ## Theorems: machine arithmetic -/

set_option maxRecDepth 100000 in
/-- C18 (counterexample): in the `float` arithmetic of the code, on the default range
`[-10, 10]`, the voltage `0.1f = 13421773 * 2 ^ (-27)` lies inside the range, and
`sampleToVoltage (voltageToSample (0.1f))` is `13421824 * 2 ^ (-27)`
(0.10000038...), not `0.1f`: the two conversions are not exact inverses. -/
theorem sampleToVoltage_voltageToSample_binary32 :
    CVOutputManager.initBinary32.interfaceMinVolts
        < CVOutputManager.initBinary32.interfaceMaxVolts
    ∧ CVOutputManager.initBinary32.interfaceMinVolts ≤ Binary32.ofFraction 1 10
    ∧ Binary32.ofFraction 1 10 ≤ CVOutputManager.initBinary32.interfaceMaxVolts
    ∧ Binary32.ofFraction 1 10 = ⟨⟨13421773, -27⟩⟩
    ∧ CVOutputManager.initBinary32.sampleToVoltageBinary32
        (CVOutputManager.initBinary32.voltageToSampleBinary32 (Binary32.ofFraction 1 10))
          = ⟨⟨13421824, -27⟩⟩
    ∧ CVOutputManager.initBinary32.sampleToVoltageBinary32
        (CVOutputManager.initBinary32.voltageToSampleBinary32 (Binary32.ofFraction 1 10))
          ≠ Binary32.ofFraction 1 10 := by
  decide

set_option maxRecDepth 100000 in
/-- C19 (the code at the failing input): for 28 calibration points that all are
`(9.9f, 9.95f)`, the ideal voltages are equal, so their sum of squared deviations is 0.
In the `float` arithmetic of the code the mean of the 28 equal values is not `9.9f`, the
computed sum of squares `63 * 2 ^ (-38)` (2.29e-10) is not below `1e-10f`, and
`computeCalibrationFromPoints` takes the regular branch: it stores `gain = 3` and
`offset = -10459545 * 2 ^ (-19)` (-19.95), not `gain = 1` and `offset = 0.05`. -/
theorem computeCalibrationFromPoints_binary32_equal_ideals :
    (∀ p ∈ equalIdealsBinary32.interfaceCalibration.calibrationPoints,
        p = (Binary32.ofFraction 99 10, Binary32.ofFraction 995 100))
    ∧ equalIdealsBinary32.interfaceCalibration.calibrationPoints.length = 28
    ∧ (CVOutputManager.sumLoopBinary32
          equalIdealsBinary32.interfaceCalibration.calibrationPoints).1 / Binary32.ofInt 28
        ≠ Binary32.ofFraction 99 10
    ∧ (CVOutputManager.covLoopBinary32
          ((CVOutputManager.sumLoopBinary32
            equalIdealsBinary32.interfaceCalibration.calibrationPoints).1 / Binary32.ofInt 28)
          ((CVOutputManager.sumLoopBinary32
            equalIdealsBinary32.interfaceCalibration.calibrationPoints).2 / Binary32.ofInt 28)
          equalIdealsBinary32.interfaceCalibration.calibrationPoints).2
        = ⟨⟨16515072, -56⟩⟩
    ∧ ¬ ((⟨⟨16515072, -56⟩⟩ : Binary32).abs < Binary32.ofFraction 1 (10 ^ 10))
    ∧ (equalIdealsBinary32.computeCalibrationFromPointsBinary32 0).interfaceCalibration.gain = 3
    ∧ (equalIdealsBinary32.computeCalibrationFromPointsBinary32 0).interfaceCalibration.offset
        = ⟨⟨-10459545, -19⟩⟩
    ∧ (equalIdealsBinary32.computeCalibrationFromPointsBinary32 0).interfaceCalibration.isCalibrated
        = true := by
  decide

set_option maxRecDepth 100000 in
/-- C5 (counterexample): the table with the entries `(16777217, 1e8)` and
`(16777219, 1)` has two distinct notes, and the pitch `16777218` (the `float` `8388609 * 2`) lies
strictly between them, so the claim gives `1e8 + (1 / 2) * (1 - 1e8) = 50000000.5`.  In
the machine arithmetic of the code the notes are converted to the `float`s
`16777216 = 8388608 * 2` and `16777220 = 8388610 * 2`, the factor is `2 / 2 = 1`, the difference `1 - 1e8` rounds to `-1e8`, and
`getCorrectionOffset` returns 0. -/
theorem getCorrectionOffset_binary32_large_notes :
    (largeNotesBinary32.entries.map Entry.midiNote) = [16777217, 16777219]
    ∧ Binary32.ofInt 16777218 = ⟨⟨8388609, 1⟩⟩
    ∧ Binary32.ofInt 16777217 = ⟨⟨8388608, 1⟩⟩
    ∧ Binary32.ofInt 16777219 = ⟨⟨8388610, 1⟩⟩
    ∧ largeNotesBinary32.getCorrectionOffsetBinary32 (Binary32.ofInt 16777218) = some 0
    ∧ (100000000 : ℚ) + ((16777218 - 16777217) / (16777219 - 16777217)) * (1 - 100000000)
        = 100000001 / 2 := by
  refine ⟨by decide, by decide, by decide, by decide, by decide, by norm_num⟩

set_option maxRecDepth 100000 in
/-- C28 (counterexample): on the non-empty table with the entries `(16777217, 1e8)` and
`(16777219, 1)`, at the pitch `16777218`, the machine arithmetic of the code makes
`getCorrectionOffset` return 0, which is below the correction offset of every entry (the
least one is 1). -/
theorem getCorrectionOffset_binary32_below_offsets :
    largeNotesBinary32.entries ≠ []
    ∧ ∃ v, largeNotesBinary32.getCorrectionOffsetBinary32 (Binary32.ofInt 16777218) = some v
        ∧ ∀ e ∈ largeNotesBinary32.entries, v < e.correctionOffset := by
  refine ⟨by simp [largeNotesBinary32], 0, by decide, by decide⟩

set_option maxRecDepth 100000 in
/-- C14 (counterexample): the table with exactly the two entries `(2 ^ 30, 0)` and
`(2 ^ 30 + 1, 1)` has distinct 32-bit notes.  In the `double` arithmetic of the code the
square of `2 ^ 30 + 1` is rounded, the second pivot of the elimination comes out as 0,
and `getPolynomialCoefficients (1)` returns the empty "not available" result. -/
theorem getPolynomialCoefficients_binary64_adjacent_notes :
    adjacentNotesBinary32.entries.map Entry.midiNote = [2 ^ 30, 2 ^ 30 + 1]
    ∧ (2 : Int) ^ 30 + 1 < 2 ^ 31
    ∧ adjacentNotesBinary32.getPolynomialCoefficientsBinary64 1 = some [] := by
  decide

set_option maxRecDepth 100000 in
/-- C15 (the code at the failing input): the table with nine entries that all have the
note 123 has singular normal equations.  In the `double` arithmetic of the code the
elimination for degree 3 leaves rounding residues above `1e-10` in the pivots, no pivot
test fails, and `getPolynomialCoefficients (3)` returns the four coefficients
`1, 0, 0, 0` (the sign of a zero apart) instead of the empty sequence. -/
theorem getPolynomialCoefficients_binary64_equal_notes :
    nineEqualNotesBinary32.entries.length = 9
    ∧ (∀ e ∈ nineEqualNotesBinary32.entries, e.midiNote = 123)
    ∧ nineEqualNotesBinary32.getPolynomialCoefficientsBinary64 3 = some [1, 0, 0, 0]
    ∧ nineEqualNotesBinary32.getPolynomialCoefficientsBinary64 3 ≠ some [] := by
  have h : nineEqualNotesBinary32.getPolynomialCoefficientsBinary64 3 = some [1, 0, 0, 0] := by
    decide
  refine ⟨by decide, by decide, h, ?_⟩
  rw [h]
  simp
